import Mathlib

/-! Verification development for the vnode query pipeline.

A shallow embedding of parts of `src/system/detail/src/vnodeQueryImpl.c`.

Conventions.
* C integers are `Int`. Where the source itself works at the edge of the
  `int64_t` range (`doGetAlignedIntervalQueryRangeImpl`) the arithmetic is
  reduced with `wrap64`, i.e. two's complement wrap-around.
* A call that aborts in a failed `assert`, or that reads outside an array,
  yields `none`.
* A loop without a bound in the source is unfolded with a fuel argument;
  running out of fuel also yields `none`, and the theorems show which fuel is
  enough.
* Constants, macros and helpers that the source takes from headers or files
  outside `src/` are parameters, or are modelled from the spec and marked so.
-/

namespace VnodeQuery

/-! ## Constants declared in headers that are outside `src/` -/

/-- Success code. The source returns a plain `0` held in `ret` wherever it
returns `TSDB_CODE_SUCCESS`, and tests `ret != 0` for failure. -/
def TSDB_CODE_SUCCESS : Int := 0

/-- Index and column id of the primary timestamp column ("Column 0 is the
primary timestamp"). -/
def PRIMARYKEY_TIMESTAMP_COL_INDEX : Int := 0

/-- The three answers of `vnodeIsDatablockLoaded` (enum at the top of the file). -/
def DISK_BLOCK_NO_NEED_TO_LOAD : Int := 0

/-- See `DISK_BLOCK_NO_NEED_TO_LOAD`. -/
def DISK_BLOCK_LOAD_TS : Int := 1

/-- See `DISK_BLOCK_NO_NEED_TO_LOAD`. -/
def DISK_BLOCK_LOAD_BLOCK : Int := 2

/-- Scan order. `TSQL_SO_ASC` and `TSQL_SO_DESC` are two distinct constants of
a header outside `src/`; only their being distinct is used by the code. -/
inductive ScanOrder where
  | TSQL_SO_ASC
  | TSQL_SO_DESC
  deriving DecidableEq, Repr

export ScanOrder (TSQL_SO_ASC TSQL_SO_DESC)

/-- The source's `QUERY_IS_ASC_QUERY(q)`. -/
def QUERY_IS_ASC_QUERY (order : ScanOrder) : Bool := order == TSQL_SO_ASC

/-- The source's `GET_FORWARD_DIRECTION_FACTOR(order)`: `1` ascending, `-1` descending. -/
def GET_FORWARD_DIRECTION_FACTOR (order : ScanOrder) : Int :=
  if order = TSQL_SO_ASC then 1 else -1

/-! ## Loading a block from disk (`loadColumnIntoMem`, `loadDataBlockIntoMem`) -/

/-- What the file system answers while one column run is read: the result of
the two `lseek` calls, the checksum stored after the run and the checksum
computed over the bytes read. -/
structure ColumnRead where
  seekData : Int
  seekChecksum : Int
  storedChecksum : Nat
  computedChecksum : Nat
  deriving DecidableEq, Repr

/-- The cast `(int32_t)` of a wider integer: its value modulo `2^32`, taken
in the range of `int32_t`. -/
def toInt32 (x : Int) : Int :=
  (x + 2147483648) % 4294967296 - 2147483648

/-- The source's `readDataFromDiskFile`: `-1` when the result of `lseek`, cast
to `int32_t`, is `-1`, and `0` otherwise (the result of `read` is not looked
at). -/
def readDataFromDiskFile (seekRet : Int) : Int :=
  if toInt32 seekRet = -1 then -1 else 0

/-- The source's `loadColumnIntoMem`, return code only. -/
def loadColumnIntoMem (c : ColumnRead) : Int :=
  let ret := readDataFromDiskFile c.seekData
  if ret ≠ 0 then ret
  else
    let ret := readDataFromDiskFile c.seekChecksum
    if ret ≠ 0 then ret
    else if c.storedChecksum ≠ c.computedChecksum then -1
    else 0

/-- One entry of the field table of a block on disk. -/
structure SField where
  colId : Int
  type : Int
  numOfNullPoints : Int
  deriving DecidableEq, Repr

/-- One entry of `pQuery->colList`: `data.colId`, `data.type` and the two
`req` flags (indexed by the scan round). -/
structure SColumnInfoEx where
  colId : Int
  type : Int
  req : List Int
  deriving DecidableEq, Repr

/-- The source's `SLoadDataBlockInfo`. -/
structure SLoadDataBlockInfo where
  fileId : Int
  slotIdx : Int
  sid : Int
  fileListIndex : Int
  tsLoaded : Bool
  deriving DecidableEq, Repr

/-- The source's `vnodeIsDatablockLoaded`. -/
def vnodeIsDatablockLoaded (pLoadInfo : SLoadDataBlockInfo) (fileId slot sid fileIndex : Int)
    (loadPrimaryTS : Bool) : Int :=
  if pLoadInfo.fileId = fileId ∧ pLoadInfo.slotIdx = slot ∧ slot ≠ -1 ∧
      pLoadInfo.sid = sid ∧ pLoadInfo.fileListIndex = fileIndex then
    if pLoadInfo.tsLoaded = false ∧ pLoadInfo.tsLoaded ≠ loadPrimaryTS then DISK_BLOCK_LOAD_TS
    else DISK_BLOCK_NO_NEED_TO_LOAD
  else DISK_BLOCK_LOAD_BLOCK

/-- Everything `loadDataBlockIntoMem` looks at. -/
structure LoadEnv where
  /-- The source's `pRuntimeEnv->loadBlockInfo` -/
  loadBlockInfo : SLoadDataBlockInfo
  /-- The source's `pQuery->fileId` -/
  fileId : Int
  /-- The source's `pQuery->slot` -/
  slot : Int
  /-- The source's `pMeterObj->sid` -/
  sid : Int
  /-- The source's `pRuntimeEnv->vnodeFileInfo.current` -/
  current : Int
  /-- The source's `PRIMARY_TSCOL_LOADED(pQuery)` -/
  primaryTsColLoaded : Bool
  /-- The source's `pRuntimeEnv->scanFlag` -/
  scanFlag : Nat
  /-- The source's `pQuery->colList`, `pQuery->numOfCols` entries -/
  colList : List SColumnInfoEx
  /-- The source's `pBlock->numOfPoints` -/
  numOfPoints : Int
  /-- The source's `*pField`, `pBlock->numOfCols` entries -/
  fields : List SField
  /-- Return code of `loadDataBlockFieldsInfo` -/
  fieldsInfoRet : Int
  /-- Answers of the file system for the column run of field `j` -/
  disk : Nat → ColumnRead
  /-- The source's `TSDB_CODE_INVALID_QUERY_MSG`, a non-zero code of a header outside `src/` -/
  invalidQueryMsg : Int

/-- The source's `vnodeSetDataBlockInfoLoaded`. -/
def vnodeSetDataBlockInfoLoaded (fileId slot sid fileIndex : Int) (tsLoaded : Bool) :
    SLoadDataBlockInfo :=
  { fileId := fileId, slotIdx := slot, fileListIndex := fileIndex, sid := sid,
    tsLoaded := tsLoaded }

/-- Result of `loadDataBlockIntoMem`: the code returned, in call order the
field indexes handed to `loadColumnIntoMem` with the code each call returned,
and the load-info record afterwards. -/
structure LoadResult where
  ret : Int
  reads : List (Nat × Int)
  loadBlockInfo : SLoadDataBlockInfo
  deriving DecidableEq, Repr

/-- The merge loop `while (j < pBlock->numOfCols && i < pQuery->numOfCols)` of
`loadDataBlockIntoMem`, from the state `(i, j, ret)`: the value of `ret` after
the loop and the column reads made. Every round advances `i` or `j`, so
`fields.length + colList.length` rounds of fuel are enough. -/
def loadColumnsLoop (env : LoadEnv) :
    Nat → Nat → Nat → Int → List (Nat × Int) → Option (Int × List (Nat × Int))
  | 0, i, j, ret, reads =>
    if j < env.fields.length ∧ i < env.colList.length then none else some (ret, reads)
  | fuel + 1, i, j, ret, reads =>
    match env.fields[j]?, env.colList[i]? with
    | some f, some c =>
      if f.colId < c.colId then loadColumnsLoop env fuel i (j + 1) ret reads
      else if f.colId = c.colId then
        if f.type ≠ c.type then some (env.invalidQueryMsg, reads)
        else if c.req.getD env.scanFlag 0 = 1 ∨ c.colId = PRIMARYKEY_TIMESTAMP_COL_INDEX then
          if f.numOfNullPoints = env.numOfPoints then
            loadColumnsLoop env fuel (i + 1) (j + 1) ret reads
          else
            let r := loadColumnIntoMem (env.disk j)
            loadColumnsLoop env fuel (i + 1) (j + 1) r (reads ++ [(j, r)])
        else loadColumnsLoop env fuel (i + 1) (j + 1) ret reads
      else loadColumnsLoop env fuel (i + 1) j ret reads
    | _, _ => some (ret, reads)

/-- The source's `loadPrimaryTSColumn` (its `assert` aborts the call). -/
def loadPrimaryTSColumn (env : LoadEnv) : Option Int :=
  if env.primaryTsColLoaded then none
  else some (loadColumnIntoMem (env.disk PRIMARYKEY_TIMESTAMP_COL_INDEX.toNat))

/-- The source's `loadDataBlockIntoMem`. -/
def loadDataBlockIntoMem (env : LoadEnv) (fileIdx : Int) (loadPrimaryCol loadSField : Bool) :
    Option LoadResult :=
  if fileIdx ≠ env.current then none
  else
    let status := vnodeIsDatablockLoaded env.loadBlockInfo env.fileId env.slot env.sid fileIdx
      loadPrimaryCol
    let loaded := vnodeSetDataBlockInfoLoaded env.fileId env.slot env.sid fileIdx loadPrimaryCol
    if status = DISK_BLOCK_NO_NEED_TO_LOAD then some ⟨TSDB_CODE_SUCCESS, [], env.loadBlockInfo⟩
    else if status = DISK_BLOCK_LOAD_TS then
      if ¬ (env.primaryTsColLoaded = false ∧ loadSField = true) then none
      else (loadPrimaryTSColumn env).map fun ret => ⟨ret, [(0, ret)], loaded⟩
    else if loadSField ∧ env.fieldsInfoRet ≠ 0 then some ⟨-1, [], env.loadBlockInfo⟩
    else
      let rest (j : Nat) (reads : List (Nat × Int)) : Option LoadResult :=
        (loadColumnsLoop env (env.fields.length + env.colList.length) 0 j 0 reads).map
          fun r => ⟨r.1, r.2, loaded⟩
      if loadPrimaryCol then
        if env.primaryTsColLoaded then rest 0 []
        else
          match loadPrimaryTSColumn env with
          | none => none
          | some ret =>
            if ret ≠ TSDB_CODE_SUCCESS then some ⟨ret, [(0, ret)], env.loadBlockInfo⟩
            else rest 1 [(0, ret)]
      else rest 0 []

/-- A block with the fields 0 (timestamp), 1 and 2, queried for the columns 1
and 2: the run of field 1 carries a wrong checksum, the other runs are sound. -/
def maskedFailureEnv : LoadEnv where
  loadBlockInfo := ⟨-1, -1, -1, -1, false⟩
  fileId := 0
  slot := 0
  sid := 1
  current := 0
  primaryTsColLoaded := false
  scanFlag := 0
  colList := [⟨1, 4, [1, 1]⟩, ⟨2, 4, [1, 1]⟩]
  numOfPoints := 10
  fields := [⟨0, 9, 0⟩, ⟨1, 4, 0⟩, ⟨2, 4, 0⟩]
  fieldsInfoRet := 0
  disk := fun j => if j = 1 then ⟨0, 0, 7, 8⟩ else ⟨0, 0, 5, 5⟩
  invalidQueryMsg := 41

/-! ## Block locator (`binarySearchForBlockImpl`) -/

/-- The two fields of a block descriptor that the block locator reads. -/
structure SCompBlock where
  keyFirst : Int
  keyLast : Int
  deriving DecidableEq, Repr

/-- Read of `pBlock[i]`; `none` outside the array. -/
def blockAt (pBlock : List SCompBlock) (i : Int) : Option SCompBlock :=
  if i < 0 then none else pBlock[i.toNat]?

/-- The `while (1)` loop of `binarySearchForBlockImpl`, from the state
`(firstSlot, lastSlot)`. -/
def binarySearchLoop (pBlock : List SCompBlock) (skey : Int) (order : ScanOrder) :
    Nat → Int → Int → Option Int
  | 0, _, _ => none
  | fuel + 1, firstSlot, lastSlot =>
    let numOfBlocks := lastSlot - firstSlot + 1
    let midSlot := firstSlot + Int.shiftRight numOfBlocks 1
    if numOfBlocks = 1 then some midSlot
    else
      match blockAt pBlock midSlot with
      | none => none
      | some mid =>
        if skey > mid.keyLast then
          if numOfBlocks = 2 then some midSlot
          else if order = TSQL_SO_DESC then
            match blockAt pBlock (midSlot + 1) with
            | none => none
            | some next =>
              if skey < next.keyFirst then some midSlot
              else binarySearchLoop pBlock skey order fuel (midSlot + 1) lastSlot
          else binarySearchLoop pBlock skey order fuel (midSlot + 1) lastSlot
        else if skey < mid.keyFirst then
          if order = TSQL_SO_ASC then
            match blockAt pBlock (midSlot - 1) with
            | none => none
            | some prev =>
              if skey > prev.keyLast then some midSlot
              else binarySearchLoop pBlock skey order fuel firstSlot (midSlot - 1)
          else binarySearchLoop pBlock skey order fuel firstSlot (midSlot - 1)
        else some midSlot

/-- The source's `binarySearchForBlockImpl`. Each round of the loop that does not leave
it shrinks `lastSlot - firstSlot`, so `numOfBlocks` rounds are enough. -/
def binarySearchForBlockImpl (pBlock : List SCompBlock) (numOfBlocks : Int) (skey : Int)
    (order : ScanOrder) : Option Int :=
  binarySearchLoop pBlock skey order numOfBlocks.toNat 0 (numOfBlocks - 1)


/-- Sortedness of a block array, by index: every block has `keyFirst ≤ keyLast`
and `keyLast` of a block is at most `keyFirst` of the next one. -/
structure SortedBlocks (pBlock : List SCompBlock) : Prop where
  wf : ∀ (i : Int) (b : SCompBlock), blockAt pBlock i = some b → b.keyFirst ≤ b.keyLast
  step : ∀ (i : Int) (b b' : SCompBlock), blockAt pBlock i = some b →
    blockAt pBlock (i + 1) = some b' → b.keyLast ≤ b'.keyFirst

/-! ## Sliding windows (`getActiveSlidingWindow`, `rowwiseApplyAllFunctions`) -/

/-- The source's `STimeWindow`: a window closed on both ends. -/
structure STimeWindow where
  skey : Int
  ekey : Int
  deriving DecidableEq, Repr

/-- The source's `SWindowStatus`. -/
structure SWindowStatus where
  window : STimeWindow
  closed : Bool
  deriving DecidableEq, Repr

/-- Modelled from the spec: the generic hash table (`taosGetDataFromHash`,
`taosAddToHashTable`, `taosDeleteFromHashTable`) is code outside `src/`; the
spec describes it as "a hash table `startKey → windowIndex`". It is kept as the
list of its `(key, index)` entries. -/
abbrev HashList := List (Int × Int)

/-- Modelled from the spec: lookup of a key in the hash table. -/
def taosGetDataFromHash (h : HashList) (key : Int) : Option Int :=
  (h.find? fun e => e.1 == key).map Prod.snd

/-- Modelled from the spec: insertion of an entry into the hash table. -/
def taosAddToHashTable (h : HashList) (key : Int) (index : Int) : HashList :=
  h ++ [(key, index)]

/-- The source's `SSlidingWindowInfo`; `pStatus` holds `capacity` entries of which the
first `size` are in use. -/
structure SSlidingWindowInfo where
  hashList : HashList
  curIndex : Int
  capacity : Nat
  size : Nat
  threshold : Int
  startTime : Int
  prevSKey : Int
  pStatus : List SWindowStatus
  deriving DecidableEq, Repr

/-- A zeroed `SWindowStatus` (`calloc`, `memset`). -/
def zeroWindowStatus : SWindowStatus := ⟨⟨0, 0⟩, false⟩

/-- The loop `while (st > ts) st -= slidingTime` of `getActiveSlidingWindow`. -/
def slideDownLoop (slidingTime ts : Int) : Nat → Int → Option Int
  | 0, st => if st > ts then none else some st
  | fuel + 1, st => if st > ts then slideDownLoop slidingTime ts fuel (st - slidingTime) else some st

/-- The loop `while ((st + nAggTimeInterval - 1) < ts) st += slidingTime` of
`getActiveSlidingWindow`. -/
def slideUpLoop (nAggTimeInterval slidingTime ts : Int) : Nat → Int → Option Int
  | 0, st => if st + nAggTimeInterval - 1 < ts then none else some st
  | fuel + 1, st =>
    if st + nAggTimeInterval - 1 < ts then
      slideUpLoop nAggTimeInterval slidingTime ts fuel (st + slidingTime)
    else some st

/-- The source's `curSlidingWindow` followed by `getSlidingWindowStatus`: the status of
the current window; the `assert` on `curIndex` aborts the call. -/
def curWindowStatus (info : SSlidingWindowInfo) : Option SWindowStatus :=
  if info.curIndex ≥ 0 ∧ info.curIndex < info.size then info.pStatus[info.curIndex.toNat]?
  else none

/-- The closing `assert(ts >= w.skey && ts <= w.ekey)` of
`getActiveSlidingWindow`, which aborts the call when it fails. -/
def assertWindowContains (ts : Int) (w : STimeWindow) : Option STimeWindow :=
  if ts ≥ w.skey ∧ ts ≤ w.ekey then some w else none

/-- The source's `getActiveSlidingWindow`. With `slidingTime ≥ 1` a round of either loop
moves `st` by at least one towards its exit, so the distances used as fuel are
enough. -/
def getActiveSlidingWindow (info : SSlidingWindowInfo) (ts : Int)
    (nAggTimeInterval slidingTime : Int) : Option STimeWindow :=
  if info.curIndex = -1 then
    assertWindowContains ts ⟨info.prevSKey, info.prevSKey + nAggTimeInterval - 1⟩
  else
    match curWindowStatus info with
    | none => none
    | some pStatus =>
      if pStatus.window.skey ≤ ts ∧ pStatus.window.ekey ≥ ts then
        assertWindowContains ts pStatus.window
      else
        let st := pStatus.window.skey
        match slideDownLoop slidingTime ts (st - ts).toNat st with
        | none => none
        | some st1 =>
          match slideUpLoop nAggTimeInterval slidingTime ts
              (ts - (st1 + nAggTimeInterval - 1)).toNat st1 with
          | none => none
          | some st2 => assertWindowContains ts ⟨st2, st2 + nAggTimeInterval - 1⟩

/-- The source's `doSetSlidingWindowFromKey`: the window set afterwards and the index `p`
of the slot that belongs to the key. -/
def doSetSlidingWindowFromKey (info : SSlidingWindowInfo) (key : Int) :
    SSlidingWindowInfo × Int :=
  match taosGetDataFromHash info.hashList key with
  | some p => ({ info with curIndex := p }, p)
  | none =>
    let grown : SSlidingWindowInfo :=
      if info.size ≥ info.capacity then
        { info with
          pStatus := info.pStatus ++ List.replicate info.capacity zeroWindowStatus
          capacity := info.capacity * 2 }
      else info
    ({ grown with
        curIndex := grown.size
        size := grown.size + 1
        hashList := taosAddToHashTable grown.hashList key grown.size }, grown.size)

/-- The source's `setSlidingWindowFromKey` (the `assert` aborts the call); the slot found
for the start key gets the window written into its status. -/
def setSlidingWindowFromKey (info : SSlidingWindowInfo) (pTimeWindow : STimeWindow) :
    Option SSlidingWindowInfo :=
  if ¬ pTimeWindow.skey < pTimeWindow.ekey then none
  else
    let r := doSetSlidingWindowFromKey info pTimeWindow.skey
    some { r.1 with
      pStatus := r.1.pStatus.modify (fun s => { s with window := pTimeWindow }) r.2.toNat }

/-- The source's `getNextLogicalQueryRange`. -/
def getNextLogicalQueryRange (slidingTime : Int) (order : ScanOrder) (w : STimeWindow) :
    STimeWindow :=
  let factor := GET_FORWARD_DIRECTION_FACTOR order
  ⟨w.skey + slidingTime * factor, w.ekey + slidingTime * factor⟩

/-- The fields of `SQuery` read by the sliding-window branch. -/
structure SlidingQuery where
  nAggTimeInterval : Int
  slidingTime : Int
  skey : Int
  ekey : Int
  order : ScanOrder
  deriving DecidableEq, Repr

/-- The inner `while (1)` of the sliding-window branch of
`rowwiseApplyAllFunctions`, entered with `nextWin`: the windows after `nextWin`
that the row `ts` is applied to, and the window set afterwards. -/
def nextWindowsLoop (q : SlidingQuery) (ts : Int) :
    Nat → STimeWindow → SSlidingWindowInfo → Option (List STimeWindow × SSlidingWindowInfo)
  | 0, _, _ => none
  | fuel + 1, nextWin, info =>
    let nextWin := getNextLogicalQueryRange q.slidingTime q.order nextWin
    if info.startTime > nextWin.skey ∨ (nextWin.skey > q.ekey ∧ QUERY_IS_ASC_QUERY q.order) ∨
        (nextWin.skey > q.skey ∧ ¬ QUERY_IS_ASC_QUERY q.order) then some ([], info)
    else if ts ≥ nextWin.skey ∧ ts ≤ nextWin.ekey then
      match setSlidingWindowFromKey info nextWin with
      | none => none
      | some info1 =>
        match nextWindowsLoop q ts fuel nextWin info1 with
        | none => none
        | some (wins, info2) => some (nextWin :: wins, info2)
    else some ([], info)

/-- The sliding-window branch of the row loop of `rowwiseApplyAllFunctions`
(taken when `slidingTime > 0 && nAggTimeInterval > 0`) for one row with
timestamp `ts`: the windows selected with `setSlidingWindowFromKey`, on each of
which the functions are run for the row, and the window set afterwards. Every
exit of the inner loop puts `curIndex` back to the index of the active window.
Each further window moves by `slidingTime ≥ 1` away from `ts`, which bounds the
rounds of the inner loop by the fuel given. -/
def slidingWindowRow (q : SlidingQuery) (info : SSlidingWindowInfo) (ts : Int) :
    Option (List STimeWindow × SSlidingWindowInfo) :=
  match getActiveSlidingWindow info ts q.nAggTimeInterval q.slidingTime with
  | none => none
  | some win =>
    match setSlidingWindowFromKey info win with
    | none => none
    | some info1 =>
      let index := info1.curIndex
      match nextWindowsLoop q ts ((ts - win.skey).toNat + (win.ekey - ts).toNat + 1) win info1 with
      | none => none
      | some (wins, info2) => some (win :: wins, { info2 with curIndex := index })

/-- Distance from the row `ts` to the edge of the window `w` that further
windows in scan direction move towards. -/
def scanDistance (order : ScanOrder) (ts : Int) (w : STimeWindow) : Int :=
  if order = TSQL_SO_ASC then ts - w.skey else w.ekey - ts

/-- The window set at the start of an ascending query whose first key is 1000,
for `nAggTimeInterval = 2000`: the aligned start of the first key is 0, so
`startTime = 0` and `prevSKey = 0`; no window is open yet. -/
def slidingStartState : SSlidingWindowInfo :=
  ⟨[], -1, 4, 0, 4, 0, 0, List.replicate 4 zeroWindowStatus⟩


/-- The window set at the start of a descending query from 4000 down to 0, for
`nAggTimeInterval = 2000` and `slidingTime = 1000`: `startTime = 0` is the
aligned start of the lowest key, `prevSKey = 0 + (4000 - 0) / 1000 * 1000` the
start of the window the first row falls into; no window is open yet. -/
def slidingDescStartState : SSlidingWindowInfo :=
  ⟨[], -1, 4, 0, 4, 0, 4000, List.replicate 4 zeroWindowStatus⟩
/-! ## Aligned interval range (`doGetAlignedIntervalQueryRangeImpl`) -/

/-- Largest `int64_t`. -/
def INT64_MAX : Int := 9223372036854775807

/-- Smallest `int64_t`. -/
def INT64_MIN : Int := -9223372036854775808

/-- Value of an `int64_t` computation whose exact result is `x`: two's
complement wrap-around. -/
def wrap64 (x : Int) : Int :=
  (x + 9223372036854775808) % 18446744073709551616 - 9223372036854775808

/-- Being a value of `int64_t`. -/
def isInt64 (x : Int) : Prop := INT64_MIN ≤ x ∧ x ≤ INT64_MAX

instance (x : Int) : Decidable (isInt64 x) := by
  unfold isInt64; infer_instance

/-- Modelled from the spec: `taosGetIntervalStartTimestamp` is code outside
`src/`; the spec gives the aligned start of the window of a timestamp `t` as
"`skey = floor((t − epoch) / interval) × interval + epoch`". -/
def taosGetIntervalStartTimestamp (t interval epoch : Int) : Int :=
  (t - epoch) / interval * interval + epoch

/-- The four values `doGetAlignedIntervalQueryRangeImpl` writes through its
pointer arguments. -/
structure AlignedRange where
  actualSkey : Int
  actualEkey : Int
  skey : Int
  ekey : Int
  deriving DecidableEq, Repr

/-- The source's `doGetAlignedIntervalQueryRangeImpl`. The argument `alignedStart` is the
value that the call of `taosGetIntervalStartTimestamp` for `pKey` returns; a
failed `assert` aborts the call. -/
def doGetAlignedIntervalQueryRangeImpl (nAggTimeInterval alignedStart pKey keyFirst keyLast : Int) :
    Option AlignedRange :=
  if ¬ (pKey ≥ keyFirst ∧ pKey ≤ keyLast) then none
  else
    let skey := alignedStart
    if keyFirst > wrap64 (INT64_MAX - nAggTimeInterval) then
      if ¬ (wrap64 (keyLast - keyFirst) < nAggTimeInterval) then none
      else some ⟨keyFirst, keyLast, skey, INT64_MAX⟩
    else
      let ekey := wrap64 (wrap64 (skey + nAggTimeInterval) - 1)
      let actualSkey := if skey < keyFirst then keyFirst else skey
      let actualEkey := if ekey < keyLast then ekey else keyLast
      some ⟨actualSkey, actualEkey, skey, ekey⟩

/-! ## Query status and the limit (`setQueryStatus`, `doRevisedResultsByLimit`) -/

/-- The status constants of `query.over`, declared in a header outside `src/`.
The spec calls them a bitfield `NOT_COMPLETED`, `COMPLETED`,
`NO_DATA_TO_CHECK`, `RESBUF_FULL`; their values are left open. -/
structure QueryStatusFlags where
  QUERY_NOT_COMPLETED : Nat
  QUERY_COMPLETED : Nat
  QUERY_NO_DATA_TO_CHECK : Nat
  QUERY_RESBUF_FULL : Nat
  deriving DecidableEq, Repr

/-- The source's `setQueryStatus` on the 8-bit field `over`: `~QUERY_NOT_COMPLETED` is the
complement within the eight bits. -/
def setQueryStatus (F : QueryStatusFlags) (over status : Nat) : Nat :=
  if status = F.QUERY_NOT_COMPLETED then status
  else (over &&& (255 ^^^ F.QUERY_NOT_COMPLETED)) ||| status

/-- The fields read and written by `doRevisedResultsByLimit`: `limit.limit`,
`pointsRead` and `over` of the query, and `pointsRead` of the `SQInfo`. Row
counts stay far below the `int64_t` range and are plain integers. -/
structure LimitState where
  limit : Int
  pointsRead : Int
  qinfoPointsRead : Int
  over : Nat
  deriving DecidableEq, Repr

/-- The source's `doRevisedResultsByLimit`: the value returned and the state afterwards. -/
def doRevisedResultsByLimit (F : QueryStatusFlags) (s : LimitState) : Bool × LimitState :=
  if s.limit > 0 ∧ s.pointsRead + s.qinfoPointsRead > s.limit then
    (true, { s with
      pointsRead := s.limit - s.qinfoPointsRead
      over := setQueryStatus F s.over F.QUERY_COMPLETED })
  else (false, s)

/-! ## Result pager (`doCopyFromGroupBuf`) -/

/-- The continuation state of the pager: `pSupporter->subgroupIdx` and
`pSupporter->offset`. -/
structure GroupCursor where
  subgroupIdx : Int
  offset : Int
  deriving DecidableEq, Repr

/-- One `memcpy` round of `doCopyFromGroupBuf`: the group copied from, the row
it starts at (`oldOffset`) and the number of rows copied. -/
structure GroupCopy where
  group : Nat
  oldOffset : Int
  numOfRowsToCopy : Int
  deriving DecidableEq, Repr

/-- What `doCopyFromGroupBuf` leaves behind: the value returned
(`numOfResult`), the continuation state and the copies made, in order. -/
structure GroupCopyResult where
  numOfResult : Int
  cursor : GroupCursor
  copies : List GroupCopy
  deriving DecidableEq, Repr

/-- The values `i` takes in `for (i = startIdx; (i < totalSubset) && (i >= 0);
i += forward)` when no round leaves the loop; `forward` is `1` or `-1`. -/
def groupVisitOrder (startIdx totalSubset : Int) (forward : Int) : List Nat :=
  if 0 ≤ startIdx ∧ startIdx < totalSubset then
    if forward = 1 then List.range' startIdx.toNat (totalSubset - startIdx).toNat
    else (List.range (startIdx.toNat + 1)).reverse
  else []

/-- The body of the `for` loop of `doCopyFromGroupBuf` run over the groups
`visit`, from the state `(cursor, numOfResult)`; `result` holds `numOfRows` of
every group. The `assert` and a read outside `result` abort the call. -/
def doCopyLoop (result : List Int) (pointsToRead : Int) :
    List Nat → GroupCursor → Int → List GroupCopy → Option GroupCopyResult
  | [], cur, numOfResult, copies => some ⟨numOfResult, cur, copies⟩
  | i :: visit, cur, numOfResult, copies =>
    match result[i]? with
    | none => none
    | some numOfRows =>
      if numOfRows = 0 then
        doCopyLoop result pointsToRead visit ⟨cur.subgroupIdx + 1, 0⟩ numOfResult copies
      else if ¬ (numOfRows ≥ 0 ∧ cur.offset ≤ 1) then none
      else
        let numOfRowsToCopy := numOfRows - cur.offset
        let oldOffset := cur.offset
        let numOfRowsToCopy' :=
          if numOfRowsToCopy > pointsToRead - numOfResult then pointsToRead - numOfResult
          else numOfRowsToCopy
        let cur' : GroupCursor :=
          if numOfRowsToCopy > pointsToRead - numOfResult then
            ⟨cur.subgroupIdx, cur.offset + numOfRowsToCopy'⟩
          else ⟨cur.subgroupIdx + 1, 0⟩
        let copies' := copies ++ [⟨i, oldOffset, numOfRowsToCopy'⟩]
        let numOfResult' := numOfResult + numOfRowsToCopy'
        if numOfResult' = pointsToRead then some ⟨numOfResult', cur', copies'⟩
        else doCopyLoop result pointsToRead visit cur' numOfResult' copies'

/-- The source's `doCopyFromGroupBuf`; `totalSubset` is the value of `getSubsetNumber`. -/
def doCopyFromGroupBuf (result : List Int) (totalSubset pointsToRead : Int)
    (orderType : ScanOrder) (cur : GroupCursor) : Option GroupCopyResult :=
  let startIdx := if orderType = TSQL_SO_ASC then cur.subgroupIdx
    else totalSubset - cur.subgroupIdx - 1
  let forward : Int := if orderType = TSQL_SO_ASC then 1 else -1
  doCopyLoop result pointsToRead (groupVisitOrder startIdx totalSubset forward) cur 0 []

/-- Index of the group a call of `doCopyFromGroupBuf` starts at. -/
def groupStartIdx (totalSubset : Int) (orderType : ScanOrder) (cur : GroupCursor) : Int :=
  if orderType = TSQL_SO_ASC then cur.subgroupIdx else totalSubset - cur.subgroupIdx - 1

/-! ## Block scan and cancellation (`isQueryKilled`, `doScanAllDataBlocks`) -/

/-- The part of the runtime that `doScanAllDataBlocks` itself reads and
writes: `pQuery->over`, `pQInfo->killed`, whether the queried table is in the
state `TSDB_METER_STATE_DROPPING`, `pQuery->slot` and `pRuntimeEnv->startPos.slot`;
`rest` is everything else (positions, buffers, files, cache). Another thread may
set `killed` or drop the table while a block is handled, so the block
operations below may change these fields. -/
structure ScanState (σ : Type) where
  over : Nat
  killed : Int
  meterDropping : Bool
  slot : Int
  startPosSlot : Int
  rest : σ

/-- The functions called from the loop of `doScanAllDataBlocks`, left open:
`doHandleDataBlockImpl` (with the `forwardStep` it reports),
`queryCompleteInBlock`, the bookkeeping of `nextPos` done when the query
completes in the block, `moveToNextBlock` and
`checkQueryRangeAgainstNextBlock`. -/
structure ScanOps (σ : Type) where
  doHandleDataBlockImpl : ScanState σ → ScanState σ × Int
  queryCompleteInBlock : ScanState σ → Int → Bool
  saveNextPos : ScanState σ → ScanState σ
  moveToNextBlock : ScanState σ → ScanState σ
  checkQueryRangeAgainstNextBlock : ScanState σ → Bool

/-- The source's `isQueryKilled`: the answer and the state afterwards (a table that is
being dropped sets `killed`). -/
def isQueryKilled {σ : Type} (s : ScanState σ) : Bool × ScanState σ :=
  if s.meterDropping then (true, { s with killed := 1 })
  else (decide (s.killed = 1), s)

/-- The macro `Q_STATUS_EQUAL(p, s)` of a header outside `src/`: `p` and `s`
share a bit. -/
def Q_STATUS_EQUAL (p s : Nat) : Bool := p &&& s ≠ 0

/-- What `doScanAllDataBlocks` leaves behind: the value returned (`cnt`), the
number of blocks handed to `doHandleDataBlockImpl` and the state. -/
structure ScanResult (σ : Type) where
  cnt : Int
  blocks : Nat
  state : ScanState σ

/-- The `while (1)` loop of `doScanAllDataBlocks`, entered with `cnt` rows
scanned in `blocks` blocks. The number of rounds depends on the data, so the
loop takes fuel. -/
def scanLoop {σ : Type} (F : QueryStatusFlags) (ops : ScanOps σ) :
    Nat → ScanState σ → Int → Nat → Option (ScanResult σ)
  | 0, _, _, _ => none
  | fuel + 1, s, cnt, blocks =>
    let polled := isQueryKilled s
    if polled.1 then
      some ⟨cnt, blocks,
        { polled.2 with over := setQueryStatus F polled.2.over F.QUERY_NO_DATA_TO_CHECK }⟩
    else
      let handled := ops.doHandleDataBlockImpl polled.2
      let forwardStep := handled.2
      let cnt := cnt + forwardStep
      if ops.queryCompleteInBlock handled.1 forwardStep then
        some ⟨cnt, blocks + 1, ops.saveNextPos handled.1⟩
      else
        let moved := ops.moveToNextBlock handled.1
        if Q_STATUS_EQUAL moved.over (F.QUERY_NO_DATA_TO_CHECK ||| F.QUERY_COMPLETED) then
          some ⟨cnt, blocks + 1,
            { moved with over := setQueryStatus F moved.over F.QUERY_COMPLETED }⟩
        else if ¬ ops.checkQueryRangeAgainstNextBlock moved then some ⟨cnt, blocks + 1, moved⟩
        else scanLoop F ops fuel moved cnt (blocks + 1)

/-- The source's `doScanAllDataBlocks`, with the fuel for its loop; the `assert` on the
start slot aborts the call. -/
def doScanAllDataBlocks {σ : Type} (F : QueryStatusFlags) (ops : ScanOps σ) (fuel : Nat)
    (s : ScanState σ) : Option (ScanResult σ) :=
  if s.slot ≠ s.startPosSlot then none
  else scanLoop F ops fuel s 0 0

/-- Block operations of a scan over blocks of 10 rows that never completes by
itself; after the third block another thread kills the query. -/
def endlessScanOps : ScanOps Nat where
  doHandleDataBlockImpl := fun s =>
    ({ s with rest := s.rest + 1, killed := if s.rest + 1 = 3 then 1 else s.killed }, 10)
  queryCompleteInBlock := fun _ _ => false
  saveNextPos := fun s => s
  moveToNextBlock := fun s => { s with slot := s.slot + 1 }
  checkQueryRangeAgainstNextBlock := fun _ => true

/-- Status constants used in examples: one bit each. -/
def exampleFlags : QueryStatusFlags := ⟨1, 2, 4, 8⟩

/-! ## Parameter check (`vnodeParametersSafetyCheck`) -/

/-- The source's `vnodeParametersSafetyCheck` on the column ids `colList[i].data.colId`,
`i < numOfCols`: the loop compares every entry with the next one. -/
def vnodeParametersSafetyCheck : List Int → Bool
  | a :: b :: rest => if a = b then false else vnodeParametersSafetyCheck (b :: rest)
  | _ => true

/-! ## Functions run in a scan (`functionNeedToExecute`) -/

/-- The function ids `TSDB_FUNC_*` named by `functionNeedToExecute`, declared
in a header outside `src/`; their values are left open. -/
structure FunctionIds where
  TSDB_FUNC_FIRST : Int
  TSDB_FUNC_LAST : Int
  TSDB_FUNC_FIRST_DST : Int
  TSDB_FUNC_LAST_DST : Int
  TSDB_FUNC_TS : Int
  TSDB_FUNC_TAG : Int
  TSDB_FUNC_TS_DUMMY : Int
  TSDB_FUNC_TAG_DUMMY : Int
  deriving DecidableEq, Repr

/-- The source's `functionNeedToExecute`; `isMasterScan` is the value of
`IS_MASTER_SCAN(pRuntimeEnv)` and `complete` is `pResInfo->complete`. -/
def functionNeedToExecute (ids : FunctionIds) (isMasterScan complete : Bool)
    (functionId : Int) : Bool :=
  if complete ∨ functionId = ids.TSDB_FUNC_TAG_DUMMY ∨ functionId = ids.TSDB_FUNC_TS_DUMMY then
    false
  else if ¬ isMasterScan ∧
      ¬ (functionId = ids.TSDB_FUNC_LAST_DST ∨ functionId = ids.TSDB_FUNC_FIRST_DST ∨
        functionId = ids.TSDB_FUNC_FIRST ∨ functionId = ids.TSDB_FUNC_LAST ∨
        functionId = ids.TSDB_FUNC_TAG ∨ functionId = ids.TSDB_FUNC_TS) then
    false
  else true

/-- The six functions run in a supplementary scan. -/
def isSupplementaryFunction (ids : FunctionIds) (functionId : Int) : Prop :=
  functionId = ids.TSDB_FUNC_FIRST ∨ functionId = ids.TSDB_FUNC_LAST ∨
  functionId = ids.TSDB_FUNC_FIRST_DST ∨ functionId = ids.TSDB_FUNC_LAST_DST ∨
  functionId = ids.TSDB_FUNC_TS ∨ functionId = ids.TSDB_FUNC_TAG

/-- Eight pairwise different function ids, for examples. -/
def exampleFunctionIds : FunctionIds := ⟨8, 9, 25, 26, 16, 20, 17, 18⟩

/-! ## Trash of the cache (`taosRemoveFromTrash`, `taosTrashEmpty`) in `tcache.c` -/

/-- A cache node as the sweeper of the trash sees it: its address, its
`signature` (the address of the node while the node is alive) and its reference
count `T_REF_VAL_GET(pNode)`. -/
structure SCacheDataNode where
  addr : Nat
  signature : Nat
  refCount : Int
  deriving DecidableEq, Repr

/-- The trash of a cache object: the nodes of the elements linked from
`pObj->pTrash` through `next`, head first, and the counter
`pObj->numOfElemsInTrash`. -/
structure TrashState where
  pTrash : List SCacheDataNode
  numOfElemsInTrash : Int
  deriving DecidableEq, Repr

/-- The loop `while (pElem)` of `taosTrashEmpty` over the elements still to
visit; `kept` are the elements visited and left in the list, `freed` the
addresses of the nodes freed so far. `T_REF_VAL_CHECK` (a macro of a header
outside `src/`) asserts a reference count `≥ 0`. The call
`taosRemoveFromTrash` leaves an element in place when the signature of its
node is not the address of the node, which is also the case of a node freed
earlier in the sweep (its signature was set to 0). -/
def trashEmptyLoop (force : Bool) :
    List SCacheDataNode → List SCacheDataNode → List Nat → Int →
      Option (List SCacheDataNode × Int)
  | [], kept, _, numOfElemsInTrash => some (kept, numOfElemsInTrash)
  | pElem :: rest, kept, freed, numOfElemsInTrash =>
    if pElem.refCount < 0 then none
    else if force ∨ pElem.refCount = 0 then
      if pElem.addr ∈ freed ∨ pElem.signature ≠ pElem.addr then
        trashEmptyLoop force rest (kept ++ [pElem]) freed numOfElemsInTrash
      else
        trashEmptyLoop force rest kept (pElem.addr :: freed) (numOfElemsInTrash - 1)
    else trashEmptyLoop force rest (kept ++ [pElem]) freed numOfElemsInTrash

/-- The source's `taosTrashEmpty`; the closing `assert` aborts the call. -/
def taosTrashEmpty (pObj : TrashState) (force : Bool) : Option TrashState :=
  if pObj.numOfElemsInTrash = 0 then some { pObj with pTrash := [] }
  else
    match trashEmptyLoop force pObj.pTrash [] [] pObj.numOfElemsInTrash with
    | none => none
    | some (kept, n) => if n ≥ 0 then some ⟨kept, n⟩ else none

/-! ## Cache ring reader (`isCacheBlockValid`, `getCacheDataBlock`) -/

/-- The fields of a cache block that the reader looks at: the owning table
(`pMeterObj`, an address), `blockId` and `numOfPoints`. -/
structure SCacheBlock where
  pMeterObj : Nat
  blockId : Int
  numOfPoints : Int
  deriving DecidableEq, Repr

/-- The source's `isCacheBlockValid`; `qBlockId` is `pQuery->blockId`, the
block id of the snapshot. -/
def isCacheBlockValid (qBlockId : Int) (pBlock : SCacheBlock) (pMeterObj : Nat) : Bool :=
  if pMeterObj ≠ pBlock.pMeterObj ∨ pBlock.blockId > qBlockId then false
  else if pBlock.numOfPoints = 0 then false
  else true

/-- The source's `SCacheInfo`: the ring of a table. A flushed slot holds no
block. -/
structure SCacheInfo where
  maxBlocks : Int
  numOfBlocks : Int
  currentSlot : Int
  commitSlot : Int
  commitPoint : Int
  cacheBlocks : Option (List (Option SCacheBlock))
  deriving DecidableEq, Repr

/-- The copy of a cache block kept in `pRuntimeEnv->cacheBlock` together with
the column data copied for it: the rows `offset ... offset + numOfPoints - 1`
of the block in the ring, `numOfPoints` being that of the copy. -/
structure CacheBlockCopy where
  block : SCacheBlock
  offset : Int
  deriving DecidableEq, Repr

/-- The part of the runtime that `getCacheDataBlock` reads and writes: the
position and the cache snapshot held in the query, the load-info record, the
local block copy, and whether every queried column agrees with the schema of
the table (the `assert` of the copy loop). -/
structure CacheReadState where
  fileId : Int
  slot : Int
  blockId : Int
  currentSlot : Int
  numOfBlocks : Int
  firstSlot : Int
  commitSlot : Int
  commitPoint : Int
  loadBlockInfo : SLoadDataBlockInfo
  cacheBlock : CacheBlockCopy
  columnsMatchSchema : Bool
  deriving DecidableEq, Repr

/-- The source's `getFirstCacheSlot`, with the remainder of C. -/
def getFirstCacheSlot (numOfBlocks lastSlot : Int) (pCacheInfo : SCacheInfo) : Int :=
  Int.tmod (lastSlot - numOfBlocks + 1 + pCacheInfo.maxBlocks) pCacheInfo.maxBlocks

/-- Read of `cacheBlocks[slot]`: `none` outside the ring, `some none` for a
slot without a block. -/
def cacheBlockAt (blocks : List (Option SCacheBlock)) (slot : Int) : Option (Option SCacheBlock) :=
  if slot < 0 then none else blocks[slot.toNat]?

/-- The source's `getBasicCacheInfoSnapshot`; reading the block id through a
missing current block aborts the call. -/
def getBasicCacheInfoSnapshot (s : CacheReadState) (pCacheInfo : SCacheInfo)
    (blocks : List (Option SCacheBlock)) : Option CacheReadState :=
  let s1 : CacheReadState := { s with
    currentSlot := pCacheInfo.currentSlot
    numOfBlocks := pCacheInfo.numOfBlocks
    firstSlot := getFirstCacheSlot pCacheInfo.numOfBlocks pCacheInfo.currentSlot pCacheInfo
    commitSlot := pCacheInfo.commitSlot
    commitPoint := pCacheInfo.commitPoint }
  if s1.numOfBlocks > 0 then
    match cacheBlockAt blocks s1.currentSlot with
    | some (some b) => some { s1 with blockId := b.blockId }
    | _ => none
  else some s1

/-- What `getCacheDataBlock` leaves behind: the block returned (`none` for
`NULL`) and the state afterwards. -/
structure CacheReadResult where
  block : Option CacheBlockCopy
  state : CacheReadState
  deriving DecidableEq, Repr

/-- The source's `getCacheDataBlock` for the table at address `pMeterObj` with
session id `sid` and cache `pCache`. A failed `assert` aborts the call. -/
def getCacheDataBlock (pMeterObj : Nat) (sid : Int) (pCache : Option SCacheInfo)
    (s : CacheReadState) (slot : Int) : Option CacheReadResult :=
  match pCache with
  | none => some ⟨none, s⟩
  | some pCacheInfo =>
    match pCacheInfo.cacheBlocks with
    | none => some ⟨none, s⟩
    | some blocks =>
      if slot < 0 ∨ slot ≥ pCacheInfo.maxBlocks then some ⟨none, s⟩
      else
        match getBasicCacheInfoSnapshot s pCacheInfo blocks with
        | none => none
        | some s1 =>
          match cacheBlockAt blocks slot with
          | none => none
          | some none => some ⟨none, s1⟩
          | some (some pBlock) =>
            if ¬ isCacheBlockValid s1.blockId pBlock pMeterObj then some ⟨none, s1⟩
            else if vnodeIsDatablockLoaded s1.loadBlockInfo s1.fileId s1.slot sid (-1) true =
                DISK_BLOCK_NO_NEED_TO_LOAD then
              some ⟨some s1.cacheBlock, s1⟩
            else
              let commitChecked : Option (Int × Int) :=
                if s1.firstSlot = s1.commitSlot then
                  if s1.commitPoint ≥ 0 ∧ s1.commitPoint ≤ pBlock.numOfPoints then
                    some (s1.commitPoint, pBlock.numOfPoints - s1.commitPoint)
                  else none
                else some (0, pBlock.numOfPoints)
              match commitChecked with
              | none => none
              | some (offset, numOfPoints) =>
                let pNewBlock : CacheBlockCopy := ⟨{ pBlock with numOfPoints := numOfPoints }, offset⟩
                let s2 : CacheReadState := { s1 with cacheBlock := pNewBlock }
                if s1.firstSlot = s1.commitSlot ∧ numOfPoints = 0 then some ⟨none, s2⟩
                else if ¬ s2.columnsMatchSchema then none
                else
                  let s3 : CacheReadState := { s2 with fileId := -1, slot := slot }
                  if ¬ isCacheBlockValid s3.blockId pNewBlock.block pMeterObj then
                    some ⟨none, s3⟩
                  else
                    some ⟨some pNewBlock,
                      { s3 with
                        loadBlockInfo := vnodeSetDataBlockInfoLoaded s3.fileId s3.slot sid (-1) true }⟩

/-- A ring of four slots with blocks of 10 rows in the slots 1 and 2, slot 2
being the current one; rows of slot 1 are committed up to row 3
(`commitSlot = 1`, `commitPoint = 3`). The table lives at address 7. -/
def commitRing : SCacheInfo where
  maxBlocks := 4
  numOfBlocks := 2
  currentSlot := 2
  commitSlot := 1
  commitPoint := 3
  cacheBlocks := some [none, some ⟨7, 11, 10⟩, some ⟨7, 12, 10⟩, none]

/-- A reader state before any cache block was read. -/
def freshCacheReadState : CacheReadState where
  fileId := -1
  slot := 2
  blockId := 0
  currentSlot := 0
  numOfBlocks := 0
  firstSlot := 0
  commitSlot := 0
  commitPoint := 0
  loadBlockInfo := ⟨-1, -1, -1, -1, false⟩
  cacheBlock := ⟨⟨0, 0, 0⟩, 0⟩
  columnsMatchSchema := true

/-! ## File enumeration (`vnodeGetVnodeHeaderFileIdx`) -/

/-- The loop `while (i < numOfFiles && *fid > pFileInfo[i].fileID) i += step`
of the ascending branch, from index `i`: the value of `i` after the loop. The
list holds the `fileID` of every file; `rounds` bounds the rounds and
`numOfFiles` rounds are enough, every round moving `i` up by one. -/
def ascFileLoop (pFileInfo : List Int) (fid : Int) : Nat → Nat → Nat
  | 0, i => i
  | rounds + 1, i =>
    match pFileInfo[i]? with
    | some fileID => if fid > fileID then ascFileLoop pFileInfo fid rounds (i + 1) else i
    | none => i

/-- The loop `while (i >= 0 && *fid < pFileInfo[i].fileID) i += step` of the
descending branch, from index `i`; `i + 1` rounds are enough. -/
def descFileLoop (pFileInfo : List Int) (fid : Int) : Nat → Int → Int
  | 0, i => i
  | rounds + 1, i =>
    if i ≥ 0 then
      match pFileInfo[i.toNat]? with
      | some fileID => if fid < fileID then descFileLoop pFileInfo fid rounds (i - 1) else i
      | none => i
    else i

/-- The source's `vnodeGetVnodeHeaderFileIdx` on the files `pFileInfo`
(`numOfFiles` is the length of the list): the index returned and the value of
`*fid` afterwards. -/
def vnodeGetVnodeHeaderFileIdx (pFileInfo : List Int) (fid : Int) (order : ScanOrder) :
    Int × Int :=
  let numOfFiles := pFileInfo.length
  match pFileInfo[0]?, pFileInfo[numOfFiles - 1]? with
  | some first, some last =>
    if order = TSQL_SO_ASC ∧ fid < first then (0, first)
    else if order = TSQL_SO_DESC ∧ fid > last then ((numOfFiles : Int) - 1, last)
    else if order = TSQL_SO_ASC then
      let i := ascFileLoop pFileInfo fid numOfFiles 0
      match pFileInfo[i]? with
      | some fileID => if fid ≤ fileID then ((i : Int), fileID) else (-1, fid)
      | none => (-1, fid)
    else
      let i := descFileLoop pFileInfo fid numOfFiles ((numOfFiles : Int) - 1)
      if i ≥ 0 then
        match pFileInfo[i.toNat]? with
        | some fileID => if fid ≥ fileID then (i, fileID) else (-1, fid)
        | none => (-1, fid)
      else (-1, fid)
  | _, _ => (-1, fid)

/-! ## Header index reader (`vnodeIsCompBlockInfoLoaded`, `vnodeGetCompBlockInfo`) -/

/-- The source's `SLoadCompBlockInfo`. -/
structure SLoadCompBlockInfo where
  sid : Int
  fileId : Int
  fileListIndex : Int
  deriving DecidableEq, Repr

/-- The part of the runtime read and written by `vnodeGetCompBlockInfo`: the
memo record, whether `pQuery->pFields` is not `NULL`, `pQuery->fileId`,
`pQuery->numOfBlocks`, the `fileID` of every file of the vnode, the session id
of the table, and the counter `pSummary->readCompInfo` of header reads. -/
structure CompBlockEnv where
  loadCompBlockInfo : SLoadCompBlockInfo
  pFieldsPresent : Bool
  fileId : Int
  numOfBlocks : Int
  pFileInfo : List Int
  sid : Int
  readCompInfo : Nat
  deriving DecidableEq, Repr

/-- Read of `pFileInfo[fileIndex].fileID`; `none` outside the array. -/
def fileIDAt (pFileInfo : List Int) (fileIndex : Int) : Option Int :=
  if fileIndex < 0 then none else pFileInfo[fileIndex.toNat]?

/-- The source's `vnodeIsCompBlockInfoLoaded`; its `assert` aborts the call. -/
def vnodeIsCompBlockInfoLoaded (env : CompBlockEnv) (fileIndex : Int) : Option Bool :=
  if env.loadCompBlockInfo.fileListIndex = fileIndex ∧ env.loadCompBlockInfo.sid = env.sid ∧
      env.pFieldsPresent ∧ env.fileId > 0 then
    match fileIDAt env.pFileInfo fileIndex with
    | none => none
    | some fileID =>
      if fileID = env.loadCompBlockInfo.fileId ∧ env.numOfBlocks > 0 then some true else none
  else some false

/-- The source's `vnodeSetCompBlockInfoLoaded`. -/
def vnodeSetCompBlockInfoLoaded (env : CompBlockEnv) (fileIndex sid : Int) :
    Option CompBlockEnv :=
  match fileIDAt env.pFileInfo fileIndex with
  | none => none
  | some fileID =>
    some { env with loadCompBlockInfo := { sid := sid, fileListIndex := fileIndex, fileId := fileID } }

/-- The source's `vnodeInitLoadCompBlockInfo`. -/
def vnodeInitLoadCompBlockInfo : SLoadCompBlockInfo :=
  { sid := -1, fileId := -1, fileListIndex := -1 }

/-- What the header file answers when `vnodeGetCompBlockInfo` reads it: the
code of `vnodeGetHeaderFile`, the outcome of the integrity checks, the offset
of the table's segment, its number of blocks and whether its uid is that of the
table. -/
structure HeaderRead where
  getHeaderFileRet : Int
  offsetSegmentValid : Bool
  compInfoOffset : Int
  compBlockOffsetValid : Bool
  compInfoSegmentValid : Bool
  numOfBlocks : Int
  uidMatches : Bool
  compBlockSegmentValid : Bool
  deriving DecidableEq, Repr

/-- The source's `vnodeGetCompBlockInfo`: the value returned and the state
afterwards. `vnodeFreeFields` (outside `src/`) leaves `pQuery->pFields` `NULL`,
as the comment in `vnodeIsCompBlockInfoLoaded` says. -/
def vnodeGetCompBlockInfo (env : CompBlockEnv) (fileIndex : Int) (header : HeaderRead) :
    Option (Int × CompBlockEnv) :=
  match vnodeIsCompBlockInfoLoaded env fileIndex with
  | none => none
  | some true => some (env.numOfBlocks, env)
  | some false =>
    let env1 : CompBlockEnv := { env with readCompInfo := env.readCompInfo + 1 }
    if header.getHeaderFileRet ≠ TSDB_CODE_SUCCESS then some (-1, env1)
    else if ¬ header.offsetSegmentValid then some (-1, env1)
    else if header.compInfoOffset = 0 then some (0, env1)
    else if ¬ header.compBlockOffsetValid then some (-1, env1)
    else if ¬ header.compInfoSegmentValid then some (-1, env1)
    else if header.numOfBlocks ≤ 0 ∨ ¬ header.uidMatches then some (0, env1)
    else
      let env2 : CompBlockEnv := { env1 with
        pFieldsPresent := false
        loadCompBlockInfo := vnodeInitLoadCompBlockInfo
        numOfBlocks := header.numOfBlocks }
      if ¬ header.compBlockSegmentValid then some (-1, env2)
      else
        match vnodeSetCompBlockInfoLoaded { env2 with pFieldsPresent := true } fileIndex env2.sid with
        | none => none
        | some env3 => some (env3.numOfBlocks, env3)

/-- A sound header that holds 5 blocks for the table. -/
def soundHeader : HeaderRead := ⟨0, true, 512, true, true, 5, true, true⟩

/-- A query positioned in the only file of a vnode, whose `fileID` is
`fileId`, before the block index of the table (session id 1) was read. -/
def firstFileEnv (fileId : Int) : CompBlockEnv where
  loadCompBlockInfo := vnodeInitLoadCompBlockInfo
  pFieldsPresent := false
  fileId := fileId
  numOfBlocks := 0
  pFileInfo := [fileId]
  sid := 1
  readCompInfo := 0


/-! ## Applying the functions to one block (`applyFunctionsOnBlock`) -/

/-- The fields of `SQuery` read or written by `applyFunctionsOnBlock` and by
the row loop of `rowwiseApplyAllFunctions`. -/
structure BlockQuery where
  order : ScanOrder
  skey : Int
  ekey : Int
  lastKey : Int
  pos : Int
  checkBufferInLoop : Int
  pointsOffset : Int
  numOfFilterCols : Int
  slidingTime : Int
  nAggTimeInterval : Int
  deriving DecidableEq, Repr

/-- A descending query over `[100, 0]` standing at row 3 of the block, with no
buffer check inside the loop. -/
def descBlockQuery : BlockQuery := ⟨TSQL_SO_DESC, 100, 0, 40, 3, 0, 0, 0, -1, 0⟩
/-! ## Two-pass scanner (`queryStatusSave`, `queryStatusRestore`) -/

/-- The source's `SPositionInfo`. -/
structure SPositionInfo where
  fileId : Int
  slot : Int
  pos : Int
  deriving DecidableEq, Repr

/-- The functions of the timestamp buffer called by `queryStatusSave` and
`queryStatusRestore`, code outside `src/` and left open: `tsBufGetCursor`,
the flip `cur.order ^= 1`, `tsBufNextPos` and `tsBufSetCursor`. The buffer has
type `β`, its cursor type `κ`; a query without buffer has `pTSBuf = NULL`. -/
structure TSBufOps (β κ : Type) where
  tsBufGetCursor : Option β → κ
  flipCursorOrder : β → β
  tsBufNextPos : β → β
  tsBufSetCursor : Option β → κ → Option β

/-- The part of the runtime that `queryStatusSave` and `queryStatusRestore`
read and write. -/
structure ScanRuntime (β : Type) where
  over : Nat
  skey : Int
  ekey : Int
  lastKey : Int
  startPos : SPositionInfo
  nextPos : SPositionInfo
  endPos : SPositionInfo
  intervalWindow : STimeWindow
  pTSBuf : Option β

/-- The source's `SQueryStatus`; the field `end` is written `end_`. -/
structure SQueryStatus (κ : Type) where
  start : SPositionInfo
  next : SPositionInfo
  end_ : SPositionInfo
  skey : Int
  ekey : Int
  overStatus : Nat
  lastKey : Int
  cur : κ

/-- The source's `queryStatusSave`: the record written to `pStatus` and the
runtime afterwards. -/
def queryStatusSave {β κ : Type} (F : QueryStatusFlags) (ops : TSBufOps β κ)
    (s : ScanRuntime β) : SQueryStatus κ × ScanRuntime β :=
  let pStatus : SQueryStatus κ :=
    { overStatus := s.over, lastKey := s.lastKey, skey := s.skey, ekey := s.ekey,
      start := s.startPos, next := s.nextPos, end_ := s.endPos,
      cur := ops.tsBufGetCursor s.pTSBuf }
  let s1 : ScanRuntime β :=
    { s with pTSBuf := s.pTSBuf.map fun b => ops.tsBufNextPos (ops.flipCursorOrder b) }
  let s2 : ScanRuntime β := { s1 with over := setQueryStatus F s1.over F.QUERY_NOT_COMPLETED }
  let s3 : ScanRuntime β := { s2 with skey := s2.ekey, ekey := s2.skey }
  let s4 : ScanRuntime β := { s3 with lastKey := s3.skey }
  let s5 : ScanRuntime β := { s4 with startPos := s4.endPos }
  (pStatus, { s5 with intervalWindow := ⟨s5.intervalWindow.ekey, s5.intervalWindow.skey⟩ })

/-- The source's `queryStatusRestore`. -/
def queryStatusRestore {β κ : Type} (ops : TSBufOps β κ) (s : ScanRuntime β)
    (pStatus : SQueryStatus κ) : ScanRuntime β :=
  let s1 : ScanRuntime β := { s with skey := s.ekey, ekey := s.skey }
  let s2 : ScanRuntime β :=
    { s1 with intervalWindow := ⟨s1.intervalWindow.ekey, s1.intervalWindow.skey⟩ }
  { s2 with
    lastKey := pStatus.lastKey
    skey := pStatus.skey
    ekey := pStatus.ekey
    over := pStatus.overStatus
    startPos := pStatus.start
    nextPos := pStatus.next
    endPos := pStatus.end_
    pTSBuf := ops.tsBufSetCursor s2.pTSBuf pStatus.cur }


/-! ## Maintenance of the window set (`clearCompletedSlidingWindows`,
`numOfClosedSlidingWindow`, `initSlidingWindowInfo`) -/

/-- Modelled from the spec: removal of a key from the hash table
`startKey → windowIndex` (`taosDeleteFromHashTable` is code outside `src/`). -/
def taosDeleteFromHashTable (h : HashList) (key : Int) : HashList :=
  h.filter fun e => e.1 != key

/-- The first loop of `clearCompletedSlidingWindows` over the windows in use:
it removes the start key of every closed window from the hash table until it
meets a window that is not closed. The result is the value of `i` after the
loop and the hash table. -/
def deleteClosedLoop : List SWindowStatus → Nat → HashList → Nat × HashList
  | [], i, h => (i, h)
  | pStatus :: rest, i, h =>
    if pStatus.closed then
      deleteClosedLoop rest (i + 1) (taosDeleteFromHashTable h pStatus.window.skey)
    else (i, h)

/-- The last loop of `clearCompletedSlidingWindows` over the windows that
remain: the index stored for the start key is read, lowered by `i` and stored
again. A key that is not in the table gives a null pointer, whose read ends
the call without a result. -/
def rebaseLoop (i : Nat) : List SWindowStatus → HashList → Option HashList
  | [], h => some h
  | pStatus :: rest, h =>
    match taosGetDataFromHash h pStatus.window.skey with
    | none => none
    | some v =>
      rebaseLoop i rest
        (taosAddToHashTable (taosDeleteFromHashTable h pStatus.window.skey)
          pStatus.window.skey (v - i))

/-- The source's `clearCompletedSlidingWindows`, on the status array and the
hash table (the result buffers `pResult` are moved alongside and not
followed). -/
def clearCompletedSlidingWindows (info : SSlidingWindowInfo) : Option SSlidingWindowInfo :=
  if info.capacity = 0 ∨ info.size = 0 then some info
  else
    let r := deleteClosedLoop (info.pStatus.take info.size) 0 info.hashList
    let i := r.1
    if i = 0 then some { info with hashList := r.2 }
    else
      let remain := info.size - i
      let pStatus : List SWindowStatus :=
        (info.pStatus.drop i).take remain ++
          List.replicate (info.capacity - remain) zeroWindowStatus
      match rebaseLoop i (pStatus.take remain) r.2 with
      | none => none
      | some h =>
        some { info with pStatus := pStatus, size := remain, hashList := h, curIndex := -1 }

/-- The loop of `numOfClosedSlidingWindow` from index `i` over the windows in
use from there on: the index of the first window that is not closed, and `0`
(the `return 0` after the loop) when there is none. -/
def numOfClosedLoop : List SWindowStatus → Int → Int
  | [], _ => 0
  | pStatus :: rest, i => if pStatus.closed = false then i else numOfClosedLoop rest (i + 1)

/-- The source's `numOfClosedSlidingWindow`. -/
def numOfClosedSlidingWindow (info : SSlidingWindowInfo) : Int :=
  numOfClosedLoop (info.pStatus.take info.size) 0

/-- The number of closed windows at the head of the window set: the windows
in use before the first one that is not closed. -/
def leadingClosedWindows (info : SSlidingWindowInfo) : Nat :=
  ((info.pStatus.take info.size).takeWhile fun s => s.closed).length

/-- The source's `closeSlidingWindow` (the `assert` aborts the call). -/
def closeSlidingWindow (info : SSlidingWindowInfo) (slot : Int) : Option SSlidingWindowInfo :=
  if slot ≥ 0 ∧ slot < info.size then
    some { info with pStatus := info.pStatus.modify (fun s => { s with closed := true }) slot.toNat }
  else none

/-- The source's `closeAllSlidingWindow` (the `assert` aborts the call). -/
def closeAllSlidingWindow (info : SSlidingWindowInfo) : Option SSlidingWindowInfo :=
  if info.capacity ≥ info.size then
    some { info with
      pStatus := (info.pStatus.take info.size).map (fun s => { s with closed := true }) ++
        info.pStatus.drop info.size }
  else none

/-- The loop after the row loop of `rowwiseApplyAllFunctions` that closes the
windows passed by `lastKey`, from index `i`: the window set afterwards and the
value of `skey`, which is the start key of the first window left open and `0`
when every window was closed. -/
def closePassedWindowsLoop (order : ScanOrder) (lastKey : Int) :
    Nat → Int → SSlidingWindowInfo → Option (SSlidingWindowInfo × Int)
  | 0, _, info => some (info, 0)
  | n + 1, i, info =>
    if i < info.size then
      match info.pStatus[i.toNat]? with
      | none => none
      | some pStatus =>
        if (pStatus.window.ekey ≤ lastKey ∧ QUERY_IS_ASC_QUERY order) ∨
            (pStatus.window.skey ≥ lastKey ∧ ¬ QUERY_IS_ASC_QUERY order) then
          match closeSlidingWindow info i with
          | none => none
          | some info1 => closePassedWindowsLoop order lastKey n (i + 1) info1
        else some (info, pStatus.window.skey)
    else some (info, 0)

/-- The code after the row loop of `rowwiseApplyAllFunctions` for a sliding
query in the master scan; `lastKey` is the timestamp of the last row applied.
The result is the window set afterwards and the status passed to
`setQueryStatus`, if the call is made. -/
def closeWindowsAfterRows (F : QueryStatusFlags) (q : SlidingQuery) (lastKey : Int)
    (info : SSlidingWindowInfo) : Option (SSlidingWindowInfo × Option Nat) :=
  if (lastKey ≥ q.ekey ∧ QUERY_IS_ASC_QUERY q.order) ∨
      (lastKey ≤ q.ekey ∧ ¬ QUERY_IS_ASC_QUERY q.order) then
    match closeAllSlidingWindow info with
    | none => none
    | some info1 =>
      some ({ info1 with curIndex := (info1.size : Int) - 1 },
        some (F.QUERY_COMPLETED ||| F.QUERY_RESBUF_FULL))
  else
    match closePassedWindowsLoop q.order lastKey info.size 0 info with
    | none => none
    | some (info1, skey) =>
      let info2 := { info1 with prevSKey := skey }
      let v := numOfClosedSlidingWindow info2
      if v > info2.threshold then some (info2, some F.QUERY_RESBUF_FULL)
      else some (info2, none)

/-- The source's `initSlidingWindowInfo` (allocation taken to succeed):
`capacity` and `threshold` are the threshold given, no window is in use. The
fields `startTime` and `prevSKey`, which the function does not write, are
zero as in the zeroed runtime environment. -/
def initSlidingWindowInfo (threshold : Nat) : SSlidingWindowInfo :=
  { hashList := [], curIndex := -1, capacity := threshold, size := 0, threshold := threshold,
    startTime := 0, prevSKey := 0, pStatus := List.replicate threshold zeroWindowStatus }

/-- The number of result buffers that `allocateOutputBufForGroup` allocates
for a window set (`slot = 10000`). -/
def numOfGroupResultBufs : Nat := 10000

/-- A run of calls of `doSetSlidingWindowFromKey`, one for each key in turn:
the window set afterwards and the indexes assigned, in call order. -/
def setKeysFrom (info : SSlidingWindowInfo) : List Int → SSlidingWindowInfo × List Int
  | [] => (info, [])
  | key :: rest =>
    let r := doSetSlidingWindowFromKey info key
    let t := setKeysFrom r.1 rest
    (t.1, r.2 :: t.2)

/-- A window set of three windows of which the first two are closed, each
found in the hash table under its start key. -/
def twoClosedWindows : SSlidingWindowInfo :=
  ⟨[(0, 0), (10, 1), (20, 2)], 2, 4, 3, 3, 0, 20,
    [⟨⟨0, 9⟩, true⟩, ⟨⟨10, 19⟩, true⟩, ⟨⟨20, 29⟩, false⟩, zeroWindowStatus]⟩

/-- The `n` keys `first, first + 1, ..., first + n - 1`. -/
def consecutiveKeys (first n : Nat) : List Int :=
  (List.range' first n).map fun k : Nat => (k : Int)

/-! ## Choice of the scan order (`changeExecuteScanOrder`, `needSupplementaryScan`) -/

/-- The fields of `SQuery` read or written by `changeExecuteScanOrder` and
`needSupplementaryScan`; `functionIds` holds `pSelectExpr[i].pBase.functionId`
for the `numOfOutputCols` output columns. -/
structure OrderQuery where
  order : ScanOrder
  skey : Int
  ekey : Int
  nAggTimeInterval : Int
  functionIds : List Int
  deriving DecidableEq, Repr

/-- The eight function ids of `FunctionIds` are pairwise different, as the
constants of one enumeration are. -/
def distinctFunctionIds (ids : FunctionIds) : Prop :=
  [ids.TSDB_FUNC_FIRST, ids.TSDB_FUNC_LAST, ids.TSDB_FUNC_FIRST_DST, ids.TSDB_FUNC_LAST_DST,
    ids.TSDB_FUNC_TS, ids.TSDB_FUNC_TAG, ids.TSDB_FUNC_TS_DUMMY, ids.TSDB_FUNC_TAG_DUMMY].Nodup

/-- The source's `isFirstLastRowQuery`; `TSDB_FUNC_LAST_ROW` is a constant of a
header outside `src/`. -/
def isFirstLastRowQuery (TSDB_FUNC_LAST_ROW : Int) : List Int → Bool
  | [] => false
  | functionID :: rest =>
    if functionID = TSDB_FUNC_LAST_ROW then true
    else isFirstLastRowQuery TSDB_FUNC_LAST_ROW rest

/-- The source's `isPointInterpoQuery`; `TSDB_FUNC_INTERP` is a constant of a
header outside `src/`. -/
def isPointInterpoQuery (TSDB_FUNC_INTERP TSDB_FUNC_LAST_ROW : Int) : List Int → Bool
  | [] => false
  | functionID :: rest =>
    if functionID = TSDB_FUNC_INTERP ∨ functionID = TSDB_FUNC_LAST_ROW then true
    else isPointInterpoQuery TSDB_FUNC_INTERP TSDB_FUNC_LAST_ROW rest

/-- The source's `onlyOneQueryType`. -/
def onlyOneQueryType (ids : FunctionIds) (functId functIdDst : Int) : List Int → Bool
  | [] => true
  | functionId :: rest =>
    if functionId = ids.TSDB_FUNC_TS ∨ functionId = ids.TSDB_FUNC_TS_DUMMY ∨
        functionId = ids.TSDB_FUNC_TAG ∨ functionId = ids.TSDB_FUNC_TAG_DUMMY then
      onlyOneQueryType ids functId functIdDst rest
    else if functionId ≠ functId ∧ functionId ≠ functIdDst then false
    else onlyOneQueryType ids functId functIdDst rest

/-- The source's `onlyFirstQuery`. -/
def onlyFirstQuery (ids : FunctionIds) (functionIds : List Int) : Bool :=
  onlyOneQueryType ids ids.TSDB_FUNC_FIRST ids.TSDB_FUNC_FIRST_DST functionIds

/-- The source's `onlyLastQuery`. -/
def onlyLastQuery (ids : FunctionIds) (functionIds : List Int) : Bool :=
  onlyOneQueryType ids ids.TSDB_FUNC_LAST ids.TSDB_FUNC_LAST_DST functionIds

/-- The source's `needSupplementaryScan`. -/
def needSupplementaryScan (ids : FunctionIds) (order : ScanOrder) : List Int → Bool
  | [] => false
  | functionId :: rest =>
    if functionId = ids.TSDB_FUNC_TS ∨ functionId = ids.TSDB_FUNC_TS_DUMMY ∨
        functionId = ids.TSDB_FUNC_TAG then
      needSupplementaryScan ids order rest
    else if ((functionId = ids.TSDB_FUNC_LAST ∨ functionId = ids.TSDB_FUNC_LAST_DST) ∧
          QUERY_IS_ASC_QUERY order) ∨
        ((functionId = ids.TSDB_FUNC_FIRST ∨ functionId = ids.TSDB_FUNC_FIRST_DST) ∧
          ¬ QUERY_IS_ASC_QUERY order) then true
    else needSupplementaryScan ids order rest

/-- The order and the key range that the branches `only-first` and `only-last`
of `changeExecuteScanOrder` leave: order `target`, keys exchanged when the
order changes. -/
def switchScanOrder (q : OrderQuery) (target : ScanOrder) : OrderQuery :=
  if q.order = target then { q with order := target }
  else { q with order := target, skey := q.ekey, ekey := q.skey }

/-- The source's `changeExecuteScanOrder`. -/
def changeExecuteScanOrder (ids : FunctionIds) (TSDB_FUNC_INTERP TSDB_FUNC_LAST_ROW : Int)
    (q : OrderQuery) (metricQuery : Bool) : OrderQuery :=
  if isFirstLastRowQuery TSDB_FUNC_LAST_ROW q.functionIds then
    { q with order := TSQL_SO_DESC, skey := max q.skey q.ekey, ekey := min q.skey q.ekey }
  else if isPointInterpoQuery TSDB_FUNC_INTERP TSDB_FUNC_LAST_ROW q.functionIds ∧
      q.nAggTimeInterval = 0 then
    switchScanOrder q TSQL_SO_ASC
  else if q.nAggTimeInterval = 0 then
    if onlyFirstQuery ids q.functionIds then switchScanOrder q TSQL_SO_ASC
    else if onlyLastQuery ids q.functionIds then switchScanOrder q TSQL_SO_DESC
    else q
  else if metricQuery then
    if onlyFirstQuery ids q.functionIds then switchScanOrder q TSQL_SO_ASC
    else if onlyLastQuery ids q.functionIds then switchScanOrder q TSQL_SO_DESC
    else q
  else q

/-- An ascending query `select last(c), ts` over `[100, 900]` without
interval, with the ids of `exampleFunctionIds`. -/
def lastOnlyQuery : OrderQuery := ⟨TSQL_SO_ASC, 100, 900, 0, [9, 16]⟩

/-! ## Block locator in the cache ring (`binarySearchInCacheBlk`) -/

/-- Read of `pCacheInfo->cacheBlocks[slot]` as far as the block locator looks
at it: the first and the last timestamp of the block's timestamp column
(`keyFirst`, `keyLast`). There is no value outside the ring and for a slot
that holds no block. -/
def cacheBlockKeysAt (cacheBlocks : List (Option SCompBlock)) (slot : Int) : Option SCompBlock :=
  if slot < 0 then none
  else
    match cacheBlocks[slot.toNat]? with
    | some (some b) => some b
    | _ => none

/-- The `while (1)` loop of `binarySearchInCacheBlk`, from the state
`(firstSlot, lastSlot)`; `%` of the source is the truncating remainder. -/
def binarySearchCacheLoop (cacheBlocks : List (Option SCompBlock)) (maxBlocks : Int)
    (skey : Int) (order : ScanOrder) : Nat → Int → Int → Option Int
  | 0, _, _ => none
  | fuel + 1, firstSlot, lastSlot =>
    let numOfBlocks0 := (lastSlot - firstSlot + 1 + maxBlocks).tmod maxBlocks
    let numOfBlocks := if numOfBlocks0 = 0 then maxBlocks else numOfBlocks0
    let midSlot := (firstSlot + Int.shiftRight numOfBlocks 1).tmod maxBlocks
    match cacheBlockKeysAt cacheBlocks midSlot with
    | none => none
    | some mid =>
      if numOfBlocks = 1 then some midSlot
      else if skey > mid.keyLast then
        if numOfBlocks = 2 then some midSlot
        else if ¬ QUERY_IS_ASC_QUERY order then
          let nextSlot := (midSlot + 1 + maxBlocks).tmod maxBlocks
          match cacheBlockKeysAt cacheBlocks nextSlot with
          | none => none
          | some next =>
            if skey < next.keyFirst then some midSlot
            else binarySearchCacheLoop cacheBlocks maxBlocks skey order fuel
              ((midSlot + 1).tmod maxBlocks) lastSlot
        else binarySearchCacheLoop cacheBlocks maxBlocks skey order fuel
          ((midSlot + 1).tmod maxBlocks) lastSlot
      else if skey < mid.keyFirst then
        if QUERY_IS_ASC_QUERY order then
          let prevSlot := (midSlot - 1 + maxBlocks).tmod maxBlocks
          match cacheBlockKeysAt cacheBlocks prevSlot with
          | none => none
          | some prev =>
            if skey > prev.keyLast then some midSlot
            else binarySearchCacheLoop cacheBlocks maxBlocks skey order fuel firstSlot
              ((midSlot - 1 + maxBlocks).tmod maxBlocks)
        else binarySearchCacheLoop cacheBlocks maxBlocks skey order fuel firstSlot
          ((midSlot - 1 + maxBlocks).tmod maxBlocks)
      else some midSlot

/-- The source's `binarySearchInCacheBlk` on a ring of `maxBlocks` slots. Each
round that does not leave the loop shrinks the range of slots, which holds at
most `maxBlocks` of them, so `maxBlocks` rounds are enough. -/
def binarySearchInCacheBlk (cacheBlocks : List (Option SCompBlock)) (maxBlocks : Int)
    (skey : Int) (order : ScanOrder) (firstSlot lastSlot : Int) : Option Int :=
  binarySearchCacheLoop cacheBlocks maxBlocks skey order maxBlocks.toNat firstSlot lastSlot

/-- The blocks of the ring from `firstSlot` on, `n` of them, laid out as a
linear array: entry `i` is the block in slot `(firstSlot + i) mod maxBlocks`.
Slots without a block are left out. -/
def ringAsArray (cacheBlocks : List (Option SCompBlock)) (maxBlocks firstSlot : Int)
    (n : Nat) : List SCompBlock :=
  (List.range n).filterMap fun (i : Nat) =>
    cacheBlockKeysAt cacheBlocks ((firstSlot + (i : Int)) % maxBlocks)

/-- A ring of five slots holding three blocks in the slots 4, 0 and 1. -/
def wrappedRing : List (Option SCompBlock) :=
  [some ⟨20, 29⟩, some ⟨30, 39⟩, none, none, some ⟨10, 19⟩]

/-- The block of `maskedFailureEnv` with the damage moved to the last column
read: the run of field 2 carries a wrong checksum, the runs of the fields 0
and 1 are sound. No block is recorded as loaded. -/
def lastColumnFailureEnv : LoadEnv :=
  { maskedFailureEnv with disk := fun j => if j = 2 then ⟨0, 0, 7, 8⟩ else ⟨0, 0, 5, 5⟩ }

/-! ## Put, acquire and release in the cache (`tcache.c`) -/

/-- A cache node in the store of nodes, with the fields that put, acquire and
release look at: the key, the payload (a number stands for the bytes), the
reference count and `inTrash`. -/
structure CacheNode where
  key : String
  data : Int
  refCount : Int
  inTrash : Bool
  deriving DecidableEq, Repr

/-- The source's `SCacheObj`. `nodes` is the store of the nodes alive, by
address: a node found there has its `signature` equal to its address, a node
freed is no longer there. A pointer to the payload of a node is kept as the
address of the node. `nextAddr` is the address the next allocation returns. -/
structure SCacheObj where
  nodes : List (Nat × CacheNode)
  pHashTable : List (String × Nat)
  pTrash : List Nat
  numOfElemsInTrash : Int
  nextAddr : Nat
  deriving DecidableEq, Repr

/-- Modelled from the spec: the generic hash table of the cache
(`taosHashGet`, `taosHashPut`, `taosHashRemove`, `taosHashGetSize` are code
outside `src/`), kept as the list of its `(key, node address)` entries, at
most one for a key. This is the lookup. -/
def taosHashGet (h : List (String × Nat)) (key : String) : Option Nat :=
  (h.find? fun e => e.1 == key).map Prod.snd

/-- Modelled from the spec: removal of the entry of a key. -/
def taosHashRemove (h : List (String × Nat)) (key : String) : List (String × Nat) :=
  h.filter fun e => e.1 != key

/-- Modelled from the spec: the entry of the key is set to the node given,
in place of an entry the key had. -/
def taosHashPut (h : List (String × Nat)) (key : String) (pNode : Nat) : List (String × Nat) :=
  (key, pNode) :: taosHashRemove h key

/-- Modelled from the spec: the number of entries. -/
def taosHashGetSize (h : List (String × Nat)) : Nat := h.length

/-- The node at an address, if it is alive. -/
def cacheNodeAt (pObj : SCacheObj) (pNode : Nat) : Option CacheNode :=
  (pObj.nodes.find? fun e => e.1 == pNode).map Prod.snd

/-- Write of the fields of the node at an address. -/
def storeCacheNode (pObj : SCacheObj) (pNode : Nat) (node : CacheNode) : SCacheObj :=
  { pObj with nodes := (pNode, node) :: pObj.nodes.filter fun e => e.1 != pNode }

/-- The source's `taosCreateHashNode` (allocation taken to succeed): a zeroed
node with key and payload at a fresh address. -/
def taosCreateHashNode (pObj : SCacheObj) (key : String) (pData : Int) : SCacheObj × Nat :=
  ({ storeCacheNode pObj pObj.nextAddr ⟨key, pData, 0, false⟩ with
      nextAddr := pObj.nextAddr + 1 }, pObj.nextAddr)

/-- The source's `taosAddToTrash`. -/
def taosAddToTrash (pObj : SCacheObj) (pNode : Nat) : Option SCacheObj :=
  match cacheNodeAt pObj pNode with
  | none => none
  | some node =>
    if node.inTrash then some pObj
    else
      some { storeCacheNode pObj pNode { node with inTrash := true } with
        pTrash := pNode :: pObj.pTrash
        numOfElemsInTrash := pObj.numOfElemsInTrash + 1 }

/-- The source's `taosCacheMoveToTrash`: the entry of the key of the node is
removed from the hash table, then the node goes to the trash. -/
def taosCacheMoveToTrash (pObj : SCacheObj) (pNode : Nat) : Option SCacheObj :=
  match cacheNodeAt pObj pNode with
  | none => none
  | some node =>
    taosAddToTrash { pObj with pHashTable := taosHashRemove pObj.pHashTable node.key } pNode

/-- The source's `taosUpdateCacheImpl` (allocation taken to succeed, `realloc`
taken to leave the node where it is): the new node. -/
def taosUpdateCacheImpl (pObj : SCacheObj) (pNode : Nat) (key : String) (pData : Int) :
    Option (SCacheObj × Nat) :=
  match cacheNodeAt pObj pNode with
  | none => none
  | some node =>
    if node.refCount = 0 then
      let pObj1 := storeCacheNode pObj pNode
        { node with data := pData, key := key, refCount := node.refCount + 1 }
      some ({ pObj1 with pHashTable := taosHashPut pObj1.pHashTable key pNode }, pNode)
    else
      match taosCacheMoveToTrash pObj pNode with
      | none => none
      | some pObj1 =>
        let r := taosCreateHashNode pObj1 key pData
        let pObj2 := storeCacheNode r.1 r.2 ⟨key, pData, 1, false⟩
        some ({ pObj2 with pHashTable := taosHashPut pObj2.pHashTable key r.2 }, r.2)

/-- The source's `taosAddToCacheImpl`. -/
def taosAddToCacheImpl (pObj : SCacheObj) (key : String) (pData : Int) : SCacheObj × Nat :=
  let r := taosCreateHashNode pObj key pData
  let pObj1 := storeCacheNode r.1 r.2 ⟨key, pData, 1, false⟩
  ({ pObj1 with pHashTable := taosHashPut pObj1.pHashTable key r.2 }, r.2)

/-- The source's `taosCachePut`: the cache afterwards and the pointer
returned. -/
def taosCachePut (pObj : SCacheObj) (key : String) (pData : Int) : Option (SCacheObj × Nat) :=
  match taosHashGet pObj.pHashTable key with
  | none => some (taosAddToCacheImpl pObj key pData)
  | some pOld => taosUpdateCacheImpl pObj pOld key pData

/-- The source's `taosCacheAcquireByName`: the cache afterwards and the
pointer returned, `none` for `NULL`. -/
def taosCacheAcquireByName (pObj : SCacheObj) (key : String) : SCacheObj × Option Nat :=
  if taosHashGetSize pObj.pHashTable = 0 then (pObj, none)
  else
    match taosHashGet pObj.pHashTable key with
    | none => (pObj, none)
    | some ptNode =>
      match cacheNodeAt pObj ptNode with
      | none => (pObj, some ptNode)
      | some node =>
        (storeCacheNode pObj ptNode { node with refCount := node.refCount + 1 }, some ptNode)

/-- The source's `taosCacheRelease` for the pointer `data`. A pointer whose
node is not alive fails the signature test and the call returns at once. -/
def taosCacheRelease (pObj : SCacheObj) (data : Nat) (remove : Bool) : Option SCacheObj :=
  if (taosHashGetSize pObj.pHashTable : Int) + pObj.numOfElemsInTrash = 0 then some pObj
  else
    match cacheNodeAt pObj data with
    | none => some pObj
    | some node =>
      let pObj1 := storeCacheNode pObj data { node with refCount := node.refCount - 1 }
      if remove then taosCacheMoveToTrash pObj1 data else some pObj1

/-- An empty cache. -/
def emptyCache : SCacheObj := ⟨[], [], [], 0, 1⟩

/-- The payload of the node a pointer leads to. -/
def cacheDataAt (pObj : SCacheObj) (data : Option Nat) : Option Int :=
  data.bind fun p => (cacheNodeAt pObj p).map fun node => node.data

/-- The cache after the key `"k"` was put with payload 1 and, the caller still
holding that node, put again with payload 2; with it the pointer the first
put returned and the pointer the second put returned. -/
def replacedKeyCache : Option (SCacheObj × Nat × Nat) :=
  (taosCachePut emptyCache "k" 1).bind fun r1 =>
    (taosCachePut r1.1 "k" 2).map fun r2 => (r2.1, r1.2, r2.2)

/-- The sliding-window branch of the row loop of `rowwiseApplyAllFunctions`
over the rows with the timestamps given, every row being applied; the result
is the window set afterwards. -/
def slidingWindowRows (q : SlidingQuery) : SSlidingWindowInfo → List Int → Option SSlidingWindowInfo
  | info, [] => some info
  | info, ts :: rest =>
    match slidingWindowRow q info ts with
    | none => none
    | some r => slidingWindowRows q r.2 rest

/-- An ascending query over `[0, 1000]` with `nAggTimeInterval = 10` and
`slidingTime = 10`. -/
def tumblingQuery : SlidingQuery := ⟨10, 10, 0, 1000, TSQL_SO_ASC⟩
/-! ## Theorems -/

/-- C1 (evaluation at the failing input). In `maskedFailureEnv` the column run
of field 1 fails its checksum, so `loadColumnIntoMem` returns `-1` for it; the
loop of `loadDataBlockIntoMem` goes on, overwrites `ret` with the `0` of field
2, and the function returns `0` (success) and records the block as loaded. -/
theorem loadDataBlockIntoMem_masks_failed_column :
    loadColumnIntoMem (maskedFailureEnv.disk 1) = -1 ∧
    loadDataBlockIntoMem maskedFailureEnv 0 true true =
      some ⟨0, [(0, 0), (1, -1), (2, 0)], ⟨0, 0, 1, 0, true⟩⟩ := by
  decide


/-- The cast to `int32_t` in `readDataFromDiskFile`: an offset of `2^32 - 1`
returned by `lseek` reads as `-1` and is taken for a failed seek. -/
theorem readDataFromDiskFile_truncates :
    readDataFromDiskFile 4294967295 = -1 ∧ readDataFromDiskFile (-1) = -1 ∧
    readDataFromDiskFile 0 = 0 ∧ readDataFromDiskFile 4294967296 = 0 := by
  decide
/-! ### Block locator -/

theorem shiftRight_one (a : Int) : Int.shiftRight a 1 = a / 2 := by
  show a >>> (1 : Nat) = a / 2
  rw [Int.shiftRight_eq_div_pow]; norm_num

theorem blockAt_of_nat (pBlock : List SCompBlock) (i : Nat) :
    blockAt pBlock (i : Int) = pBlock[i]? := by
  simp [blockAt]

theorem blockAt_isSome (pBlock : List SCompBlock) (i : Int) (h0 : 0 ≤ i)
    (hn : i < pBlock.length) : ∃ b, blockAt pBlock i = some b := by
  obtain ⟨k, rfl⟩ := Int.eq_ofNat_of_zero_le h0
  have hk : k < pBlock.length := by exact_mod_cast hn
  exact ⟨pBlock[k], by rw [blockAt_of_nat, List.getElem?_eq_getElem hk]⟩

theorem blockAt_bounds (pBlock : List SCompBlock) (i : Int) (b : SCompBlock)
    (h : blockAt pBlock i = some b) : 0 ≤ i ∧ i < pBlock.length := by
  unfold blockAt at h
  split at h
  · cases h
  · rename_i hi
    obtain ⟨hk, -⟩ := List.getElem?_eq_some.mp h
    omega

theorem SortedBlocks.last_le_first {pBlock : List SCompBlock} (hs : SortedBlocks pBlock)
    (i : Int) (d : Nat) (bi bj : SCompBlock) (hi : blockAt pBlock i = some bi)
    (hj : blockAt pBlock (i + d + 1) = some bj) : bi.keyLast ≤ bj.keyFirst := by
  induction d generalizing bj with
  | zero => exact hs.step i bi bj hi (by simpa using hj)
  | succ d ih =>
    have hb := blockAt_bounds pBlock _ _ hj
    have hbi := blockAt_bounds pBlock _ _ hi
    obtain ⟨bm, hm⟩ := blockAt_isSome pBlock (i + d + 1) (by omega) (by push_cast at hb; omega)
    have h1 := ih bm hm
    have h2 := hs.wf _ _ hm
    have h3 := hs.step (i + d + 1) bm bj hm (by push_cast at hj; rw [← hj]; congr 1; ring)
    omega

theorem SortedBlocks.lt_index {pBlock : List SCompBlock} (hs : SortedBlocks pBlock)
    (i j : Int) (bi bj : SCompBlock) (hij : i < j) (hi : blockAt pBlock i = some bi)
    (hj : blockAt pBlock j = some bj) : bi.keyLast ≤ bj.keyFirst := by
  obtain ⟨d, hd⟩ := Int.eq_ofNat_of_zero_le (show 0 ≤ j - i - 1 by omega)
  have : j = i + d + 1 := by omega
  subst this
  exact hs.last_le_first i d bi bj hi hj

theorem SortedBlocks.keyLast_mono {pBlock : List SCompBlock} (hs : SortedBlocks pBlock)
    (i j : Int) (bi bj : SCompBlock) (hij : i ≤ j) (hi : blockAt pBlock i = some bi)
    (hj : blockAt pBlock j = some bj) : bi.keyLast ≤ bj.keyLast := by
  rcases eq_or_lt_of_le hij with h | h
  · subst h; rw [hi] at hj; cases hj; exact le_refl _
  · have := hs.lt_index i j bi bj h hi hj
    have := hs.wf _ _ hj
    omega

theorem SortedBlocks.keyFirst_mono {pBlock : List SCompBlock} (hs : SortedBlocks pBlock)
    (i j : Int) (bi bj : SCompBlock) (hij : i ≤ j) (hi : blockAt pBlock i = some bi)
    (hj : blockAt pBlock j = some bj) : bi.keyFirst ≤ bj.keyFirst := by
  rcases eq_or_lt_of_le hij with h | h
  · subst h; rw [hi] at hj; cases hj; exact le_refl _
  · have := hs.lt_index i j bi bj h hi hj
    have := hs.wf _ _ hi
    omega

theorem binarySearchLoop_contains (pBlock : List SCompBlock) (skey : Int) (order : ScanOrder)
    (hs : SortedBlocks pBlock) :
    ∀ (fuel : Nat) (first last : Int), 0 ≤ first → last < pBlock.length →
      last - first + 1 ≤ fuel →
      (∃ c bc, first ≤ c ∧ c ≤ last ∧ blockAt pBlock c = some bc ∧
        bc.keyFirst ≤ skey ∧ skey ≤ bc.keyLast) →
      ∃ r br, binarySearchLoop pBlock skey order fuel first last = some r ∧
        blockAt pBlock r = some br ∧ br.keyFirst ≤ skey ∧ skey ≤ br.keyLast := by
  intro fuel
  induction fuel with
  | zero =>
    intro first last _ _ hf ⟨c, _, h1, h2, _⟩
    exfalso; push_cast at hf; omega
  | succ fuel ih =>
    intro first last h0 hn hf ⟨c, bc, hc1, hc2, hbc, hk1, hk2⟩
    have hdiv := shiftRight_one (last - first + 1)
    obtain ⟨mid, hmid⟩ := blockAt_isSome pBlock (first + (last - first + 1) / 2)
      (by omega) (by omega)
    unfold binarySearchLoop
    simp only [hdiv, hmid]
    by_cases h1 : last - first + 1 = 1
    · rw [if_pos h1]
      have : c = first + (last - first + 1) / 2 := by omega
      subst this
      have e : mid = bc := Option.some.inj (hmid.symm.trans hbc)
      exact ⟨_, mid, rfl, hmid, e ▸ hk1, e ▸ hk2⟩
    · rw [if_neg h1]
      by_cases hgt : skey > mid.keyLast
      · rw [if_pos hgt]
        -- the containing block lies to the right of `midSlot`
        have hcm : first + (last - first + 1) / 2 < c := by
          by_contra hcon
          have := hs.keyLast_mono c _ bc mid (by omega) hbc hmid
          omega
        have h2 : ¬ (last - first + 1 = 2) := by omega
        rw [if_neg h2]
        have hrec := ih (first + (last - first + 1) / 2 + 1) last (by omega) hn
          (by push_cast at hf ⊢; omega) ⟨c, bc, by omega, hc2, hbc, hk1, hk2⟩
        by_cases ho : order = TSQL_SO_DESC
        · rw [if_pos ho]
          obtain ⟨nx, hnx⟩ := blockAt_isSome pBlock (first + (last - first + 1) / 2 + 1)
            (by omega) (by omega)
          simp only [hnx]
          have hle := hs.keyFirst_mono _ c nx bc (by omega) hnx hbc
          rw [if_neg (by omega)]
          exact hrec
        · rw [if_neg ho]
          exact hrec
      · rw [if_neg hgt]
        by_cases hlt : skey < mid.keyFirst
        · rw [if_pos hlt]
          have hcm : c < first + (last - first + 1) / 2 := by
            by_contra hcon
            have := hs.keyFirst_mono _ c mid bc (by omega) hmid hbc
            omega
          have hrec := ih first (first + (last - first + 1) / 2 - 1) h0 (by omega)
            (by push_cast at hf ⊢; omega) ⟨c, bc, hc1, by omega, hbc, hk1, hk2⟩
          by_cases ho : order = TSQL_SO_ASC
          · rw [if_pos ho]
            obtain ⟨pv, hpv⟩ := blockAt_isSome pBlock (first + (last - first + 1) / 2 - 1)
              (by omega) (by omega)
            simp only [hpv]
            have hle := hs.keyLast_mono c _ bc pv (by omega) hbc hpv
            rw [if_neg (by omega)]
            exact hrec
          · rw [if_neg ho]
            exact hrec
        · rw [if_neg hlt]
          exact ⟨_, mid, rfl, hmid, by omega, by omega⟩

theorem sortedBlocks_of_list (pBlock : List SCompBlock)
    (hwf : ∀ b ∈ pBlock, b.keyFirst ≤ b.keyLast)
    (hsorted : ∀ (i : Nat) (b b' : SCompBlock), pBlock[i]? = some b →
      pBlock[i + 1]? = some b' → b.keyLast ≤ b'.keyFirst) : SortedBlocks pBlock := by
  constructor
  · intro i b hb
    obtain ⟨h0, -⟩ := blockAt_bounds pBlock i b hb
    obtain ⟨k, rfl⟩ := Int.eq_ofNat_of_zero_le h0
    rw [blockAt_of_nat] at hb
    exact hwf b (List.mem_iff_getElem?.mpr ⟨k, hb⟩)
  · intro i b b' hb hb'
    obtain ⟨h0, -⟩ := blockAt_bounds pBlock i b hb
    obtain ⟨k, rfl⟩ := Int.eq_ofNat_of_zero_le h0
    rw [blockAt_of_nat] at hb
    have hb'' : blockAt pBlock ((k + 1 : Nat) : Int) = some b' := by
      push_cast; exact hb'
    rw [blockAt_of_nat] at hb''
    exact hsorted k b b' hb hb''

/-- Ascending scan, key in the gap before block `t`: the loop returns `t`. -/
theorem binarySearchLoop_gap_asc (pBlock : List SCompBlock) (skey : Int)
    (hs : SortedBlocks pBlock) (t : Int) (bp bt : SCompBlock)
    (hbp : blockAt pBlock (t - 1) = some bp) (hbt : blockAt pBlock t = some bt)
    (hg1 : bp.keyLast < skey) (hg2 : skey < bt.keyFirst) :
    ∀ (fuel : Nat) (first last : Int), 0 ≤ first → last < pBlock.length →
      last - first + 1 ≤ fuel → first ≤ t → t ≤ last →
      binarySearchLoop pBlock skey TSQL_SO_ASC fuel first last = some t := by
  intro fuel
  induction fuel with
  | zero =>
    intro first last _ _ hf h1 h2
    exfalso; push_cast at hf; omega
  | succ fuel ih =>
    intro first last h0 hn hf ht1 ht2
    have hdiv := shiftRight_one (last - first + 1)
    obtain ⟨mid, hmid⟩ := blockAt_isSome pBlock (first + (last - first + 1) / 2)
      (by omega) (by omega)
    unfold binarySearchLoop
    simp only [hdiv, hmid]
    by_cases h1 : last - first + 1 = 1
    · rw [if_pos h1]
      congr 1; omega
    · rw [if_neg h1]
      by_cases hgt : skey > mid.keyLast
      · rw [if_pos hgt]
        have hmt : first + (last - first + 1) / 2 < t := by
          by_contra hcon
          have := hs.keyFirst_mono t _ bt mid (by omega) hbt hmid
          have := hs.wf _ _ hmid
          omega
        rw [if_neg (by omega), if_neg (by decide)]
        exact ih _ last (by omega) hn (by push_cast at hf ⊢; omega) (by omega) ht2
      · rw [if_neg hgt]
        by_cases hlt : skey < mid.keyFirst
        · rw [if_pos hlt, if_pos trivial]
          have hmt : t ≤ first + (last - first + 1) / 2 := by
            by_contra hcon
            have := hs.keyLast_mono _ (t - 1) mid bp (by omega) hmid hbp
            have := hs.wf _ _ hmid
            omega
          obtain ⟨pv, hpv⟩ := blockAt_isSome pBlock (first + (last - first + 1) / 2 - 1)
            (by omega) (by omega)
          simp only [hpv]
          by_cases hp : skey > pv.keyLast
          · rw [if_pos hp]
            congr 1
            by_contra hne
            have := hs.keyFirst_mono t _ bt pv (by omega) hbt hpv
            have := hs.wf _ _ hpv
            omega
          · rw [if_neg hp]
            have hne : t ≠ first + (last - first + 1) / 2 := by
              intro e
              rw [← e, hbp] at hpv
              cases hpv
              omega
            exact ih first _ h0 (by omega) (by push_cast at hf ⊢; omega) ht1 (by omega)
        · rw [if_neg hlt]
          exfalso
          rcases le_or_lt t (first + (last - first + 1) / 2) with h | h
          · have := hs.keyFirst_mono t _ bt mid h hbt hmid
            omega
          · have := hs.keyLast_mono _ (t - 1) mid bp (by omega) hmid hbp
            omega

/-- Descending scan, key in the gap after block `t`: the loop returns `t`. -/
theorem binarySearchLoop_gap_desc (pBlock : List SCompBlock) (skey : Int)
    (hs : SortedBlocks pBlock) (t : Int) (bt bn : SCompBlock)
    (hbt : blockAt pBlock t = some bt) (hbn : blockAt pBlock (t + 1) = some bn)
    (hg1 : bt.keyLast < skey) (hg2 : skey < bn.keyFirst) :
    ∀ (fuel : Nat) (first last : Int), 0 ≤ first → last < pBlock.length →
      last - first + 1 ≤ fuel → first ≤ t → t ≤ last →
      binarySearchLoop pBlock skey TSQL_SO_DESC fuel first last = some t := by
  intro fuel
  induction fuel with
  | zero =>
    intro first last _ _ hf h1 h2
    exfalso; push_cast at hf; omega
  | succ fuel ih =>
    intro first last h0 hn hf ht1 ht2
    have hdiv := shiftRight_one (last - first + 1)
    obtain ⟨mid, hmid⟩ := blockAt_isSome pBlock (first + (last - first + 1) / 2)
      (by omega) (by omega)
    have hnb := blockAt_bounds pBlock _ _ hbn
    unfold binarySearchLoop
    simp only [hdiv, hmid]
    by_cases h1 : last - first + 1 = 1
    · rw [if_pos h1]
      congr 1; omega
    · rw [if_neg h1]
      by_cases hgt : skey > mid.keyLast
      · rw [if_pos hgt]
        have hmt : first + (last - first + 1) / 2 ≤ t := by
          by_contra hcon
          have := hs.keyFirst_mono (t + 1) _ bn mid (by omega) hbn hmid
          have := hs.wf _ _ hmid
          omega
        by_cases h2 : last - first + 1 = 2
        · rw [if_pos h2]
          congr 1; omega
        · rw [if_neg h2, if_pos trivial]
          obtain ⟨nx, hnx⟩ := blockAt_isSome pBlock (first + (last - first + 1) / 2 + 1)
            (by omega) (by omega)
          simp only [hnx]
          by_cases hx : skey < nx.keyFirst
          · rw [if_pos hx]
            congr 1
            by_contra hne
            have := hs.keyLast_mono _ t nx bt (by omega) hnx hbt
            have := hs.wf _ _ hnx
            omega
          · rw [if_neg hx]
            have hne : t ≠ first + (last - first + 1) / 2 := by
              intro e
              rw [← e, hbn] at hnx
              cases hnx
              omega
            exact ih _ last (by omega) hn (by push_cast at hf ⊢; omega) (by omega) ht2
      · rw [if_neg hgt]
        by_cases hlt : skey < mid.keyFirst
        · rw [if_pos hlt, if_neg (by decide)]
          have hmt : t < first + (last - first + 1) / 2 := by
            by_contra hcon
            have := hs.keyLast_mono _ t mid bt (by omega) hmid hbt
            have := hs.wf _ _ hmid
            omega
          exact ih first _ h0 (by omega) (by push_cast at hf ⊢; omega) ht1 (by omega)
        · rw [if_neg hlt]
          exfalso
          rcases le_or_lt (first + (last - first + 1) / 2) t with h | h
          · have := hs.keyLast_mono _ t mid bt h hmid hbt
            omega
          · have := hs.keyFirst_mono (t + 1) _ bn mid (by omega) hbn hmid
            omega

/-- C2. For a block array in which every block has `keyFirst ≤ keyLast` and
consecutive blocks satisfy `keyLast[i] ≤ keyFirst[i+1]`, for every key and both
scan orders: if some block contains the key (so the array is not empty),
`binarySearchForBlockImpl` returns the index of a block that contains the
key. -/
theorem binarySearchForBlockImpl_finds_containing_block
    (pBlock : List SCompBlock) (skey : Int) (order : ScanOrder)
    (hwf : ∀ b ∈ pBlock, b.keyFirst ≤ b.keyLast)
    (hsorted : ∀ (i : Nat) (b b' : SCompBlock), pBlock[i]? = some b →
      pBlock[i + 1]? = some b' → b.keyLast ≤ b'.keyFirst)
    (hex : ∃ b ∈ pBlock, b.keyFirst ≤ skey ∧ skey ≤ b.keyLast) :
    ∃ (r : Nat) (b : SCompBlock),
      binarySearchForBlockImpl pBlock pBlock.length skey order = some (r : Int) ∧
      pBlock[r]? = some b ∧ b.keyFirst ≤ skey ∧ skey ≤ b.keyLast := by
  have hs := sortedBlocks_of_list pBlock hwf hsorted
  obtain ⟨bc, hmem, hk1, hk2⟩ := hex
  obtain ⟨c, hc⟩ := List.mem_iff_getElem?.mp hmem
  have hcb : blockAt pBlock (c : Int) = some bc := by rw [blockAt_of_nat]; exact hc
  have hcn := blockAt_bounds pBlock _ _ hcb
  obtain ⟨r, br, hr, hbr, h1, h2⟩ := binarySearchLoop_contains pBlock skey order hs
    (pBlock.length : Int).toNat 0 ((pBlock.length : Int) - 1) (le_refl _) (by omega)
    (by simp) ⟨c, bc, by omega, by omega, hcb, hk1, hk2⟩
  obtain ⟨hr0, -⟩ := blockAt_bounds pBlock r br hbr
  obtain ⟨k, rfl⟩ := Int.eq_ofNat_of_zero_le hr0
  rw [blockAt_of_nat] at hbr
  exact ⟨k, br, hr, hbr, h1, h2⟩

theorem binarySearchForBlockImpl_finds_containing_block_witness :
    ∃ (r : Nat) (b : SCompBlock),
      binarySearchForBlockImpl [⟨0, 10⟩, ⟨10, 30⟩, ⟨40, 50⟩]
        ([⟨0, 10⟩, ⟨10, 30⟩, ⟨40, 50⟩] : List SCompBlock).length 10 TSQL_SO_DESC = some (r : Int) ∧
      ([⟨0, 10⟩, ⟨10, 30⟩, ⟨40, 50⟩] : List SCompBlock)[r]? = some b ∧
      b.keyFirst ≤ 10 ∧ 10 ≤ b.keyLast :=
  binarySearchForBlockImpl_finds_containing_block [⟨0, 10⟩, ⟨10, 30⟩, ⟨40, 50⟩] 10 TSQL_SO_DESC
    (by decide)
    (by
      intro i b b' h1 h2
      match i, h1, h2 with
      | 0, h1, h2 => cases h1; cases h2; decide
      | 1, h1, h2 => cases h1; cases h2; decide
      | (n + 2), h1, h2 => cases h2)
    ⟨⟨10, 30⟩, by decide, by decide, by decide⟩

/-- C3. For a sorted block array (every block has `keyFirst ≤ keyLast`) with
`keyLast[i] < keyFirst[i+1]` and a key strictly inside the gap between the
blocks `s` and `s+1`, `binarySearchForBlockImpl` returns `s+1` in ascending
order and `s` in descending order. -/
theorem binarySearchForBlockImpl_gap_tie_break
    (pBlock : List SCompBlock) (skey : Int) (order : ScanOrder) (s : Nat)
    (bs bs' : SCompBlock)
    (hwf : ∀ b ∈ pBlock, b.keyFirst ≤ b.keyLast)
    (hsorted : ∀ (i : Nat) (b b' : SCompBlock), pBlock[i]? = some b →
      pBlock[i + 1]? = some b' → b.keyLast < b'.keyFirst)
    (hbs : pBlock[s]? = some bs) (hbs' : pBlock[s + 1]? = some bs')
    (hgap1 : bs.keyLast < skey) (hgap2 : skey < bs'.keyFirst) :
    binarySearchForBlockImpl pBlock pBlock.length skey order =
      some (if order = TSQL_SO_ASC then (s : Int) + 1 else (s : Int)) := by
  have hs := sortedBlocks_of_list pBlock hwf
    (fun i b b' h1 h2 => le_of_lt (hsorted i b b' h1 h2))
  have h1 : blockAt pBlock (s : Int) = some bs := by rw [blockAt_of_nat]; exact hbs
  have h2 : blockAt pBlock ((s : Int) + 1) = some bs' := by
    have := blockAt_of_nat pBlock (s + 1)
    push_cast at this
    rw [this]; exact hbs'
  have hb := blockAt_bounds pBlock _ _ h2
  unfold binarySearchForBlockImpl
  cases order with
  | TSQL_SO_ASC =>
    rw [if_pos rfl]
    exact binarySearchLoop_gap_asc pBlock skey hs ((s : Int) + 1) bs bs'
      (by rw [← h1]; congr 1; ring) h2 hgap1 hgap2 _ 0 _ (le_refl _) (by omega) (by simp)
      (by omega) (by omega)
  | TSQL_SO_DESC =>
    rw [if_neg (by decide)]
    exact binarySearchLoop_gap_desc pBlock skey hs (s : Int) bs bs' h1 h2 hgap1 hgap2 _ 0 _
      (le_refl _) (by omega) (by simp) (by omega) (by omega)

theorem binarySearchForBlockImpl_gap_tie_break_witness :
    binarySearchForBlockImpl [⟨0, 10⟩, ⟨20, 30⟩, ⟨40, 50⟩] 3 35 TSQL_SO_ASC = some 2 ∧
    binarySearchForBlockImpl [⟨0, 10⟩, ⟨20, 30⟩, ⟨40, 50⟩] 3 35 TSQL_SO_DESC = some 1 := by
  have hsorted : ∀ (i : Nat) (b b' : SCompBlock),
      ([⟨0, 10⟩, ⟨20, 30⟩, ⟨40, 50⟩] : List SCompBlock)[i]? = some b →
      ([⟨0, 10⟩, ⟨20, 30⟩, ⟨40, 50⟩] : List SCompBlock)[i + 1]? = some b' →
      b.keyLast < b'.keyFirst := by
    intro i b b' h1 h2
    match i, h1, h2 with
    | 0, h1, h2 => cases h1; cases h2; decide
    | 1, h1, h2 => cases h1; cases h2; decide
    | (n + 2), h1, h2 => cases h2
  have ha := binarySearchForBlockImpl_gap_tie_break [⟨0, 10⟩, ⟨20, 30⟩, ⟨40, 50⟩] 35
    TSQL_SO_ASC 1 ⟨20, 30⟩ ⟨40, 50⟩ (by decide) hsorted rfl rfl (by decide) (by decide)
  have hd := binarySearchForBlockImpl_gap_tie_break [⟨0, 10⟩, ⟨20, 30⟩, ⟨40, 50⟩] 35
    TSQL_SO_DESC 1 ⟨20, 30⟩ ⟨40, 50⟩ (by decide) hsorted rfl rfl (by decide) (by decide)
  exact ⟨ha, hd⟩

/-! ### Sliding windows -/

theorem getActiveSlidingWindow_contains (info : SSlidingWindowInfo) (ts interval sliding : Int)
    (w : STimeWindow) (h : getActiveSlidingWindow info ts interval sliding = some w) :
    w.skey ≤ ts ∧ ts ≤ w.ekey := by
  have key : ∀ x : STimeWindow, assertWindowContains ts x = some w →
      w.skey ≤ ts ∧ ts ≤ w.ekey := by
    intro x hx
    unfold assertWindowContains at hx
    split at hx
    · rename_i hc
      cases hx
      exact ⟨hc.1, hc.2⟩
    · cases hx
  unfold getActiveSlidingWindow at h
  simp only at h
  split at h
  · exact key _ h
  · split at h
    · cases h
    · split at h
      · exact key _ h
      · split at h
        · cases h
        · split at h
          · cases h
          · exact key _ h

theorem setSlidingWindowFromKey_isSome (info : SSlidingWindowInfo) (w : STimeWindow)
    (h : w.skey < w.ekey) :
    ∃ info1, setSlidingWindowFromKey info w = some info1 ∧ info1.startTime = info.startTime := by
  unfold setSlidingWindowFromKey
  rw [if_neg (not_not.mpr h)]
  refine ⟨_, rfl, ?_⟩
  show (doSetSlidingWindowFromKey info w.skey).1.startTime = info.startTime
  unfold doSetSlidingWindowFromKey
  split
  · rfl
  · dsimp only
    split <;> rfl

theorem nextWindowsLoop_spec (q : SlidingQuery) (ts : Int) (hs : 0 < q.slidingTime) :
    ∀ (fuel : Nat) (cur : STimeWindow) (info : SSlidingWindowInfo),
      cur.skey ≤ ts → ts ≤ cur.ekey → cur.skey < cur.ekey →
      scanDistance q.order ts cur < fuel →
      ∃ wins info', nextWindowsLoop q ts fuel cur info = some (wins, info') ∧
        (wins.length : Int) ≤ scanDistance q.order ts cur / q.slidingTime ∧
        (∀ x ∈ wins, x.skey ≤ ts ∧ ts ≤ x.ekey) ∧
        (q.order = TSQL_SO_ASC → info.startTime ≤ cur.skey → ts ≤ q.ekey →
          (wins.length : Int) = (ts - cur.skey) / q.slidingTime) ∧
        (q.order = TSQL_SO_DESC →
          info.startTime ≤ cur.skey - (cur.ekey - ts) / q.slidingTime * q.slidingTime →
          ts ≤ q.skey →
          (wins.length : Int) = (cur.ekey - ts) / q.slidingTime) := by
  intro fuel
  induction fuel with
  | zero =>
    intro cur info h1 h2 _ hf
    exfalso
    unfold scanDistance at hf
    split at hf <;> (push_cast at hf; omega)
  | succ fuel ih =>
    intro cur info h1 h2 h3 hf
    have hd0 : 0 ≤ scanDistance q.order ts cur := by
      unfold scanDistance; split <;> omega
    unfold nextWindowsLoop
    simp only
    split
    · -- cut off by `startTime` or by the end of the query range
      rename_i hcut
      refine ⟨[], info, rfl, ?_, by simp, ?_, ?_⟩
      · simpa using Int.ediv_nonneg hd0 (le_of_lt hs)
      · intro ho hst hek
        simp only [List.length_nil, Nat.cast_zero]
        have hnext : ts < cur.skey + q.slidingTime := by
          simp only [getNextLogicalQueryRange, GET_FORWARD_DIRECTION_FACTOR, ho,
            QUERY_IS_ASC_QUERY] at hcut
          simp at hcut
          omega
        exact (Int.ediv_eq_zero_of_lt (by omega) (by omega)).symm
      · intro ho hst hsk
        simp only [List.length_nil, Nat.cast_zero]
        have hk0 : 0 ≤ (cur.ekey - ts) / q.slidingTime :=
          Int.ediv_nonneg (by omega) (le_of_lt hs)
        by_contra hne
        have hk1 : 1 ≤ (cur.ekey - ts) / q.slidingTime := by omega
        have hmul : q.slidingTime ≤ (cur.ekey - ts) / q.slidingTime * q.slidingTime :=
          le_mul_of_one_le_left (le_of_lt hs) hk1
        simp only [getNextLogicalQueryRange, GET_FORWARD_DIRECTION_FACTOR, ho,
          QUERY_IS_ASC_QUERY] at hcut
        simp at hcut
        omega
    · split
      · -- the row lies in the next window
        rename_i hcut hin
        have hnx : (getNextLogicalQueryRange q.slidingTime q.order cur).skey <
            (getNextLogicalQueryRange q.slidingTime q.order cur).ekey := by
          simp only [getNextLogicalQueryRange]; omega
        obtain ⟨info1, hset, hstart⟩ := setSlidingWindowFromKey_isSome info _ hnx
        have hdist : scanDistance q.order ts (getNextLogicalQueryRange q.slidingTime q.order cur)
            = scanDistance q.order ts cur - q.slidingTime := by
          unfold scanDistance getNextLogicalQueryRange GET_FORWARD_DIRECTION_FACTOR
          split <;> simp <;> ring
        obtain ⟨wins, info2, hloop, hlen, hall, hex, hexd⟩ :=
          ih (getNextLogicalQueryRange q.slidingTime q.order cur) info1 hin.1 hin.2 hnx
            (by rw [hdist]; push_cast at hf; omega)
        simp only [hset, hloop]
        have hdiv : (scanDistance q.order ts cur - q.slidingTime) / q.slidingTime =
            scanDistance q.order ts cur / q.slidingTime - 1 := by
          have := Int.add_mul_ediv_right (scanDistance q.order ts cur) (-1) (ne_of_gt hs)
          simpa [sub_eq_add_neg] using this
        refine ⟨_, info2, rfl, ?_, ?_, ?_, ?_⟩
        · rw [hdist, hdiv] at hlen
          simp only [List.length_cons]; push_cast; omega
        · intro x hx
          rcases List.mem_cons.mp hx with rfl | hx
          · exact ⟨hin.1, hin.2⟩
          · exact hall x hx
        · intro ho hst hek
          have hsk : (getNextLogicalQueryRange q.slidingTime q.order cur).skey =
              cur.skey + q.slidingTime := by
            simp [getNextLogicalQueryRange, GET_FORWARD_DIRECTION_FACTOR, ho]
          have := hex ho (by rw [hstart, hsk]; omega) hek
          rw [hsk] at this
          have hdiv2 : (ts - (cur.skey + q.slidingTime)) / q.slidingTime =
              (ts - cur.skey) / q.slidingTime - 1 := by
            have := Int.add_mul_ediv_right (ts - cur.skey) (-1) (ne_of_gt hs)
            rw [show ts - (cur.skey + q.slidingTime) = ts - cur.skey + -1 * q.slidingTime by ring]
            omega
          simp only [List.length_cons]; push_cast; omega
        · intro ho hst hsk
          have hsk1 : (getNextLogicalQueryRange q.slidingTime q.order cur).skey =
              cur.skey - q.slidingTime := by
            simp [getNextLogicalQueryRange, GET_FORWARD_DIRECTION_FACTOR, ho]
            ring
          have hek1 : (getNextLogicalQueryRange q.slidingTime q.order cur).ekey =
              cur.ekey - q.slidingTime := by
            simp [getNextLogicalQueryRange, GET_FORWARD_DIRECTION_FACTOR, ho]
            ring
          have hdiv2 : (cur.ekey - q.slidingTime - ts) / q.slidingTime =
              (cur.ekey - ts) / q.slidingTime - 1 := by
            have := Int.add_mul_ediv_right (cur.ekey - ts) (-1) (ne_of_gt hs)
            rw [show cur.ekey - q.slidingTime - ts = cur.ekey - ts + -1 * q.slidingTime by ring]
            omega
          have := hexd ho
            (by
              rw [hstart, hsk1, hek1, hdiv2]
              have hring : cur.skey - q.slidingTime -
                  ((cur.ekey - ts) / q.slidingTime - 1) * q.slidingTime =
                  cur.skey - (cur.ekey - ts) / q.slidingTime * q.slidingTime := by ring
              rw [hring]
              exact hst)
            hsk
          rw [hek1, hdiv2] at this
          simp only [List.length_cons]; push_cast; omega
      · -- the row lies outside the next window
        rename_i hcut hout
        refine ⟨[], info, rfl, ?_, by simp, ?_, ?_⟩
        · simpa using Int.ediv_nonneg hd0 (le_of_lt hs)
        · intro ho hst hek
          simp only [List.length_nil, Nat.cast_zero]
          have hnext : ts < cur.skey + q.slidingTime := by
            simp only [getNextLogicalQueryRange, GET_FORWARD_DIRECTION_FACTOR, ho] at hout
            simp at hout
            omega
          exact (Int.ediv_eq_zero_of_lt (by omega) (by omega)).symm
        · intro ho hst hsk
          simp only [List.length_nil, Nat.cast_zero]
          have hnext : cur.ekey - q.slidingTime < ts := by
            simp only [getNextLogicalQueryRange, GET_FORWARD_DIRECTION_FACTOR, ho] at hout
            simp at hout
            omega
          exact (Int.ediv_eq_zero_of_lt (by omega) (by omega)).symm

/-- C4 (amended). For `nAggTimeInterval > 1` and `slidingTime > 0`, when
`getActiveSlidingWindow` returns the active window `w` for the row `ts` and `w`
is `nAggTimeInterval` long, the sliding-window branch returns, and it applies
the row to `w` and the following windows in scan direction that contain `ts`:
at least one and at most `ceil(nAggTimeInterval / slidingTime)` windows, each
of which contains `ts`. In ascending order, when `w` does not start before
`startTime` and `ts` does not lie after the end of the query range, the number
is `floor((ts - w.skey) / slidingTime) + 1`. In descending order, when none of
the windows `w.skey - k * slidingTime` for `k` up to
`floor((w.ekey - ts) / slidingTime)` starts before `startTime` and `ts` does
not lie after the start key of the query, the number is
`floor((w.ekey - ts) / slidingTime) + 1`. -/
theorem slidingWindowRow_window_count (q : SlidingQuery) (info : SSlidingWindowInfo)
    (ts : Int) (w : STimeWindow)
    (hint : 1 < q.nAggTimeInterval) (hs : 0 < q.slidingTime)
    (hact : getActiveSlidingWindow info ts q.nAggTimeInterval q.slidingTime = some w)
    (hw : w.ekey = w.skey + q.nAggTimeInterval - 1) :
    ∃ wins info', slidingWindowRow q info ts = some (wins, info') ∧
      1 ≤ (wins.length : Int) ∧
      (wins.length : Int) ≤ (q.nAggTimeInterval + q.slidingTime - 1) / q.slidingTime ∧
      (∀ x ∈ wins, x.skey ≤ ts ∧ ts ≤ x.ekey) ∧
      (q.order = TSQL_SO_ASC → info.startTime ≤ w.skey → ts ≤ q.ekey →
        (wins.length : Int) = (ts - w.skey) / q.slidingTime + 1) ∧
      (q.order = TSQL_SO_DESC →
        info.startTime ≤ w.skey - (w.ekey - ts) / q.slidingTime * q.slidingTime →
        ts ≤ q.skey →
        (wins.length : Int) = (w.ekey - ts) / q.slidingTime + 1) := by
  obtain ⟨hc1, hc2⟩ := getActiveSlidingWindow_contains info ts _ _ w hact
  have hlt : w.skey < w.ekey := by omega
  obtain ⟨info1, hset, hstart⟩ := setSlidingWindowFromKey_isSome info w hlt
  have hdle : scanDistance q.order ts w ≤ q.nAggTimeInterval - 1 := by
    unfold scanDistance; split <;> omega
  obtain ⟨wins, info2, hloop, hlen, hall, hex, hexd⟩ := nextWindowsLoop_spec q ts hs
    ((ts - w.skey).toNat + (w.ekey - ts).toNat + 1) w info1 hc1 hc2 hlt
    (by unfold scanDistance; split <;> (push_cast; omega))
  have hceil : (q.nAggTimeInterval + q.slidingTime - 1) / q.slidingTime =
      (q.nAggTimeInterval - 1) / q.slidingTime + 1 := by
    have := Int.add_mul_ediv_right (q.nAggTimeInterval - 1) 1 (ne_of_gt hs)
    rw [show q.nAggTimeInterval + q.slidingTime - 1 =
      q.nAggTimeInterval - 1 + 1 * q.slidingTime by ring]
    exact this
  have hmono := Int.ediv_le_ediv hs hdle
  unfold slidingWindowRow
  simp only [hact, hset, hloop]
  refine ⟨_, _, rfl, ?_, ?_, ?_, ?_, ?_⟩
  · simp only [List.length_cons]; push_cast; omega
  · simp only [List.length_cons]; push_cast; omega
  · intro x hx
    rcases List.mem_cons.mp hx with rfl | hx
    · exact ⟨hc1, hc2⟩
    · exact hall x hx
  · intro ho hst hek
    have := hex ho (by rw [hstart]; exact hst) hek
    simp only [List.length_cons]; push_cast; omega
  · intro ho hst hsk
    have := hexd ho (by rw [hstart]; exact hst) hsk
    simp only [List.length_cons]; push_cast; omega


theorem slidingWindowRow_window_count_witness :
    ∃ wins info', slidingWindowRow ⟨2000, 1000, 0, 4000, TSQL_SO_ASC⟩ slidingStartState 1000 =
        some (wins, info') ∧
      1 ≤ (wins.length : Int) ∧
      (wins.length : Int) ≤ (2000 + 1000 - 1) / 1000 ∧
      (∀ x ∈ wins, x.skey ≤ 1000 ∧ 1000 ≤ x.ekey) ∧
      (TSQL_SO_ASC = TSQL_SO_ASC → slidingStartState.startTime ≤ 0 → (1000 : Int) ≤ 4000 →
        (wins.length : Int) = (1000 - 0) / 1000 + 1) ∧
      (TSQL_SO_ASC = TSQL_SO_DESC →
        slidingStartState.startTime ≤ 0 - (1999 - 1000) / 1000 * 1000 → (1000 : Int) ≤ 0 →
        (wins.length : Int) = (1999 - 1000) / 1000 + 1) :=
  slidingWindowRow_window_count ⟨2000, 1000, 0, 4000, TSQL_SO_ASC⟩ slidingStartState 1000
    ⟨0, 1999⟩ (by decide) (by decide) (by decide) (by decide)

/-- Interval 2000, sliding 1000, descending query from 4000 down to 0 at its
start: the row with timestamp 4000 is applied to the active window
`[4000, 5999]` and to the next window in scan direction, `[3000, 4999]`, which
are `floor((5999 - 4000) / 1000) + 1 = 2` windows. -/
theorem slidingWindowRow_descending_count :
    (slidingWindowRow ⟨2000, 1000, 4000, 0, TSQL_SO_DESC⟩ slidingDescStartState 4000).map
        (fun r => r.1) = some [⟨4000, 5999⟩, ⟨3000, 4999⟩] ∧
      ((5999 - 4000) / 1000 + 1 : Int) = 2 := by
  decide

/-- C4 (counterexample). Interval 2000, sliding 1500, ascending query over
`[1000, 4000]` at its start (the aligned start of the first key 1000 is 0): the
row with timestamp 1000, which lies in the query range, is applied to the one
window `[0, 1999]`, while `ceil(2000 / 1500) = 2`. -/
theorem slidingWindowRow_not_ceil_windows :
    taosGetIntervalStartTimestamp 1000 2000 0 = slidingStartState.startTime ∧
    taosGetIntervalStartTimestamp 1000 2000 0 = slidingStartState.prevSKey ∧
    (slidingWindowRow ⟨2000, 1500, 1000, 4000, TSQL_SO_ASC⟩ slidingStartState 1000).map
        (fun r => (r.1, r.1.length)) = some ([⟨0, 1999⟩], 1) ∧
      ((2000 + 1500 - 1) / 1500 : Int) = 2 := by
  decide

/-! ### Aligned interval range -/

theorem wrap64_of_isInt64 (x : Int) (h : isInt64 x) : wrap64 x = x := by
  unfold isInt64 INT64_MIN INT64_MAX at h
  unfold wrap64
  omega

theorem wrap64_sub_one (x : Int) : wrap64 (wrap64 x - 1) = wrap64 (x - 1) := by
  unfold wrap64
  omega

/-- C5 (amended). For `keyFirst ≤ pKey ≤ keyLast`, `0 ≤ interval`,
`keyFirst ≤ INT64_MAX - interval` and an aligned start `S` of `pKey` for which
`S + interval - 1` is an `int64_t` value (no overflow),
`doGetAlignedIntervalQueryRangeImpl` returns the window `skey = S`,
`ekey = S + interval - 1` and the actual range `max(S, keyFirst)`,
`min(S + interval - 1, keyLast)`; hence whenever `S ≤ pKey ≤ S + interval - 1`
the actual range contains `pKey`. -/
theorem doGetAlignedIntervalQueryRangeImpl_aligned
    (interval S pKey keyFirst keyLast : Int)
    (hi : isInt64 interval)
    (hrange : keyFirst ≤ pKey ∧ pKey ≤ keyLast)
    (hpos : 0 ≤ interval)
    (hguard : keyFirst ≤ INT64_MAX - interval)
    (hno : isInt64 (S + interval - 1)) :
    doGetAlignedIntervalQueryRangeImpl interval S pKey keyFirst keyLast =
        some ⟨max S keyFirst, min (S + interval - 1) keyLast, S, S + interval - 1⟩ ∧
      (S ≤ pKey ∧ pKey ≤ S + interval - 1 →
        max S keyFirst ≤ pKey ∧ pKey ≤ min (S + interval - 1) keyLast) := by
  have h1 : wrap64 (INT64_MAX - interval) = INT64_MAX - interval := by
    apply wrap64_of_isInt64
    unfold isInt64 INT64_MIN INT64_MAX at *
    omega
  have h2 : wrap64 (wrap64 (S + interval) - 1) = S + interval - 1 := by
    rw [wrap64_sub_one]
    exact wrap64_of_isInt64 _ hno
  constructor
  · unfold doGetAlignedIntervalQueryRangeImpl
    rw [if_neg (by omega)]
    simp only [h1, h2]
    rw [if_neg (by omega)]
    congr 2
    · rcases lt_or_le S keyFirst with h | h
      · rw [if_pos h, max_eq_right (le_of_lt h)]
      · rw [if_neg (by omega), max_eq_left h]
    · rcases lt_or_le (S + interval - 1) keyLast with h | h
      · rw [if_pos h, min_eq_left (le_of_lt h)]
      · rw [if_neg (by omega), min_eq_right h]
  · intro h
    exact ⟨max_le h.1 hrange.1, le_min h.2 hrange.2⟩

theorem doGetAlignedIntervalQueryRangeImpl_aligned_witness :
    doGetAlignedIntervalQueryRangeImpl 2000 2000 3500 1500 4000 =
        some ⟨max 2000 1500, min (2000 + 2000 - 1) 4000, 2000, 2000 + 2000 - 1⟩ ∧
      ((2000 : Int) ≤ 3500 ∧ (3500 : Int) ≤ 2000 + 2000 - 1 →
        max (2000 : Int) 1500 ≤ 3500 ∧ (3500 : Int) ≤ min (2000 + 2000 - 1) 4000) :=
  doGetAlignedIntervalQueryRangeImpl_aligned 2000 2000 3500 1500 4000
    (by decide) (by decide) (by decide) (by decide) (by decide)

/-- C5 (counterexample). Query range `[0, INT64_MAX]`, first key
`pKey = INT64_MAX`, interval 1000: `keyFirst ≤ INT64_MAX - interval` holds, the
aligned start of `pKey` is `S = 9223372036854775000` and
`S ≤ pKey ≤ S + interval - 1`; the sum `S + interval - 1` overflows, so the
window returned ends at a negative key and the actual range `[S, ekey]` is
empty. -/
theorem doGetAlignedIntervalQueryRangeImpl_overflow :
    (0 : Int) ≤ INT64_MAX - 1000 ∧
    taosGetIntervalStartTimestamp INT64_MAX 1000 0 = 9223372036854775000 ∧
    (9223372036854775000 ≤ INT64_MAX ∧ INT64_MAX ≤ 9223372036854775000 + 1000 - 1) ∧
    doGetAlignedIntervalQueryRangeImpl 1000 (taosGetIntervalStartTimestamp INT64_MAX 1000 0)
        INT64_MAX 0 INT64_MAX =
      some ⟨9223372036854775000, -9223372036854775617, 9223372036854775000,
        -9223372036854775617⟩ := by
  decide

/-- C6 (amended). When the query range is shorter than one interval and adding
the interval would overflow (`keyFirst > INT64_MAX - interval`),
`doGetAlignedIntervalQueryRangeImpl` returns the window end `ekey = INT64_MAX`
and the actual range `[keyFirst, keyLast]`; the window start `skey` is the
aligned start `S` of `pKey`. -/
theorem doGetAlignedIntervalQueryRangeImpl_near_max
    (interval S pKey keyFirst keyLast : Int)
    (hi : isInt64 interval) (hf : isInt64 keyFirst)
    (hrange : keyFirst ≤ pKey ∧ pKey ≤ keyLast)
    (hshort : keyLast - keyFirst < interval)
    (hguard : keyFirst > INT64_MAX - interval) :
    doGetAlignedIntervalQueryRangeImpl interval S pKey keyFirst keyLast =
      some ⟨keyFirst, keyLast, S, INT64_MAX⟩ := by
  have h1 : wrap64 (INT64_MAX - interval) = INT64_MAX - interval := by
    apply wrap64_of_isInt64
    unfold isInt64 INT64_MIN INT64_MAX at *
    omega
  have h2 : wrap64 (keyLast - keyFirst) = keyLast - keyFirst := by
    apply wrap64_of_isInt64
    unfold isInt64 INT64_MIN INT64_MAX at *
    omega
  unfold doGetAlignedIntervalQueryRangeImpl
  rw [if_neg (by omega)]
  simp only [h1, h2]
  rw [if_pos hguard, if_neg (by omega)]

theorem doGetAlignedIntervalQueryRangeImpl_near_max_witness :
    doGetAlignedIntervalQueryRangeImpl 1000 9223372036854775000 9223372036854775800
        9223372036854775800 9223372036854775805 =
      some ⟨9223372036854775800, 9223372036854775805, 9223372036854775000, INT64_MAX⟩ :=
  doGetAlignedIntervalQueryRangeImpl_near_max 1000 9223372036854775000 9223372036854775800
    9223372036854775800 9223372036854775805 (by decide) (by decide) (by decide) (by decide)
    (by decide)

/-- C6 (counterexample). Query range `[INT64_MAX - 7, INT64_MAX - 2]`, first
key `INT64_MAX - 7`, interval 1000: the range is shorter than the interval and
`keyFirst > INT64_MAX - interval`; the window start returned is the aligned
start `9223372036854775000` of the first key, not `keyFirst`. -/
theorem doGetAlignedIntervalQueryRangeImpl_skey_not_keyFirst :
    (9223372036854775805 - 9223372036854775800 : Int) < 1000 ∧
    (9223372036854775800 : Int) > INT64_MAX - 1000 ∧
    (doGetAlignedIntervalQueryRangeImpl 1000
        (taosGetIntervalStartTimestamp 9223372036854775800 1000 0) 9223372036854775800
        9223372036854775800 9223372036854775805).map (fun r => (r.skey, r.ekey)) =
      some (9223372036854775000, INT64_MAX) ∧
    (9223372036854775000 : Int) ≠ 9223372036854775800 := by
  decide

/-! ### Query status and the limit -/

theorem lor_land_self (x c : Nat) : (x ||| c) &&& c = c := by
  apply Nat.eq_of_testBit_eq
  intro i
  rw [Nat.testBit_land, Nat.testBit_lor]
  cases x.testBit i <;> cases c.testBit i <;> rfl

theorem setQueryStatus_has_status (F : QueryStatusFlags) (over status : Nat) :
    setQueryStatus F over status &&& status = status := by
  unfold setQueryStatus
  split
  · exact Nat.and_self _
  · exact lor_land_self _ _

/-- C7. If `limit > 0` and `query.pointsRead + qinfo.pointsRead > limit`,
`doRevisedResultsByLimit` returns true, leaves
`query.pointsRead + qinfo.pointsRead = limit` and sets the status with
`setQueryStatus(QUERY_COMPLETED)`, after which the `QUERY_COMPLETED` bits are
set in `over`; in every other case it returns false and changes nothing. -/
theorem doRevisedResultsByLimit_spec (F : QueryStatusFlags) (s : LimitState) :
    (s.limit > 0 ∧ s.pointsRead + s.qinfoPointsRead > s.limit →
      (doRevisedResultsByLimit F s).1 = true ∧
      (doRevisedResultsByLimit F s).2.pointsRead + (doRevisedResultsByLimit F s).2.qinfoPointsRead
        = s.limit ∧
      (doRevisedResultsByLimit F s).2.limit = s.limit ∧
      (doRevisedResultsByLimit F s).2.qinfoPointsRead = s.qinfoPointsRead ∧
      (doRevisedResultsByLimit F s).2.over = setQueryStatus F s.over F.QUERY_COMPLETED ∧
      (doRevisedResultsByLimit F s).2.over &&& F.QUERY_COMPLETED = F.QUERY_COMPLETED) ∧
    (¬ (s.limit > 0 ∧ s.pointsRead + s.qinfoPointsRead > s.limit) →
      doRevisedResultsByLimit F s = (false, s)) := by
  constructor
  · intro h
    unfold doRevisedResultsByLimit
    rw [if_pos h]
    refine ⟨rfl, ?_, rfl, rfl, rfl, ?_⟩
    · show s.limit - s.qinfoPointsRead + s.qinfoPointsRead = s.limit
      omega
    · exact setQueryStatus_has_status F s.over F.QUERY_COMPLETED
  · intro h
    unfold doRevisedResultsByLimit
    rw [if_neg h]

theorem doRevisedResultsByLimit_spec_witness :
    (doRevisedResultsByLimit exampleFlags ⟨10, 8, 5, 1⟩).1 = true ∧
    (doRevisedResultsByLimit exampleFlags ⟨10, 8, 5, 1⟩).2.pointsRead +
      (doRevisedResultsByLimit exampleFlags ⟨10, 8, 5, 1⟩).2.qinfoPointsRead = 10 ∧
    (doRevisedResultsByLimit exampleFlags ⟨10, 8, 5, 1⟩).2.limit = 10 ∧
    (doRevisedResultsByLimit exampleFlags ⟨10, 8, 5, 1⟩).2.qinfoPointsRead = 5 ∧
    (doRevisedResultsByLimit exampleFlags ⟨10, 8, 5, 1⟩).2.over =
      setQueryStatus exampleFlags 1 exampleFlags.QUERY_COMPLETED ∧
    (doRevisedResultsByLimit exampleFlags ⟨10, 8, 5, 1⟩).2.over &&&
      exampleFlags.QUERY_COMPLETED = exampleFlags.QUERY_COMPLETED :=
  (doRevisedResultsByLimit_spec exampleFlags ⟨10, 8, 5, 1⟩).1 ⟨by decide, by decide⟩

/-! ### Result pager -/

theorem groupVisitOrder_lt (startIdx totalSubset forward : Int) (i : Nat)
    (h : i ∈ groupVisitOrder startIdx totalSubset forward) : (i : Int) < totalSubset := by
  unfold groupVisitOrder at h
  split at h
  · rename_i hr
    split at h
    · rw [List.mem_range'_1] at h
      omega
    · rw [List.mem_reverse, List.mem_range] at h
      omega
  · cases h

theorem groupVisitOrder_head (startIdx totalSubset forward : Int) (i : Nat) (rest : List Nat)
    (h : groupVisitOrder startIdx totalSubset forward = i :: rest) : i = startIdx.toNat := by
  unfold groupVisitOrder at h
  split at h
  · rename_i hr
    split at h
    · have hpos : (totalSubset - startIdx).toNat = (totalSubset - startIdx).toNat - 1 + 1 := by
        omega
      rw [hpos, List.range'_succ] at h
      exact (List.cons.inj h).1.symm
    · rw [List.range_succ, List.reverse_append] at h
      exact (List.cons.inj h).1.symm
  · cases h

theorem doCopyLoop_bounds (result : List Int) (pointsToRead : Int)
    (hrows : ∀ r ∈ result, 0 ≤ r) :
    ∀ (visit : List Nat) (cur : GroupCursor) (n : Int) (copies : List GroupCopy),
      (∀ i ∈ visit, i < result.length) → 0 ≤ n → n ≤ pointsToRead → cur.offset ≤ 1 →
      (∀ i rest r, visit = i :: rest → result[i]? = some r → cur.offset ≤ r) →
      (∀ c ∈ copies, ∃ r, result[c.group]? = some r ∧ r ≠ 0) →
      ∃ res, doCopyLoop result pointsToRead visit cur n copies = some res ∧
        0 ≤ res.numOfResult ∧ res.numOfResult ≤ pointsToRead ∧
        ∀ c ∈ res.copies, ∃ r, result[c.group]? = some r ∧ r ≠ 0 := by
  intro visit
  induction visit with
  | nil =>
    intro cur n copies _ h0 hp _ _ hc
    exact ⟨_, rfl, h0, hp, hc⟩
  | cons i visit ih =>
    intro cur n copies hin h0 hp hoff hcur hc
    have hi : i < result.length := hin i (by simp)
    have hget : result[i]? = some result[i] := List.getElem?_eq_getElem hi
    have hnonneg : 0 ≤ result[i] := hrows _ (List.getElem_mem hi)
    have hle : cur.offset ≤ result[i] := hcur i visit _ rfl hget
    have hin' : ∀ j ∈ visit, j < result.length := fun j hj => hin j (by simp [hj])
    unfold doCopyLoop
    simp only [hget]
    by_cases hz : result[i] = 0
    · rw [if_pos hz]
      exact ih ⟨cur.subgroupIdx + 1, 0⟩ n copies hin' h0 hp (by simp)
        (fun j rest r _ hr => hrows r (List.mem_iff_getElem?.mpr ⟨_, hr⟩)) hc
    · rw [if_neg hz, if_neg (by simp only [not_not]; exact ⟨hnonneg, hoff⟩)]
      have hc' : ∀ k : Int, ∀ c ∈ copies ++ [(⟨i, cur.offset, k⟩ : GroupCopy)],
          ∃ r, result[c.group]? = some r ∧ r ≠ 0 := by
        intro k c hmem
        rcases List.mem_append.mp hmem with h | h
        · exact hc c h
        · rw [List.mem_singleton] at h
          subst h
          exact ⟨_, hget, hz⟩
      by_cases htr : result[i] - cur.offset > pointsToRead - n
      · simp only [if_pos htr]
        rw [if_pos (by omega)]
        exact ⟨_, rfl, by dsimp only; omega, by dsimp only; omega, hc' _⟩
      · simp only [if_neg htr]
        by_cases hfull : n + (result[i] - cur.offset) = pointsToRead
        · rw [if_pos hfull]
          exact ⟨_, rfl, by dsimp only; omega, by dsimp only; omega, hc' _⟩
        · rw [if_neg hfull]
          exact ih ⟨cur.subgroupIdx + 1, 0⟩ _ _ hin' (by omega) (by omega) (by simp)
            (fun j rest r _ hr => hrows r (List.mem_iff_getElem?.mpr ⟨_, hr⟩)) (hc' _)

/-- With the `assert` of `doCopyFromGroupBuf` met at entry (`offset ≤ 1`), the
statement of C8 holds: for row counts `≥ 0`, `pointsToRead ≥ 0` and an offset
not larger than the row count of the current group, the function returns `n`
with `0 ≤ n ≤ pointsToRead`, and no copy is taken from a group without rows. -/
theorem doCopyFromGroupBuf_bounds_of_offset_le_one (result : List Int)
    (totalSubset pointsToRead : Int) (orderType : ScanOrder) (cur : GroupCursor)
    (hrows : ∀ r ∈ result, 0 ≤ r) (htotal : totalSubset ≤ result.length)
    (hp : 0 ≤ pointsToRead) (hassert : cur.offset ≤ 1)
    (hoff : ∀ r, result[(groupStartIdx totalSubset orderType cur).toNat]? = some r →
      cur.offset ≤ r) :
    ∃ res, doCopyFromGroupBuf result totalSubset pointsToRead orderType cur = some res ∧
      0 ≤ res.numOfResult ∧ res.numOfResult ≤ pointsToRead ∧
      ∀ c ∈ res.copies, ∃ r, result[c.group]? = some r ∧ r ≠ 0 := by
  unfold doCopyFromGroupBuf
  apply doCopyLoop_bounds result pointsToRead hrows _ cur 0 [] _ (le_refl _) hp hassert
  · intro i rest r hv hr
    have := groupVisitOrder_head _ _ _ i rest hv
    subst this
    exact hoff r hr
  · intro c hc
    cases hc
  · intro i hi
    have := groupVisitOrder_lt _ _ _ i hi
    omega

theorem doCopyFromGroupBuf_bounds_of_offset_le_one_witness :
    ∃ res, doCopyFromGroupBuf [1, 0, 3, 0, 2] 5 4 TSQL_SO_DESC ⟨0, 0⟩ = some res ∧
      0 ≤ res.numOfResult ∧ res.numOfResult ≤ 4 ∧
      ∀ c ∈ res.copies, ∃ r, ([1, 0, 3, 0, 2] : List Int)[c.group]? = some r ∧ r ≠ 0 :=
  doCopyFromGroupBuf_bounds_of_offset_le_one [1, 0, 3, 0, 2] 5 4 TSQL_SO_DESC ⟨0, 0⟩
    (by decide) (by decide) (by decide) (by decide)
    (by intro r h; cases h; decide)

/-- A group without rows is stepped over: the loop goes on with the next group
from `subgroupIdx + 1`, offset 0 and the same rows copied so far. -/
theorem doCopyLoop_skips_empty_group (result : List Int) (pointsToRead : Int) (i : Nat)
    (visit : List Nat) (cur : GroupCursor) (n : Int) (copies : List GroupCopy)
    (hz : result[i]? = some 0) :
    doCopyLoop result pointsToRead (i :: visit) cur n copies =
      doCopyLoop result pointsToRead visit ⟨cur.subgroupIdx + 1, 0⟩ n copies := by
  rw [doCopyLoop]
  simp only [hz, if_true]

/-- C8 (evaluation at the failing input). One group of 5 rows, read in pages
of 3 rows: the first call returns 3 rows and leaves the continuation state
`(subgroupIdx, offset) = (0, 3)`; the second call, entered with this state
(offset 3 is not larger than the 5 rows of the group), fails in
`assert(... && pSupporter->offset <= 1)` and returns nothing. -/
theorem doCopyFromGroupBuf_second_page_aborts :
    doCopyFromGroupBuf [5] 1 3 TSQL_SO_ASC ⟨0, 0⟩ = some ⟨3, ⟨0, 3⟩, [⟨0, 0, 3⟩]⟩ ∧
    doCopyFromGroupBuf [5] 1 3 TSQL_SO_ASC ⟨0, 3⟩ = none := by
  decide

/-! ### Block scan and cancellation -/

/-- C9. If the query is killed (its `killed` flag is set, or its table is being
dropped) when the loop of `doScanAllDataBlocks` polls `isQueryKilled` with
`cnt` rows scanned in `blocks` blocks, the loop ends there: no further block
is handled, `over` gets `QUERY_NO_DATA_TO_CHECK` through `setQueryStatus` and
has these bits set, and `cnt` is returned; killed at the entry of
`doScanAllDataBlocks`, the function returns 0 with no block handled. -/
theorem doScanAllDataBlocks_killed {σ : Type} (F : QueryStatusFlags) (ops : ScanOps σ)
    (fuel : Nat) (s : ScanState σ) (hk : s.killed = 1 ∨ s.meterDropping = true) :
    (∀ (cnt : Int) (blocks : Nat), ∃ r, scanLoop F ops (fuel + 1) s cnt blocks = some r ∧
      r.cnt = cnt ∧ r.blocks = blocks ∧
      r.state.over = setQueryStatus F s.over F.QUERY_NO_DATA_TO_CHECK ∧
      r.state.over &&& F.QUERY_NO_DATA_TO_CHECK = F.QUERY_NO_DATA_TO_CHECK ∧
      r.state.rest = s.rest) ∧
    (s.slot = s.startPosSlot → ∃ r, doScanAllDataBlocks F ops (fuel + 1) s = some r ∧
      r.cnt = 0 ∧ r.blocks = 0 ∧
      r.state.over &&& F.QUERY_NO_DATA_TO_CHECK = F.QUERY_NO_DATA_TO_CHECK) := by
  have hpoll : (isQueryKilled s).1 = true ∧ (isQueryKilled s).2.over = s.over ∧
      (isQueryKilled s).2.rest = s.rest := by
    unfold isQueryKilled
    by_cases hd : s.meterDropping = true
    · rw [if_pos hd]; exact ⟨rfl, rfl, rfl⟩
    · rw [if_neg hd]
      rcases hk with h | h
      · exact ⟨by simp [h], rfl, rfl⟩
      · exact absurd h hd
  have hloop : ∀ (cnt : Int) (blocks : Nat), ∃ r,
      scanLoop F ops (fuel + 1) s cnt blocks = some r ∧
      r.cnt = cnt ∧ r.blocks = blocks ∧
      r.state.over = setQueryStatus F s.over F.QUERY_NO_DATA_TO_CHECK ∧
      r.state.over &&& F.QUERY_NO_DATA_TO_CHECK = F.QUERY_NO_DATA_TO_CHECK ∧
      r.state.rest = s.rest := by
    intro cnt blocks
    unfold scanLoop
    simp only [hpoll.1, if_true]
    refine ⟨_, rfl, rfl, rfl, ?_, ?_, hpoll.2.2⟩
    · simp only [hpoll.2.1]
    · exact setQueryStatus_has_status F _ _
  refine ⟨hloop, ?_⟩
  intro hslot
  obtain ⟨r, hr, h1, h2, -, h4, -⟩ := hloop 0 0
  refine ⟨r, ?_, h1, h2, h4⟩
  unfold doScanAllDataBlocks
  rw [if_neg (not_not.mpr hslot)]
  exact hr

theorem doScanAllDataBlocks_killed_witness :
    (∀ (cnt : Int) (blocks : Nat), ∃ r,
      scanLoop exampleFlags endlessScanOps (0 + 1) ⟨1, 1, false, 0, 0, 0⟩ cnt blocks = some r ∧
      r.cnt = cnt ∧ r.blocks = blocks ∧
      r.state.over = setQueryStatus exampleFlags 1 exampleFlags.QUERY_NO_DATA_TO_CHECK ∧
      r.state.over &&& exampleFlags.QUERY_NO_DATA_TO_CHECK =
        exampleFlags.QUERY_NO_DATA_TO_CHECK ∧
      r.state.rest = 0) ∧
    ((0 : Int) = 0 → ∃ r,
      doScanAllDataBlocks exampleFlags endlessScanOps (0 + 1) ⟨1, 1, false, 0, 0, 0⟩ = some r ∧
      r.cnt = 0 ∧ r.blocks = 0 ∧
      r.state.over &&& exampleFlags.QUERY_NO_DATA_TO_CHECK =
        exampleFlags.QUERY_NO_DATA_TO_CHECK) :=
  doScanAllDataBlocks_killed exampleFlags endlessScanOps 0 ⟨1, 1, false, 0, 0, 0⟩
    (Or.inl rfl)

/-- A scan of blocks of 10 rows that is killed while its third block is
handled returns 30 at the next poll, with three blocks handled. -/
theorem doScanAllDataBlocks_killed_after_three_blocks :
    (doScanAllDataBlocks exampleFlags endlessScanOps 100 ⟨1, 0, false, 0, 0, 0⟩).map
      (fun r => (r.cnt, r.blocks, r.state.over)) = some (30, 3, 4) := by
  decide

/-! ### Parameter check -/

theorem vnodeParametersSafetyCheck_false_iff (l : List Int) :
    vnodeParametersSafetyCheck l = false ↔
      ∃ (i : Nat) (a : Int), l[i]? = some a ∧ l[i + 1]? = some a := by
  induction l with
  | nil => simp [vnodeParametersSafetyCheck]
  | cons a t ih =>
    cases t with
    | nil => simp [vnodeParametersSafetyCheck]
    | cons b rest =>
      unfold vnodeParametersSafetyCheck
      by_cases hab : a = b
      · rw [if_pos hab]
        simp only [true_iff]
        exact ⟨0, a, rfl, by simp [hab]⟩
      · rw [if_neg hab, ih]
        constructor
        · rintro ⟨i, x, h1, h2⟩
          exact ⟨i + 1, x, by simpa using h1, by simpa using h2⟩
        · rintro ⟨i, x, h1, h2⟩
          cases i with
          | zero =>
            simp at h1 h2
            exact absurd (h1.trans h2.symm) hab
          | succ k => exact ⟨k, x, by simpa using h1, by simpa using h2⟩

theorem vnodeParametersSafetyCheck_of_nodup (l : List Int) (h : l.Nodup) :
    vnodeParametersSafetyCheck l = true := by
  induction l with
  | nil => rfl
  | cons a t ih =>
    cases t with
    | nil => rfl
    | cons b rest =>
      unfold vnodeParametersSafetyCheck
      have hab : a ≠ b := by
        intro e
        have := (List.nodup_cons.mp h).1
        exact this (by simp [e])
      rw [if_neg hab]
      exact ih (List.nodup_cons.mp h).2

theorem nodup_of_sorted_of_safetyCheck (l : List Int) (hs : l.Sorted (· ≤ ·))
    (h : vnodeParametersSafetyCheck l = true) : l.Nodup := by
  induction l with
  | nil => exact List.nodup_nil
  | cons a t ih =>
    cases t with
    | nil => simp
    | cons b rest =>
      unfold vnodeParametersSafetyCheck at h
      have hab : a ≠ b := by
        intro e
        rw [if_pos e] at h
        cases h
      rw [if_neg hab] at h
      have hs' := List.sorted_cons.mp hs
      have hsb := List.sorted_cons.mp hs'.2
      refine List.nodup_cons.mpr ⟨?_, ih hs'.2 h⟩
      intro hmem
      have hle : a ≤ b := hs'.1 b (by simp)
      rcases List.mem_cons.mp hmem with e | hm
      · exact hab e
      · have := hsb.1 a hm
        omega

/-- C10 (amended). The check `vnodeParametersSafetyCheck` returns false exactly
when two adjacent entries of the column list have the same column id; on a
column list ordered by column id that is exactly when two entries, at whatever
positions, have the same id; and it returns true when all column ids are
distinct. -/
theorem vnodeParametersSafetyCheck_spec (l : List Int) :
    (vnodeParametersSafetyCheck l = false ↔
      ∃ (i : Nat) (a : Int), l[i]? = some a ∧ l[i + 1]? = some a) ∧
    (l.Sorted (· ≤ ·) → (vnodeParametersSafetyCheck l = false ↔ ¬ l.Nodup)) ∧
    (l.Nodup → vnodeParametersSafetyCheck l = true) := by
  refine ⟨vnodeParametersSafetyCheck_false_iff l, ?_, vnodeParametersSafetyCheck_of_nodup l⟩
  intro hs
  constructor
  · intro hf hn
    rw [vnodeParametersSafetyCheck_of_nodup l hn] at hf
    cases hf
  · intro hn
    by_contra hc
    exact hn (nodup_of_sorted_of_safetyCheck l hs (by simpa using hc))

/-- C10 (counterexample). The column list with the ids 1, 2, 1 holds the id 1
twice and passes the check. -/
theorem vnodeParametersSafetyCheck_misses_distant_duplicate :
    ¬ ([1, 2, 1] : List Int).Nodup ∧ vnodeParametersSafetyCheck [1, 2, 1] = true := by
  decide

/-! ### Stickiness of the completed status -/

theorem testBit_255 (i : Nat) : (255 : Nat).testBit i = decide (i < 8) := by
  have := Nat.testBit_two_pow_sub_one 8 i
  simpa using this

theorem lt_eight_of_testBit (c i : Nat) (hc : c < 256) (h : c.testBit i = true) : i < 8 := by
  by_contra hge
  have hpow : (256 : Nat) ≤ 2 ^ i := by
    have : (2 : Nat) ^ 8 ≤ 2 ^ i := Nat.pow_le_pow_right (by decide) (by omega)
    simpa using this
  have := Nat.testBit_eq_false_of_lt (lt_of_lt_of_le hc hpow)
  rw [this] at h
  cases h

theorem land_keeps_bits (over nc c s : Nat) (hbits : nc &&& c = 0) (hc : c < 256)
    (hset : over &&& c = c) : ((over &&& (255 ^^^ nc)) ||| s) &&& c = c := by
  apply Nat.eq_of_testBit_eq
  intro i
  rw [Nat.testBit_land, Nat.testBit_lor, Nat.testBit_land, Nat.testBit_xor, testBit_255]
  have h1 := congrArg (fun n => n.testBit i) hset
  have h2 := congrArg (fun n => n.testBit i) hbits
  simp only [Nat.testBit_land, Nat.zero_testBit] at h1 h2
  cases hci : c.testBit i
  · simp
  · have hi := lt_eight_of_testBit c i hc hci
    rw [hci] at h1 h2
    simp only [Bool.and_true] at h1 h2
    simp [h1, h2, hi]

/-- C11 (amended). With `QUERY_COMPLETED` a constant of the 8-bit field that
shares no bit with `QUERY_NOT_COMPLETED`: once the `QUERY_COMPLETED` bits are
set in `over`, they remain set after a call of `setQueryStatus` with any status
other than `QUERY_NOT_COMPLETED`; a call with `QUERY_NOT_COMPLETED` replaces
`over` by `QUERY_NOT_COMPLETED` and so clears them. -/
theorem setQueryStatus_completed_sticky (F : QueryStatusFlags) (over : Nat)
    (hbits : F.QUERY_NOT_COMPLETED &&& F.QUERY_COMPLETED = 0)
    (hc : F.QUERY_COMPLETED < 256)
    (hset : over &&& F.QUERY_COMPLETED = F.QUERY_COMPLETED) :
    (∀ status, status ≠ F.QUERY_NOT_COMPLETED →
      setQueryStatus F over status &&& F.QUERY_COMPLETED = F.QUERY_COMPLETED) ∧
    setQueryStatus F over F.QUERY_NOT_COMPLETED = F.QUERY_NOT_COMPLETED ∧
    setQueryStatus F over F.QUERY_NOT_COMPLETED &&& F.QUERY_COMPLETED = 0 := by
  refine ⟨?_, ?_, ?_⟩
  · intro status hst
    unfold setQueryStatus
    rw [if_neg hst]
    exact land_keeps_bits over _ _ status hbits hc hset
  · unfold setQueryStatus
    rw [if_pos rfl]
  · unfold setQueryStatus
    rw [if_pos rfl]
    exact hbits

theorem setQueryStatus_completed_sticky_witness :
    (∀ status, status ≠ exampleFlags.QUERY_NOT_COMPLETED →
      setQueryStatus exampleFlags 6 status &&& exampleFlags.QUERY_COMPLETED =
        exampleFlags.QUERY_COMPLETED) ∧
    setQueryStatus exampleFlags 6 exampleFlags.QUERY_NOT_COMPLETED =
      exampleFlags.QUERY_NOT_COMPLETED ∧
    setQueryStatus exampleFlags 6 exampleFlags.QUERY_NOT_COMPLETED &&&
      exampleFlags.QUERY_COMPLETED = 0 :=
  setQueryStatus_completed_sticky exampleFlags 6 (by decide) (by decide) (by decide)

/-- C11 (counterexample). With the status constants 1, 2, 4, 8 and `over`
holding `QUERY_COMPLETED`, the call `setQueryStatus(QUERY_NOT_COMPLETED)` (made
at the start of every scan) leaves `over = QUERY_NOT_COMPLETED`: the
`QUERY_COMPLETED` bit is gone. -/
theorem setQueryStatus_not_completed_clears_completed :
    exampleFlags.QUERY_COMPLETED &&& exampleFlags.QUERY_COMPLETED =
      exampleFlags.QUERY_COMPLETED ∧
    setQueryStatus exampleFlags exampleFlags.QUERY_COMPLETED exampleFlags.QUERY_NOT_COMPLETED
      = exampleFlags.QUERY_NOT_COMPLETED ∧
    setQueryStatus exampleFlags exampleFlags.QUERY_COMPLETED exampleFlags.QUERY_NOT_COMPLETED
      &&& exampleFlags.QUERY_COMPLETED ≠ exampleFlags.QUERY_COMPLETED := by
  decide

/-! ### Functions run in a scan -/

/-- C12. During a supplementary scan (`IS_MASTER_SCAN` false), with the ids of
`ts_dummy` and `tag_dummy` different from those of the six functions first,
last, first_dst, last_dst, ts and tag, `functionNeedToExecute` returns true
exactly for a function among the six whose result is not complete, and false
for every other function id. -/
theorem functionNeedToExecute_supplementary (ids : FunctionIds) (complete : Bool)
    (functionId : Int)
    (hts : ¬ isSupplementaryFunction ids ids.TSDB_FUNC_TS_DUMMY)
    (htag : ¬ isSupplementaryFunction ids ids.TSDB_FUNC_TAG_DUMMY) :
    functionNeedToExecute ids false complete functionId = true ↔
      (complete = false ∧ isSupplementaryFunction ids functionId) := by
  unfold functionNeedToExecute
  constructor
  · intro h
    split at h
    · cases h
    · rename_i h1
      split at h
      · cases h
      · rename_i h2
        simp only [not_or] at h1
        simp only [Bool.false_eq_true, not_false_eq_true, true_and, not_not] at h2
        refine ⟨by simpa using h1.1, ?_⟩
        unfold isSupplementaryFunction
        tauto
  · rintro ⟨hc, hs⟩
    have hne1 : functionId ≠ ids.TSDB_FUNC_TAG_DUMMY := by
      intro e; rw [e] at hs; exact htag hs
    have hne2 : functionId ≠ ids.TSDB_FUNC_TS_DUMMY := by
      intro e; rw [e] at hs; exact hts hs
    rw [if_neg (by simp [hc, hne1, hne2])]
    unfold isSupplementaryFunction at hs
    rw [if_neg (by simp only [Bool.false_eq_true, not_false_eq_true, true_and, not_not]; tauto)]

theorem functionNeedToExecute_supplementary_witness :
    functionNeedToExecute exampleFunctionIds false false 9 = true ↔
      (false = false ∧ isSupplementaryFunction exampleFunctionIds 9) :=
  functionNeedToExecute_supplementary exampleFunctionIds false 9
    (by unfold isSupplementaryFunction; decide) (by unfold isSupplementaryFunction; decide)

/-! ### Trash of the cache -/

theorem trashEmptyLoop_spec (force : Bool) :
    ∀ (rest kept : List SCacheDataNode) (freed : List Nat) (n : Int),
      (∀ e ∈ rest, e.signature = e.addr) → (∀ e ∈ rest, 0 ≤ e.refCount) →
      (rest.map fun e => e.addr).Nodup → (∀ e ∈ rest, e.addr ∉ freed) →
      ∃ m, trashEmptyLoop force rest kept freed n =
          some (kept ++ (if force then [] else rest.filter fun e => decide (0 < e.refCount)), m) ∧
        m - ((if force then [] else rest.filter fun e => decide (0 < e.refCount)).length : Int) =
          n - (rest.length : Int) := by
  intro rest
  induction rest with
  | nil =>
    intro kept freed n _ _ _ _
    refine ⟨n, ?_, ?_⟩
    · unfold trashEmptyLoop
      cases force <;> simp
    · cases force <;> simp
  | cons e rest ih =>
    intro kept freed n hsig href hnodup hfreed
    have hsig' : ∀ x ∈ rest, x.signature = x.addr := fun x hx => hsig x (List.mem_cons_of_mem _ hx)
    have href' : ∀ x ∈ rest, 0 ≤ x.refCount := fun x hx => href x (List.mem_cons_of_mem _ hx)
    have hnodup' : (rest.map fun x => x.addr).Nodup := by
      rw [List.map_cons] at hnodup
      exact (List.nodup_cons.mp hnodup).2
    have hnot : ∀ x ∈ rest, x.addr ≠ e.addr := by
      intro x hx heq
      rw [List.map_cons] at hnodup
      exact (List.nodup_cons.mp hnodup).1 (List.mem_map.mpr ⟨x, hx, heq⟩)
    have he0 : 0 ≤ e.refCount := href e (List.mem_cons_self _ _)
    have hes : e.signature = e.addr := hsig e (List.mem_cons_self _ _)
    have hef : e.addr ∉ freed := hfreed e (List.mem_cons_self _ _)
    unfold trashEmptyLoop
    rw [if_neg (by omega)]
    by_cases hrm : force = true ∨ e.refCount = 0
    · rw [if_pos hrm, if_neg (by simp [hef, hes])]
      obtain ⟨m, h1, h2⟩ := ih kept (e.addr :: freed) (n - 1) hsig' href' hnodup'
        (by
          intro x hx hmem
          rcases List.mem_cons.mp hmem with h | h
          · exact hnot x hx h
          · exact hfreed x (List.mem_cons_of_mem _ hx) h)
      refine ⟨m, ?_, ?_⟩
      · rw [h1]
        cases hf : force
        · have hz : e.refCount = 0 := by
            rcases hrm with h | h
            · rw [hf] at h; cases h
            · exact h
          simp [List.filter_cons, hz]
        · simp
      · cases hf : force
        · have hz : e.refCount = 0 := by
            rcases hrm with h | h
            · rw [hf] at h; cases h
            · exact h
          rw [hf] at h2
          simp only [Bool.false_eq_true, if_false, List.filter_cons, hz, lt_self_iff_false,
            decide_False, List.length_cons] at h2 ⊢
          push_cast
          omega
        · rw [hf] at h2
          simp only [if_true, List.length_nil, List.length_cons] at h2 ⊢
          push_cast at h2 ⊢
          omega
    · rw [if_neg hrm]
      simp only [not_or] at hrm
      have hf : force = false := by simpa using hrm.1
      have hpos : 0 < e.refCount := by omega
      obtain ⟨m, h1, h2⟩ := ih (kept ++ [e]) freed n hsig' href' hnodup'
        (fun x hx => hfreed x (List.mem_cons_of_mem _ hx))
      refine ⟨m, ?_, ?_⟩
      · rw [h1, hf]
        simp [List.filter_cons, hpos]
      · rw [hf] at h2 ⊢
        simp only [Bool.false_eq_true, if_false, List.filter_cons, hpos, decide_True, if_true,
          List.length_cons] at h2 ⊢
        push_cast
        omega

/-- C13. For a trash whose counter `numOfElemsInTrash` is the length of the
list, whose nodes are alive (the signature is the address), pairwise different
and have reference counts `≥ 0`: `taosTrashEmpty` with `force = false` removes
exactly the elements whose node has reference count 0 and keeps, in order,
every element whose node has a positive reference count; with `force = true`
it removes every element; in both cases `numOfElemsInTrash` afterwards is the
number of elements left in the list. -/
theorem taosTrashEmpty_spec (pObj : TrashState) (force : Bool)
    (hcount : pObj.numOfElemsInTrash = pObj.pTrash.length)
    (hsig : ∀ e ∈ pObj.pTrash, e.signature = e.addr)
    (hnodup : (pObj.pTrash.map fun e => e.addr).Nodup)
    (href : ∀ e ∈ pObj.pTrash, 0 ≤ e.refCount) :
    ∃ pObj', taosTrashEmpty pObj force = some pObj' ∧
      pObj'.pTrash =
        (if force then [] else pObj.pTrash.filter fun e => decide (0 < e.refCount)) ∧
      pObj'.numOfElemsInTrash = pObj'.pTrash.length := by
  unfold taosTrashEmpty
  by_cases hz : pObj.numOfElemsInTrash = 0
  · rw [if_pos hz]
    have hnil : pObj.pTrash = [] := by
      rw [hz] at hcount
      exact List.length_eq_zero.mp (by exact_mod_cast hcount.symm)
    refine ⟨_, rfl, ?_, ?_⟩
    · rw [hnil]; cases force <;> simp
    · simp [hz]
  · rw [if_neg hz]
    obtain ⟨m, h1, h2⟩ := trashEmptyLoop_spec force pObj.pTrash [] [] pObj.numOfElemsInTrash
      hsig href hnodup (fun _ _ h => by cases h)
    rw [h1]
    simp only [List.nil_append]
    have hm : m = ((if force = true then []
        else pObj.pTrash.filter fun e => decide (0 < e.refCount)).length : Int) := by
      omega
    rw [if_pos (by rw [hm]; exact Int.natCast_nonneg _)]
    exact ⟨_, rfl, rfl, hm⟩

theorem taosTrashEmpty_spec_witness :
    ∃ pObj', taosTrashEmpty ⟨[⟨100, 100, 0⟩, ⟨200, 200, 2⟩, ⟨300, 300, 0⟩], 3⟩ false =
        some pObj' ∧
      pObj'.pTrash =
        (if false then []
          else ([⟨100, 100, 0⟩, ⟨200, 200, 2⟩, ⟨300, 300, 0⟩] : List SCacheDataNode).filter
            fun e => decide (0 < e.refCount)) ∧
      pObj'.numOfElemsInTrash = pObj'.pTrash.length :=
  taosTrashEmpty_spec ⟨[⟨100, 100, 0⟩, ⟨200, 200, 2⟩, ⟨300, 300, 0⟩], 3⟩ false
    (by decide) (by decide) (by decide) (by decide)

/-! ### Cache ring reader -/

/-- C14. For a block with a row count `numOfPoints ≥ 0`, `isCacheBlockValid`
returns true if and only if the block's owner is the queried table, the block's
`blockId` is at most the snapshot block id of the query, and `numOfPoints > 0`. -/
theorem isCacheBlockValid_iff (qBlockId : Int) (pBlock : SCacheBlock) (pMeterObj : Nat)
    (hn : 0 ≤ pBlock.numOfPoints) :
    isCacheBlockValid qBlockId pBlock pMeterObj = true ↔
      (pBlock.pMeterObj = pMeterObj ∧ pBlock.blockId ≤ qBlockId ∧ 0 < pBlock.numOfPoints) := by
  unfold isCacheBlockValid
  constructor
  · intro h
    split at h
    · cases h
    · rename_i h1
      split at h
      · cases h
      · rename_i h2
        simp only [not_or, not_not] at h1
        exact ⟨h1.1.symm, by omega, by omega⟩
  · rintro ⟨h1, h2, h3⟩
    rw [if_neg (by simp only [not_or, not_not]; exact ⟨h1.symm, by omega⟩), if_neg (by omega)]

theorem isCacheBlockValid_iff_witness :
    isCacheBlockValid 12 ⟨7, 11, 10⟩ 7 = true ↔
      ((7 : Nat) = 7 ∧ (11 : Int) ≤ 12 ∧ (0 : Int) < 10) :=
  isCacheBlockValid_iff 12 ⟨7, 11, 10⟩ 7 (by decide)

/-- C15 (evaluation at the failing input). In `commitRing` the first slot of
the ring is slot 1, which is also the commit slot, with 3 rows committed. Read
of slot 2, a block of 10 rows none of which is committed: `getCacheDataBlock`
tests `firstSlot == commitSlot` without looking at `slot`, drops the first 3
rows and returns a copy of 7 rows that starts at row 3. Read of slot 1 gives
the same cut. -/
theorem getCacheDataBlock_cuts_other_slot :
    getFirstCacheSlot commitRing.numOfBlocks commitRing.currentSlot commitRing = 1 ∧
    (getCacheDataBlock 7 5 (some commitRing) freshCacheReadState 2).map
        (fun r => r.block) = some (some ⟨⟨7, 12, 7⟩, 3⟩) ∧
    (getCacheDataBlock 7 5 (some commitRing) freshCacheReadState 1).map
        (fun r => r.block) = some (some ⟨⟨7, 11, 7⟩, 3⟩) := by
  decide

/-! ### File enumeration -/

theorem ascFileLoop_spec (pFileInfo : List Int) (fid : Int) :
    ∀ (rounds i : Nat), i ≤ pFileInfo.length → pFileInfo.length ≤ i + rounds →
      i ≤ ascFileLoop pFileInfo fid rounds i ∧
      ascFileLoop pFileInfo fid rounds i ≤ pFileInfo.length ∧
      (∀ j f, i ≤ j → j < ascFileLoop pFileInfo fid rounds i → pFileInfo[j]? = some f → f < fid) ∧
      (∀ f, pFileInfo[ascFileLoop pFileInfo fid rounds i]? = some f → fid ≤ f) := by
  intro rounds
  induction rounds with
  | zero =>
    intro i h1 h2
    have hi : i = pFileInfo.length := by omega
    unfold ascFileLoop
    refine ⟨le_refl _, h1, fun j f a b => absurd b (by omega), ?_⟩
    intro f hf
    have := (List.getElem?_eq_some.mp hf).1
    omega
  | succ rounds ih =>
    intro i h1 h2
    unfold ascFileLoop
    cases hget : pFileInfo[i]? with
    | none =>
      simp only
      refine ⟨le_refl _, h1, fun j f a b => absurd b (by omega), ?_⟩
      intro f hf
      rw [hget] at hf
      cases hf
    | some fileID =>
      simp only
      have hlt : i < pFileInfo.length := (List.getElem?_eq_some.mp hget).1
      by_cases hgt : fid > fileID
      · rw [if_pos hgt]
        obtain ⟨a1, a2, a3, a4⟩ := ih (i + 1) (by omega) (by omega)
        refine ⟨by omega, a2, ?_, a4⟩
        intro j f hj1 hj2 hf
        rcases Nat.eq_or_lt_of_le hj1 with e | e
        · subst e
          rw [hget] at hf
          cases hf
          omega
        · exact a3 j f (by omega) hj2 hf
      · rw [if_neg hgt]
        refine ⟨le_refl _, h1, fun j f a b => absurd b (by omega), ?_⟩
        intro f hf
        rw [hget] at hf
        cases hf
        omega

theorem descFileLoop_spec (pFileInfo : List Int) (fid : Int) :
    ∀ (rounds : Nat) (i : Int), -1 ≤ i → i < pFileInfo.length → i + 1 ≤ rounds →
      -1 ≤ descFileLoop pFileInfo fid rounds i ∧
      descFileLoop pFileInfo fid rounds i ≤ i ∧
      (∀ (j : Nat) f, descFileLoop pFileInfo fid rounds i < j → (j : Int) ≤ i →
        pFileInfo[j]? = some f → fid < f) ∧
      (∀ f, 0 ≤ descFileLoop pFileInfo fid rounds i →
        pFileInfo[(descFileLoop pFileInfo fid rounds i).toNat]? = some f → f ≤ fid) := by
  intro rounds
  induction rounds with
  | zero =>
    intro i h1 h2 h3
    have hi : i = -1 := by push_cast at h3; omega
    unfold descFileLoop
    refine ⟨h1, le_refl _, fun j f a b => absurd b (by omega), ?_⟩
    intro f h0
    omega
  | succ rounds ih =>
    intro i h1 h2 h3
    unfold descFileLoop
    by_cases hi : i ≥ 0
    · rw [if_pos hi]
      cases hget : pFileInfo[i.toNat]? with
      | none =>
        exfalso
        have := List.getElem?_eq_none_iff.mp hget
        omega
      | some fileID =>
        simp only
        by_cases hlt : fid < fileID
        · rw [if_pos hlt]
          obtain ⟨a1, a2, a3, a4⟩ := ih (i - 1) (by omega) (by omega) (by push_cast at h3 ⊢; omega)
          refine ⟨a1, by omega, ?_, a4⟩
          intro j f hj1 hj2 hf
          rcases eq_or_lt_of_le hj2 with e | e
          · have : j = i.toNat := by omega
            subst this
            rw [hget] at hf
            cases hf
            exact hlt
          · exact a3 j f hj1 (by omega) hf
        · rw [if_neg hlt]
          refine ⟨by omega, le_refl _, fun j f a b => absurd b (by omega), ?_⟩
          intro f _ hf
          rw [hget] at hf
          cases hf
          omega
    · rw [if_neg hi]
      refine ⟨h1, le_refl _, fun j f a b => absurd b (by omega), ?_⟩
      intro f h0
      omega

theorem vnodeGetVnodeHeaderFileIdx_cases (pFileInfo : List Int) (fid : Int) :
    ((∃ i : Nat, vnodeGetVnodeHeaderFileIdx pFileInfo fid TSQL_SO_ASC =
          ((i : Int), (vnodeGetVnodeHeaderFileIdx pFileInfo fid TSQL_SO_ASC).2) ∧
        pFileInfo[i]? = some (vnodeGetVnodeHeaderFileIdx pFileInfo fid TSQL_SO_ASC).2 ∧
        fid ≤ (vnodeGetVnodeHeaderFileIdx pFileInfo fid TSQL_SO_ASC).2 ∧
        ∀ (j : Nat) f, j < i → pFileInfo[j]? = some f → f < fid) ∨
      (vnodeGetVnodeHeaderFileIdx pFileInfo fid TSQL_SO_ASC = (-1, fid) ∧
        ∀ f ∈ pFileInfo, f < fid)) ∧
    ((∃ i : Nat, vnodeGetVnodeHeaderFileIdx pFileInfo fid TSQL_SO_DESC =
          ((i : Int), (vnodeGetVnodeHeaderFileIdx pFileInfo fid TSQL_SO_DESC).2) ∧
        pFileInfo[i]? = some (vnodeGetVnodeHeaderFileIdx pFileInfo fid TSQL_SO_DESC).2 ∧
        (vnodeGetVnodeHeaderFileIdx pFileInfo fid TSQL_SO_DESC).2 ≤ fid ∧
        ∀ (j : Nat) f, i < j → pFileInfo[j]? = some f → fid < f) ∨
      (vnodeGetVnodeHeaderFileIdx pFileInfo fid TSQL_SO_DESC = (-1, fid) ∧
        ∀ f ∈ pFileInfo, fid < f)) := by
  cases hne : pFileInfo with
  | nil =>
    constructor <;> right <;> simp [vnodeGetVnodeHeaderFileIdx]
  | cons a t =>
    rw [← hne]
    have hlen : 0 < pFileInfo.length := by rw [hne]; simp
    have h0 : pFileInfo[0]? = some pFileInfo[0] := List.getElem?_eq_getElem hlen
    have hl : pFileInfo[pFileInfo.length - 1]? = some pFileInfo[pFileInfo.length - 1] :=
      List.getElem?_eq_getElem (by omega)
    constructor
    · -- ascending
      unfold vnodeGetVnodeHeaderFileIdx
      simp only [h0, hl, true_and]
      by_cases hfirst : fid < pFileInfo[0]
      · rw [if_pos hfirst]
        left
        exact ⟨0, rfl, h0, le_of_lt hfirst, fun j f hj => absurd hj (by omega)⟩
      · rw [if_neg hfirst, if_neg (by simp), if_pos trivial]
        obtain ⟨a1, a2, a3, a4⟩ := ascFileLoop_spec pFileInfo fid pFileInfo.length 0
          (by omega) (by omega)
        cases hget : pFileInfo[ascFileLoop pFileInfo fid pFileInfo.length 0]? with
        | none =>
          simp only
          right
          refine ⟨by first | rfl | trivial, ?_⟩
          intro f hf
          obtain ⟨j, hj⟩ := List.mem_iff_getElem?.mp hf
          have hjl := (List.getElem?_eq_some.mp hj).1
          have := List.getElem?_eq_none_iff.mp hget
          exact a3 j f (by omega) (by omega) hj
        | some fileID =>
          simp only
          rw [if_pos (a4 fileID hget)]
          left
          exact ⟨_, rfl, hget, a4 fileID hget, fun j f hj hf => a3 j f (by omega) hj hf⟩
    · -- descending
      unfold vnodeGetVnodeHeaderFileIdx
      simp only [h0, hl]
      rw [if_neg (by simp)]
      by_cases hlast : fid > pFileInfo[pFileInfo.length - 1]
      · rw [if_pos ⟨trivial, hlast⟩]
        left
        refine ⟨pFileInfo.length - 1, ?_, hl, le_of_lt hlast, ?_⟩
        · simp only [Prod.mk.injEq, and_true]; omega
        · intro j f hj hf
          have := (List.getElem?_eq_some.mp hf).1
          omega
      · rw [if_neg (by simp only [true_and]; exact hlast), if_neg (by simp)]
        obtain ⟨a1, a2, a3, a4⟩ := descFileLoop_spec pFileInfo fid pFileInfo.length
          ((pFileInfo.length : Int) - 1) (by omega) (by omega) (by omega)
        by_cases hi : descFileLoop pFileInfo fid pFileInfo.length ((pFileInfo.length : Int) - 1) ≥ 0
        · rw [if_pos hi]
          cases hget : pFileInfo[(descFileLoop pFileInfo fid pFileInfo.length
              ((pFileInfo.length : Int) - 1)).toNat]? with
          | none =>
            exfalso
            have := List.getElem?_eq_none_iff.mp hget
            omega
          | some fileID =>
            simp only
            have hle := a4 fileID hi hget
            rw [if_pos hle]
            left
            refine ⟨_, ?_, hget, hle, ?_⟩
            · simp only [Prod.mk.injEq, and_true]; omega
            · intro j f hj hf
              have := (List.getElem?_eq_some.mp hf).1
              exact a3 j f (by omega) (by omega) hf
        · rw [if_neg hi]
          right
          refine ⟨rfl, ?_⟩
          intro f hf
          obtain ⟨j, hj⟩ := List.mem_iff_getElem?.mp hf
          have := (List.getElem?_eq_some.mp hj).1
          exact a3 j f (by omega) (by omega) hj

/-- C16. For every file list (sorted or not) and every requested `fid`,
`vnodeGetVnodeHeaderFileIdx` in ascending order returns the index of the first
file whose `fileID ≥ fid` and sets `fid` to that `fileID`, and in descending
order returns the index of the last file whose `fileID ≤ fid` and sets `fid` to
that `fileID`; it returns `-1` and leaves `fid` unchanged exactly when no such
file exists, which includes the empty list. -/
theorem vnodeGetVnodeHeaderFileIdx_spec (pFileInfo : List Int) (fid : Int) :
    ((∃ (i : Nat) (fileID : Int),
          vnodeGetVnodeHeaderFileIdx pFileInfo fid TSQL_SO_ASC = ((i : Int), fileID) ∧
          pFileInfo[i]? = some fileID ∧ fid ≤ fileID ∧
          ∀ (j : Nat) f, j < i → pFileInfo[j]? = some f → f < fid) ∨
        (vnodeGetVnodeHeaderFileIdx pFileInfo fid TSQL_SO_ASC = (-1, fid) ∧
          ∀ f ∈ pFileInfo, f < fid)) ∧
    ((vnodeGetVnodeHeaderFileIdx pFileInfo fid TSQL_SO_ASC).1 = -1 ↔
      ∀ f ∈ pFileInfo, f < fid) ∧
    ((∃ (i : Nat) (fileID : Int),
          vnodeGetVnodeHeaderFileIdx pFileInfo fid TSQL_SO_DESC = ((i : Int), fileID) ∧
          pFileInfo[i]? = some fileID ∧ fileID ≤ fid ∧
          ∀ (j : Nat) f, i < j → pFileInfo[j]? = some f → fid < f) ∨
        (vnodeGetVnodeHeaderFileIdx pFileInfo fid TSQL_SO_DESC = (-1, fid) ∧
          ∀ f ∈ pFileInfo, fid < f)) ∧
    ((vnodeGetVnodeHeaderFileIdx pFileInfo fid TSQL_SO_DESC).1 = -1 ↔
      ∀ f ∈ pFileInfo, fid < f) := by
  obtain ⟨hasc, hdesc⟩ := vnodeGetVnodeHeaderFileIdx_cases pFileInfo fid
  refine ⟨?_, ?_, ?_, ?_⟩
  · rcases hasc with ⟨i, h1, h2, h3, h4⟩ | h
    · exact Or.inl ⟨i, _, h1, h2, h3, h4⟩
    · exact Or.inr h
  · rcases hasc with ⟨i, h1, h2, h3, h4⟩ | ⟨h1, h2⟩
    · constructor
      · intro h
        rw [h1] at h
        simp only at h
        omega
      · intro h
        have := h _ (List.mem_iff_getElem?.mpr ⟨i, h2⟩)
        omega
    · rw [h1]
      exact ⟨fun _ => h2, fun _ => rfl⟩
  · rcases hdesc with ⟨i, h1, h2, h3, h4⟩ | h
    · exact Or.inl ⟨i, _, h1, h2, h3, h4⟩
    · exact Or.inr h
  · rcases hdesc with ⟨i, h1, h2, h3, h4⟩ | ⟨h1, h2⟩
    · constructor
      · intro h
        rw [h1] at h
        simp only at h
        omega
      · intro h
        have := h _ (List.mem_iff_getElem?.mpr ⟨i, h2⟩)
        omega
    · rw [h1]
      exact ⟨fun _ => h2, fun _ => rfl⟩

/-! ### Header index reader -/

/-- With the query positioned in a file whose id is above 0, a block index
recorded by `vnodeSetCompBlockInfoLoaded` is found again: `vnodeGetCompBlockInfo`
returns the memoised `numOfBlocks` and reads no header. -/
theorem vnodeGetCompBlockInfo_memoised (env env' : CompBlockEnv) (fileIndex : Int)
    (header : HeaderRead)
    (hset : vnodeSetCompBlockInfoLoaded env fileIndex env.sid = some env')
    (hfields : env.pFieldsPresent = true) (hfile : env.fileId > 0)
    (hblocks : env.numOfBlocks > 0) :
    vnodeIsCompBlockInfoLoaded env' fileIndex = some true ∧
    vnodeGetCompBlockInfo env' fileIndex header = some (env.numOfBlocks, env') := by
  unfold vnodeSetCompBlockInfoLoaded at hset
  cases hf : fileIDAt env.pFileInfo fileIndex with
  | none => rw [hf] at hset; cases hset
  | some fileID =>
    rw [hf] at hset
    simp only [Option.some.injEq] at hset
    subst hset
    have hl : vnodeIsCompBlockInfoLoaded
        { env with loadCompBlockInfo := { sid := env.sid, fileListIndex := fileIndex,
                                          fileId := fileID } } fileIndex = some true := by
      unfold vnodeIsCompBlockInfoLoaded
      simp only [hf, hfields, true_and, and_self]
      rw [if_pos hfile, if_pos hblocks]
    refine ⟨hl, ?_⟩
    unfold vnodeGetCompBlockInfo
    rw [hl]

theorem vnodeGetCompBlockInfo_memoised_witness :
    vnodeIsCompBlockInfoLoaded
        { firstFileEnv 3 with loadCompBlockInfo := ⟨1, 3, 0⟩, pFieldsPresent := true,
                              numOfBlocks := 5 } 0 = some true ∧
    vnodeGetCompBlockInfo
        { firstFileEnv 3 with loadCompBlockInfo := ⟨1, 3, 0⟩, pFieldsPresent := true,
                              numOfBlocks := 5 } 0 soundHeader =
      some (5, { firstFileEnv 3 with loadCompBlockInfo := ⟨1, 3, 0⟩, pFieldsPresent := true,
                                     numOfBlocks := 5 }) :=
  vnodeGetCompBlockInfo_memoised
    { firstFileEnv 3 with pFieldsPresent := true, numOfBlocks := 5 } _ 0 soundHeader
    rfl rfl (by decide) (by decide)

/-- C17 (evaluation at the failing input). A query positioned in the file with
`fileID = 0`: the first `vnodeGetCompBlockInfo` reads the header, returns 5
blocks and records `(fileIndex, sid) = (0, 1)` with `pFields` present. For the
same `(fileIndex, sid)`, `vnodeIsCompBlockInfoLoaded` answers false, because it
tests `pQuery->fileId > 0`, and the second `vnodeGetCompBlockInfo` reads the
header once more (`readCompInfo` goes from 1 to 2). With `fileID = 1` the
second call reads nothing. -/
theorem vnodeGetCompBlockInfo_rereads_file_zero :
    (vnodeGetCompBlockInfo (firstFileEnv 0) 0 soundHeader).map
        (fun r => (r.1, r.2.loadCompBlockInfo, r.2.pFieldsPresent, r.2.readCompInfo)) =
      some (5, ⟨1, 0, 0⟩, true, 1) ∧
    ((vnodeGetCompBlockInfo (firstFileEnv 0) 0 soundHeader).bind
        (fun r => vnodeIsCompBlockInfoLoaded r.2 0)) = some false ∧
    ((vnodeGetCompBlockInfo (firstFileEnv 0) 0 soundHeader).bind
        (fun r => vnodeGetCompBlockInfo r.2 0 soundHeader)).map
        (fun r => (r.1, r.2.readCompInfo)) = some (5, 2) ∧
    ((vnodeGetCompBlockInfo (firstFileEnv 1) 0 soundHeader).bind
        (fun r => vnodeGetCompBlockInfo r.2 0 soundHeader)).map
        (fun r => (r.1, r.2.readCompInfo)) = some (5, 1) := by
  decide

/-! ### Load-info record of a data block -/

/-- C18. After `vnodeSetDataBlockInfoLoaded` has recorded the position
`(fileId, slot, sid, fileListIndex)` with `slot ≠ -1` and `tsLoaded = t`,
`vnodeIsDatablockLoaded` for the same position returns `LOAD_TS` exactly when
`t` is false and the timestamp is requested and `NO_NEED_TO_LOAD` otherwise,
and it returns `LOAD_BLOCK` whenever `fileId`, `slot`, `sid` or `fileListIndex`
differs from the record; hence `loadDataBlockIntoMem` repeated at the recorded
position with the same timestamp flag returns success and reads no column. -/
theorem vnodeIsDatablockLoaded_after_record (fileId slot sid fileIndex : Int) (t : Bool)
    (hslot : slot ≠ -1) :
    (∀ req : Bool, vnodeIsDatablockLoaded
        (vnodeSetDataBlockInfoLoaded fileId slot sid fileIndex t) fileId slot sid fileIndex req =
        if t = false ∧ req = true then DISK_BLOCK_LOAD_TS else DISK_BLOCK_NO_NEED_TO_LOAD) ∧
    (∀ (req : Bool) (fileId' slot' sid' fileIndex' : Int),
        fileId' ≠ fileId ∨ slot' ≠ slot ∨ sid' ≠ sid ∨ fileIndex' ≠ fileIndex →
        vnodeIsDatablockLoaded (vnodeSetDataBlockInfoLoaded fileId slot sid fileIndex t)
          fileId' slot' sid' fileIndex' req = DISK_BLOCK_LOAD_BLOCK) ∧
    (∀ (env : LoadEnv) (loadSField : Bool),
        env.fileId = fileId → env.slot = slot → env.sid = sid → env.current = fileIndex →
        env.loadBlockInfo = vnodeSetDataBlockInfoLoaded fileId slot sid fileIndex t →
        loadDataBlockIntoMem env fileIndex t loadSField =
          some ⟨TSDB_CODE_SUCCESS, [], env.loadBlockInfo⟩) := by
  have hsame : ∀ req : Bool, vnodeIsDatablockLoaded
      (vnodeSetDataBlockInfoLoaded fileId slot sid fileIndex t) fileId slot sid fileIndex req =
      if t = false ∧ req = true then DISK_BLOCK_LOAD_TS else DISK_BLOCK_NO_NEED_TO_LOAD := by
    intro req
    unfold vnodeIsDatablockLoaded vnodeSetDataBlockInfoLoaded
    simp only [true_and, and_true]
    rw [if_pos hslot]
    cases t <;> cases req <;> simp
  refine ⟨hsame, ?_, ?_⟩
  · intro req fileId' slot' sid' fileIndex' hdiff
    unfold vnodeIsDatablockLoaded vnodeSetDataBlockInfoLoaded
    simp only
    rw [if_neg]
    rintro ⟨h1, h2, -, h4, h5⟩
    rcases hdiff with h | h | h | h
    · exact h h1.symm
    · exact h h2.symm
    · exact h h4.symm
    · exact h h5.symm
  · intro env loadSField h1 h2 h3 h4 h5
    have hstat : vnodeIsDatablockLoaded env.loadBlockInfo env.fileId env.slot env.sid
        fileIndex t = DISK_BLOCK_NO_NEED_TO_LOAD := by
      rw [h5, h1, h2, h3, hsame t]
      cases t <;> simp
    unfold loadDataBlockIntoMem
    rw [if_neg (by simp [h4])]
    simp only [hstat]
    rw [if_pos trivial]

theorem vnodeIsDatablockLoaded_after_record_witness :
    (∀ req : Bool, vnodeIsDatablockLoaded
        (vnodeSetDataBlockInfoLoaded 3 0 1 0 false) 3 0 1 0 req =
        if false = false ∧ req = true then DISK_BLOCK_LOAD_TS else DISK_BLOCK_NO_NEED_TO_LOAD) ∧
    (∀ (req : Bool) (fileId' slot' sid' fileIndex' : Int),
        fileId' ≠ 3 ∨ slot' ≠ 0 ∨ sid' ≠ 1 ∨ fileIndex' ≠ 0 →
        vnodeIsDatablockLoaded (vnodeSetDataBlockInfoLoaded 3 0 1 0 false)
          fileId' slot' sid' fileIndex' req = DISK_BLOCK_LOAD_BLOCK) ∧
    (∀ (env : LoadEnv) (loadSField : Bool),
        env.fileId = 3 → env.slot = 0 → env.sid = 1 → env.current = 0 →
        env.loadBlockInfo = vnodeSetDataBlockInfoLoaded 3 0 1 0 false →
        loadDataBlockIntoMem env 0 false loadSField =
          some ⟨TSDB_CODE_SUCCESS, [], env.loadBlockInfo⟩) :=
  vnodeIsDatablockLoaded_after_record 3 0 1 0 false (by decide)


/-! ### `applyFunctionsOnBlock` -/

/-- C20. For every runtime state `s` and every change `scan` made between the
two calls, `queryStatusRestore` after `queryStatusSave` leaves `skey`, `ekey`,
`lastKey`, `over`, `startPos`, `nextPos` and `endPos` as they were in `s`; and
right after `queryStatusSave` the keys `skey` and `ekey` are exchanged,
`lastKey` is the new `skey` and `startPos` is the saved `endPos`. -/
theorem queryStatusSave_restore {β κ : Type} (F : QueryStatusFlags) (ops : TSBufOps β κ)
    (s : ScanRuntime β) (scan : ScanRuntime β → ScanRuntime β) :
    ((queryStatusRestore ops (scan (queryStatusSave F ops s).2) (queryStatusSave F ops s).1).skey
        = s.skey ∧
      (queryStatusRestore ops (scan (queryStatusSave F ops s).2) (queryStatusSave F ops s).1).ekey
        = s.ekey ∧
      (queryStatusRestore ops (scan (queryStatusSave F ops s).2)
        (queryStatusSave F ops s).1).lastKey = s.lastKey ∧
      (queryStatusRestore ops (scan (queryStatusSave F ops s).2) (queryStatusSave F ops s).1).over
        = s.over ∧
      (queryStatusRestore ops (scan (queryStatusSave F ops s).2)
        (queryStatusSave F ops s).1).startPos = s.startPos ∧
      (queryStatusRestore ops (scan (queryStatusSave F ops s).2)
        (queryStatusSave F ops s).1).nextPos = s.nextPos ∧
      (queryStatusRestore ops (scan (queryStatusSave F ops s).2)
        (queryStatusSave F ops s).1).endPos = s.endPos) ∧
    ((queryStatusSave F ops s).2.skey = s.ekey ∧
      (queryStatusSave F ops s).2.ekey = s.skey ∧
      (queryStatusSave F ops s).2.lastKey = (queryStatusSave F ops s).2.skey ∧
      (queryStatusSave F ops s).2.startPos = (queryStatusSave F ops s).1.end_ ∧
      (queryStatusSave F ops s).1.end_ = s.endPos ∧
      (queryStatusSave F ops s).2.over = F.QUERY_NOT_COMPLETED) := by
  refine ⟨⟨rfl, rfl, rfl, rfl, rfl, rfl, rfl⟩, rfl, rfl, rfl, rfl, rfl, ?_⟩
  show setQueryStatus F s.over F.QUERY_NOT_COMPLETED = F.QUERY_NOT_COMPLETED
  unfold setQueryStatus
  rw [if_pos rfl]


/-! ### `getActiveSlidingWindow` from a current window -/

/-- The first loop of `getActiveSlidingWindow` ends within the fuel given: it
moves `st` down by a multiple of `slidingTime`, to a value not above `ts`, and
when it moved at all the value is less than one step below `ts`. -/
theorem slideDownLoop_spec (slidingTime ts : Int) (hs : 0 < slidingTime) :
    ∀ (fuel : Nat) (st : Int), st - ts ≤ fuel →
      ∃ r k : Int, slideDownLoop slidingTime ts fuel st = some r ∧ r = st - k * slidingTime ∧
        r ≤ ts ∧ (r = st ∨ ts < r + slidingTime) := by
  intro fuel
  induction fuel with
  | zero =>
    intro st hf
    unfold slideDownLoop
    rw [if_neg (by push_cast at hf; omega)]
    exact ⟨st, 0, rfl, by ring, by push_cast at hf; omega, Or.inl rfl⟩
  | succ n ih =>
    intro st hf
    unfold slideDownLoop
    by_cases hgt : st > ts
    · rw [if_pos hgt]
      obtain ⟨r, k, hr, hk, hle, hcase⟩ := ih (st - slidingTime) (by push_cast at hf; omega)
      refine ⟨r, k + 1, hr, by rw [hk]; ring, hle, Or.inr ?_⟩
      rcases hcase with h | h
      · omega
      · exact h
    · rw [if_neg hgt]
      exact ⟨st, 0, rfl, by ring, by omega, Or.inl rfl⟩

/-- The second loop of `getActiveSlidingWindow` ends within the fuel given: it
moves `st` up by a multiple of `slidingTime`, to a window that does not end
before `ts`, and when it moved at all the window one step earlier ends before
`ts`. -/
theorem slideUpLoop_spec (nAggTimeInterval slidingTime ts : Int) (hs : 0 < slidingTime) :
    ∀ (fuel : Nat) (st : Int), ts - (st + nAggTimeInterval - 1) ≤ fuel →
      ∃ r k : Int, slideUpLoop nAggTimeInterval slidingTime ts fuel st = some r ∧
        r = st + k * slidingTime ∧ ts ≤ r + nAggTimeInterval - 1 ∧
        (r = st ∨ r - slidingTime + nAggTimeInterval - 1 < ts) := by
  intro fuel
  induction fuel with
  | zero =>
    intro st hf
    unfold slideUpLoop
    rw [if_neg (by push_cast at hf; omega)]
    exact ⟨st, 0, rfl, by ring, by push_cast at hf; omega, Or.inl rfl⟩
  | succ n ih =>
    intro st hf
    unfold slideUpLoop
    by_cases hlt : st + nAggTimeInterval - 1 < ts
    · rw [if_pos hlt]
      obtain ⟨r, k, hr, hk, hle, hcase⟩ := ih (st + slidingTime) (by push_cast at hf; omega)
      refine ⟨r, k + 1, hr, by rw [hk]; ring, hle, Or.inr ?_⟩
      rcases hcase with h | h
      · omega
      · exact h
    · rw [if_neg hlt]
      exact ⟨st, 0, rfl, by ring, by omega, Or.inl rfl⟩

/-- C21. For `0 < sliding ≤ interval` (hence `interval > 0`), when the window set
has a current window (`curIndex` addresses a status in use) whose end key is
`skey + interval - 1`, for every timestamp `ts` the call of
`getActiveSlidingWindow` returns (both loops end, the closing assertion holds)
a window `w` with `w.skey ≤ ts ≤ w.ekey`, `w.ekey = w.skey + interval - 1`, and
`w.skey` differing from the current window's `skey` by an integer multiple of
`sliding`. -/
theorem getActiveSlidingWindow_from_current (info : SSlidingWindowInfo)
    (ts interval sliding : Int) (cur : SWindowStatus)
    (hs : 0 < sliding) (hsi : sliding ≤ interval)
    (hcur : curWindowStatus info = some cur)
    (hshape : cur.window.ekey = cur.window.skey + interval - 1) :
    ∃ w, getActiveSlidingWindow info ts interval sliding = some w ∧
      w.skey ≤ ts ∧ ts ≤ w.ekey ∧ w.ekey = w.skey + interval - 1 ∧
      ∃ k : Int, w.skey = cur.window.skey + k * sliding := by
  have hidx : info.curIndex ≠ -1 := by
    intro h
    unfold curWindowStatus at hcur
    rw [if_neg (by omega)] at hcur
    cases hcur
  unfold getActiveSlidingWindow
  rw [if_neg hidx, hcur]
  dsimp only
  by_cases hin : cur.window.skey ≤ ts ∧ cur.window.ekey ≥ ts
  · rw [if_pos hin]
    unfold assertWindowContains
    rw [if_pos ⟨hin.1, hin.2⟩]
    exact ⟨cur.window, rfl, hin.1, hin.2, hshape, 0, by ring⟩
  · rw [if_neg hin]
    obtain ⟨r1, k1, hr1, hk1, hle1, hcase1⟩ :=
      slideDownLoop_spec sliding ts hs (cur.window.skey - ts).toNat cur.window.skey (by omega)
    rw [hr1]
    dsimp only
    obtain ⟨r2, k2, hr2, hk2, hle2, hcase2⟩ :=
      slideUpLoop_spec interval sliding ts hs (ts - (r1 + interval - 1)).toNat r1 (by omega)
    rw [hr2]
    dsimp only
    have hr2le : r2 ≤ ts := by
      rcases hcase2 with h | h
      · omega
      · omega
    unfold assertWindowContains
    rw [if_pos ⟨by dsimp only; omega, by dsimp only; omega⟩]
    exact ⟨_, rfl, hr2le, by dsimp only; omega, rfl, k2 - k1, by dsimp only; rw [hk2, hk1]; ring⟩

/-- A window set whose current window is `[0, 1999]`, row 5200, interval 2000,
sliding 1500: the window returned is `[4500, 6499]`, three steps further. -/
theorem getActiveSlidingWindow_from_current_witness :
    ∃ w, getActiveSlidingWindow
        ⟨[(0, 0)], 0, 4, 1, 4, 0, 0, [⟨⟨0, 1999⟩, false⟩, zeroWindowStatus, zeroWindowStatus,
          zeroWindowStatus]⟩ 5200 2000 1500 = some w ∧
      w.skey ≤ 5200 ∧ 5200 ≤ w.ekey ∧ w.ekey = w.skey + 2000 - 1 ∧
      ∃ k : Int, w.skey = (⟨⟨0, 1999⟩, false⟩ : SWindowStatus).window.skey + k * 1500 :=
  getActiveSlidingWindow_from_current _ 5200 2000 1500 ⟨⟨0, 1999⟩, false⟩
    (by decide) (by decide) rfl rfl

/-! ### Compaction of the window set -/

/-- Lookup after the removal of a key. -/
theorem taosGetDataFromHash_delete (h : HashList) (a key : Int) :
    taosGetDataFromHash (taosDeleteFromHashTable h a) key =
      if key = a then none else taosGetDataFromHash h key := by
  unfold taosGetDataFromHash taosDeleteFromHashTable
  induction h with
  | nil => simp
  | cons e t ih =>
    by_cases hea : e.1 = a
    · have hf : (e.1 != a) = false := by simp [hea]
      rw [List.filter_cons_of_neg (by simp [hf]), ih]
      by_cases hk : key = a
      · rw [if_pos hk, if_pos hk]
      · rw [if_neg hk, if_neg hk]
        have hb : (e.1 == key) = false := by
          simp only [beq_eq_false_iff_ne, ne_eq]
          intro h1; exact hk (h1 ▸ hea)
        simp only [List.find?_cons, hb]
    · have hfc : List.filter (fun e : Int × Int => e.1 != a) (e :: t) =
          e :: List.filter (fun e : Int × Int => e.1 != a) t := by
        simp [List.filter_cons, hea]
      rw [hfc]
      by_cases hek : e.1 = key
      · have hb : (e.1 == key) = true := by simp [hek]
        simp only [List.find?_cons, hb]
        rw [if_neg (by intro h1; exact hea (hek.trans h1))]
      · have hb : (e.1 == key) = false := by simp [hek]
        simp only [List.find?_cons, hb]
        exact ih

/-- Lookup after the insertion of a key that the table does not hold. -/
theorem taosGetDataFromHash_add (h : HashList) (a v key : Int)
    (habs : taosGetDataFromHash h a = none) :
    taosGetDataFromHash (taosAddToHashTable h a v) key =
      if key = a then some v else taosGetDataFromHash h key := by
  unfold taosGetDataFromHash taosAddToHashTable at *
  rw [List.find?_append]
  by_cases hk : key = a
  · subst hk
    rw [if_pos rfl]
    have hnone : h.find? (fun e => e.1 == key) = none := by
      cases hf : h.find? (fun e => e.1 == key) with
      | none => rfl
      | some x => rw [hf] at habs; cases habs
    rw [hnone]
    simp
  · rw [if_neg hk]
    have : ¬ (a = key) := fun e => hk e.symm
    cases hf : h.find? (fun e => e.1 == key) with
    | none => simp [this]
    | some x => simp

/-- One round of the rebase loop on the table: the key gets its new index,
every other key keeps what it had. -/
theorem taosGetDataFromHash_rebase (h : HashList) (a v key : Int) :
    taosGetDataFromHash (taosAddToHashTable (taosDeleteFromHashTable h a) a v) key =
      if key = a then some v else taosGetDataFromHash h key := by
  rw [taosGetDataFromHash_add _ _ _ _ (by rw [taosGetDataFromHash_delete, if_pos rfl]),
    taosGetDataFromHash_delete]
  by_cases hk : key = a
  · simp only [if_pos hk]
  · simp only [if_neg hk]

/-- The first loop of `clearCompletedSlidingWindows`: `i` advances over the
leading closed windows, whose start keys leave the table; every other key
keeps its entry. -/
theorem deleteClosedLoop_spec :
    ∀ (pStatus : List SWindowStatus) (i : Nat) (h : HashList),
      (deleteClosedLoop pStatus i h).1 = i + (pStatus.takeWhile fun s => s.closed).length ∧
      ∀ key : Int, taosGetDataFromHash (deleteClosedLoop pStatus i h).2 key =
        if key ∈ (pStatus.takeWhile fun s => s.closed).map (fun s => s.window.skey) then none
        else taosGetDataFromHash h key := by
  intro pStatus
  induction pStatus with
  | nil =>
    intro i h
    exact ⟨rfl, fun key => by simp [deleteClosedLoop]⟩
  | cons a t ih =>
    intro i h
    unfold deleteClosedLoop
    by_cases ha : a.closed = true
    · rw [if_pos ha, List.takeWhile_cons_of_pos ha]
      obtain ⟨h1, h2⟩ := ih (i + 1) (taosDeleteFromHashTable h a.window.skey)
      have harith : ∀ n : Nat, i + 1 + n = i + (n + 1) := fun n => by omega
      refine ⟨by rw [h1, List.length_cons]; exact harith _, fun key => ?_⟩
      rw [h2 key, taosGetDataFromHash_delete]
      simp only [List.map_cons, List.mem_cons]
      by_cases hk : key = a.window.skey
      · simp [hk]
      · simp [hk]
    · rw [if_neg ha, List.takeWhile_cons_of_neg ha]
      exact ⟨rfl, fun key => by simp⟩

/-- With no closed window at the head the first loop changes nothing. -/
theorem deleteClosedLoop_of_none (pStatus : List SWindowStatus) (i : Nat) (h : HashList)
    (hz : (pStatus.takeWhile fun s => s.closed).length = 0) :
    deleteClosedLoop pStatus i h = (i, h) := by
  cases pStatus with
  | nil => rfl
  | cons a t =>
    unfold deleteClosedLoop
    by_cases ha : a.closed = true
    · rw [List.takeWhile_cons_of_pos ha] at hz
      simp at hz
    · rw [if_neg ha]

/-- The last loop of `clearCompletedSlidingWindows` on windows with pairwise
different start keys that all have an entry: it returns, the entries of these
keys are lowered by `i`, every other key keeps what it had. -/
theorem rebaseLoop_spec (i : Nat) :
    ∀ (pStatus : List SWindowStatus) (h : HashList),
      (pStatus.map fun s => s.window.skey).Nodup →
      (∀ s ∈ pStatus, ∃ v, taosGetDataFromHash h s.window.skey = some v) →
      ∃ h', rebaseLoop i pStatus h = some h' ∧
        ∀ key : Int, taosGetDataFromHash h' key =
          if key ∈ pStatus.map (fun s => s.window.skey) then
            (taosGetDataFromHash h key).map (fun v : Int => v - (i : Int))
          else taosGetDataFromHash h key := by
  intro pStatus
  induction pStatus with
  | nil =>
    intro h _ _
    exact ⟨h, rfl, fun key => by simp⟩
  | cons a t ih =>
    intro h hnd hall
    rw [List.map_cons, List.nodup_cons] at hnd
    obtain ⟨v, hv⟩ := hall a (List.mem_cons_self a t)
    unfold rebaseLoop
    rw [hv]
    dsimp only
    have hstep := taosGetDataFromHash_rebase h a.window.skey (v - i)
    obtain ⟨h', hr, hspec⟩ := ih
      (taosAddToHashTable (taosDeleteFromHashTable h a.window.skey) a.window.skey (v - i))
      hnd.2
      (fun s hs => by
        obtain ⟨w, hw⟩ := hall s (List.mem_cons_of_mem a hs)
        refine ⟨w, ?_⟩
        rw [hstep, if_neg, hw]
        intro e
        exact hnd.1 (e ▸ List.mem_map_of_mem (fun s => s.window.skey) hs))
    refine ⟨h', hr, fun key => ?_⟩
    rw [hspec key, hstep key]
    simp only [List.map_cons, List.mem_cons]
    by_cases hk : key = a.window.skey
    · subst hk
      rw [if_neg hnd.1, if_pos rfl, if_pos (Or.inl rfl), hv]
      rfl
    · by_cases hm : key ∈ t.map (fun s => s.window.skey)
      · rw [if_pos hm, if_neg hk, if_pos (Or.inr hm)]
      · rw [if_neg hm, if_neg hk, if_neg (by tauto)]

/-- C22. Take a window set with `size ≤ capacity` in which every window
`k < size` is found in the hash table under its start key
(`lookup(status[k].window.skey) = k`), the start keys being pairwise different,
and let `i` be the number of its leading closed windows. The call of
`clearCompletedSlidingWindows` returns with `size' = size - i` and
`status'[k] = status[k + i]` for every `k < size'`; the start keys of the `i`
removed windows are no longer in the hash table; every remaining window again
satisfies `lookup(status'[k].window.skey) = k`; and `curIndex = -1` when
windows were removed (`i > 0`), while for `i = 0` the window set is
untouched. -/
theorem clearCompletedSlidingWindows_spec (info : SSlidingWindowInfo)
    (hcap : info.size ≤ info.capacity)
    (hinv : ∀ k : Nat, k < info.size → ∃ s, info.pStatus[k]? = some s ∧
      taosGetDataFromHash info.hashList s.window.skey = some (k : Int))
    (hnodup : ((info.pStatus.take info.size).map fun s => s.window.skey).Nodup) :
    ∃ info', clearCompletedSlidingWindows info = some info' ∧
      info'.size = info.size - leadingClosedWindows info ∧
      (∀ k : Nat, k < info'.size →
        info'.pStatus[k]? = info.pStatus[k + leadingClosedWindows info]?) ∧
      (∀ (k : Nat) (s : SWindowStatus), k < leadingClosedWindows info →
        info.pStatus[k]? = some s → taosGetDataFromHash info'.hashList s.window.skey = none) ∧
      (∀ k : Nat, k < info'.size → ∃ s, info'.pStatus[k]? = some s ∧
        taosGetDataFromHash info'.hashList s.window.skey = some (k : Int)) ∧
      (0 < leadingClosedWindows info → info'.curIndex = -1) ∧
      (leadingClosedWindows info = 0 → info' = info) := by
  have hlenP : info.size ≤ info.pStatus.length := by
    by_cases hs : info.size = 0
    · omega
    · obtain ⟨s, hs1, _⟩ := hinv (info.size - 1) (by omega)
      have := (List.getElem?_eq_some.mp hs1).1
      omega
  have hWlen : (info.pStatus.take info.size).length = info.size := by
    rw [List.length_take]; omega
  have hile : leadingClosedWindows info ≤ info.size := by
    unfold leadingClosedWindows
    have h := congrArg List.length
      (List.takeWhile_append_dropWhile (fun s : SWindowStatus => s.closed)
        (info.pStatus.take info.size))
    rw [List.length_append] at h
    omega
  obtain ⟨hd1, hd2⟩ := deleteClosedLoop_spec (info.pStatus.take info.size) 0 info.hashList
  rw [Nat.zero_add] at hd1
  have hPtake : (info.pStatus.take info.size).take (leadingClosedWindows info) =
      (info.pStatus.take info.size).takeWhile fun s => s.closed := by
    have h := @List.take_left' SWindowStatus
      ((info.pStatus.take info.size).takeWhile fun s => s.closed)
      ((info.pStatus.take info.size).dropWhile fun s => s.closed) _ rfl
    rw [List.takeWhile_append_dropWhile] at h
    exact h
  -- entries of the windows in use
  have hW : ∀ k : Nat, k < info.size → (info.pStatus.take info.size)[k]? = info.pStatus[k]? :=
    fun k hk => List.getElem?_take_of_lt hk
  by_cases h0 : info.capacity = 0 ∨ info.size = 0
  · have hsz : info.size = 0 := by omega
    have hi0 : leadingClosedWindows info = 0 := by omega
    unfold clearCompletedSlidingWindows
    rw [if_pos h0]
    refine ⟨info, rfl, by omega, fun k hk => by omega, fun k s hk => by omega,
      fun k hk => by omega, fun h => by omega, fun _ => rfl⟩
  · by_cases hz : leadingClosedWindows info = 0
    · have hr := deleteClosedLoop_of_none (info.pStatus.take info.size) 0 info.hashList hz
      unfold clearCompletedSlidingWindows
      rw [if_neg h0]
      simp only [hr]
      refine ⟨info, rfl, by omega, fun k _ => by rw [hz]; rfl, fun k s hk => by omega,
        fun k hk => hinv k hk, fun h => by omega, fun _ => rfl⟩
    · have hd1' : (deleteClosedLoop (info.pStatus.take info.size) 0 info.hashList).1 =
          leadingClosedWindows info := hd1
      obtain ⟨i, hi⟩ : ∃ i, i = leadingClosedWindows info := ⟨_, rfl⟩
      rw [← hi] at hd1' hPtake hile hz ⊢
      -- the windows that remain
      have hX : (info.pStatus.drop i).take (info.size - i) =
          (info.pStatus.take info.size).drop i := (List.drop_take _ _ _).symm
      have hXlen : ((info.pStatus.drop i).take (info.size - i)).length = info.size - i := by
        rw [List.length_take, List.length_drop]; omega
      have hXk : ∀ k : Nat, k < info.size - i →
          ((info.pStatus.drop i).take (info.size - i))[k]? = info.pStatus[k + i]? := by
        intro k hk
        rw [List.getElem?_take_of_lt hk, List.getElem?_drop, Nat.add_comm]
      -- the start keys of the removed and of the remaining windows
      have hnd : (((info.pStatus.take info.size).take i ++
          (info.pStatus.take info.size).drop i).map fun s => s.window.skey).Nodup := by
        rw [List.take_append_drop]; exact hnodup
      rw [List.map_append, List.nodup_append, hPtake, ← hX] at hnd
      obtain ⟨-, hndX, hdisj⟩ := hnd
      have hlook : ∀ (k : Nat) (s : SWindowStatus), k < info.size - i →
          info.pStatus[k + i]? = some s →
          s.window.skey ∈ ((info.pStatus.drop i).take (info.size - i)).map
            (fun s => s.window.skey) ∧
          taosGetDataFromHash
            (deleteClosedLoop (info.pStatus.take info.size) 0 info.hashList).2 s.window.skey =
              some ((k + i : Nat) : Int) := by
        intro k s hk hs
        have hmem : s.window.skey ∈ ((info.pStatus.drop i).take (info.size - i)).map
            (fun s => s.window.skey) :=
          List.mem_map_of_mem _ (List.mem_iff_getElem?.mpr ⟨k, by rw [hXk k hk, hs]⟩)
        refine ⟨hmem, ?_⟩
        rw [hd2, if_neg (fun hin => hdisj hin hmem)]
        obtain ⟨s', hs1, hs2⟩ := hinv (k + i) (by omega)
        rw [hs] at hs1
        cases hs1
        exact hs2
      obtain ⟨h', hreb, hspec⟩ := rebaseLoop_spec i
        ((info.pStatus.drop i).take (info.size - i))
        (deleteClosedLoop (info.pStatus.take info.size) 0 info.hashList).2 hndX
        (fun s hs => by
          obtain ⟨k, hk⟩ := List.mem_iff_getElem?.mp hs
          have hklt : k < info.size - i := by
            have := (List.getElem?_eq_some.mp hk).1
            omega
          rw [hXk k hklt] at hk
          exact ⟨_, (hlook k s hklt hk).2⟩)
      have htake : (((info.pStatus.drop i).take (info.size - i)) ++
          List.replicate (info.capacity - (info.size - i)) zeroWindowStatus).take
            (info.size - i) = (info.pStatus.drop i).take (info.size - i) :=
        List.take_left' hXlen
      unfold clearCompletedSlidingWindows
      rw [if_neg h0]
      simp only [hd1', if_neg hz, htake, hreb]
      refine ⟨_, rfl, rfl, ?_, ?_, ?_, fun _ => rfl, fun h => absurd h hz⟩
      · intro k hk
        dsimp only at hk ⊢
        rw [List.getElem?_append_left (by rw [hXlen]; exact hk), hXk k hk]
      · intro k s hk hs
        dsimp only
        have hmem : s.window.skey ∈ ((info.pStatus.take info.size).takeWhile
            fun s => s.closed).map (fun s => s.window.skey) := by
          rw [← hPtake]
          refine List.mem_map_of_mem _ (List.mem_iff_getElem?.mpr ⟨k, ?_⟩)
          rw [List.getElem?_take_of_lt hk, hW k (by omega), hs]
        rw [hspec, if_neg (fun hin => hdisj hmem hin), hd2, if_pos hmem]
      · intro k hk
        dsimp only at hk ⊢
        obtain ⟨s, hs1, _⟩ := hinv (k + i) (by omega)
        obtain ⟨hmem, hl⟩ := hlook k s hk hs1
        refine ⟨s, ?_, ?_⟩
        · rw [List.getElem?_append_left (by rw [hXlen]; exact hk), hXk k hk, hs1]
        · rw [hspec, if_pos hmem, hl]
          simp

/-- The window set `twoClosedWindows`: the two closed windows are removed and
the window `[20, 29]` moves to index 0. -/
theorem clearCompletedSlidingWindows_spec_witness :
    ∃ info', clearCompletedSlidingWindows twoClosedWindows = some info' ∧
      info'.size = twoClosedWindows.size - leadingClosedWindows twoClosedWindows ∧
      (∀ k : Nat, k < info'.size →
        info'.pStatus[k]? =
          twoClosedWindows.pStatus[k + leadingClosedWindows twoClosedWindows]?) ∧
      (∀ (k : Nat) (s : SWindowStatus), k < leadingClosedWindows twoClosedWindows →
        twoClosedWindows.pStatus[k]? = some s →
        taosGetDataFromHash info'.hashList s.window.skey = none) ∧
      (∀ k : Nat, k < info'.size → ∃ s, info'.pStatus[k]? = some s ∧
        taosGetDataFromHash info'.hashList s.window.skey = some (k : Int)) ∧
      (0 < leadingClosedWindows twoClosedWindows → info'.curIndex = -1) ∧
      (leadingClosedWindows twoClosedWindows = 0 → info' = twoClosedWindows) :=
  clearCompletedSlidingWindows_spec twoClosedWindows (by decide)
    (by
      intro k hk
      have hk3 : k < 3 := hk
      interval_cases k
      · exact ⟨_, rfl, by decide⟩
      · exact ⟨_, rfl, by decide⟩
      · exact ⟨_, rfl, by decide⟩)
    (by decide)

/-! ### Choice of the scan order -/

/-- A select list of last, last_dst, ts, ts_dummy, tag and tag_dummy columns
is an only-last list. -/
theorem onlyLastQuery_of_last_columns (ids : FunctionIds) :
    ∀ functionIds : List Int,
      (∀ f ∈ functionIds, f = ids.TSDB_FUNC_LAST ∨ f = ids.TSDB_FUNC_LAST_DST ∨
        f = ids.TSDB_FUNC_TS ∨ f = ids.TSDB_FUNC_TS_DUMMY ∨ f = ids.TSDB_FUNC_TAG ∨
        f = ids.TSDB_FUNC_TAG_DUMMY) →
      onlyLastQuery ids functionIds = true := by
  intro functionIds
  unfold onlyLastQuery
  induction functionIds with
  | nil => intro _; rfl
  | cons a t ih =>
    intro h
    have ht := ih (fun f hf => h f (List.mem_cons_of_mem a hf))
    have ha := h a (List.mem_cons_self a t)
    unfold onlyOneQueryType
    split
    · exact ht
    · rename_i hskip
      rw [if_neg (by intro hne; apply hskip; tauto)]
      exact ht

/-- A select list with a last or last_dst column is not an only-first list. -/
theorem onlyFirstQuery_of_last_column (ids : FunctionIds) (hd : distinctFunctionIds ids) :
    ∀ functionIds : List Int,
      (∃ f ∈ functionIds, f = ids.TSDB_FUNC_LAST ∨ f = ids.TSDB_FUNC_LAST_DST) →
      onlyFirstQuery ids functionIds = false := by
  unfold distinctFunctionIds at hd
  simp only [List.nodup_cons, List.mem_cons, List.mem_singleton, not_or, List.not_mem_nil,
    not_false_eq_true, List.nodup_nil, and_true] at hd
  intro functionIds
  unfold onlyFirstQuery
  induction functionIds with
  | nil => rintro ⟨f, hf, _⟩; cases hf
  | cons a t ih =>
    rintro ⟨f, hf, hlast⟩
    unfold onlyOneQueryType
    by_cases ha : a = ids.TSDB_FUNC_LAST ∨ a = ids.TSDB_FUNC_LAST_DST
    · rw [if_neg (by rcases ha with ha | ha <;> rw [ha] <;> tauto),
        if_pos (by rcases ha with ha | ha <;> rw [ha] <;> tauto)]
    · have hrest : ∃ f ∈ t, f = ids.TSDB_FUNC_LAST ∨ f = ids.TSDB_FUNC_LAST_DST := by
        rcases List.mem_cons.mp hf with h | h
        · subst h; exact absurd hlast ha
        · exact ⟨f, h, hlast⟩
      have ht := ih hrest
      split
      · exact ht
      · split
        · rfl
        · exact ht

/-- In descending order a select list of last, last_dst, ts, ts_dummy, tag
and tag_dummy columns needs no supplementary scan. -/
theorem needSupplementaryScan_of_last_columns (ids : FunctionIds)
    (hd : distinctFunctionIds ids) :
    ∀ functionIds : List Int,
      (∀ f ∈ functionIds, f = ids.TSDB_FUNC_LAST ∨ f = ids.TSDB_FUNC_LAST_DST ∨
        f = ids.TSDB_FUNC_TS ∨ f = ids.TSDB_FUNC_TS_DUMMY ∨ f = ids.TSDB_FUNC_TAG ∨
        f = ids.TSDB_FUNC_TAG_DUMMY) →
      needSupplementaryScan ids TSQL_SO_DESC functionIds = false := by
  unfold distinctFunctionIds at hd
  simp only [List.nodup_cons, List.mem_cons, List.mem_singleton, not_or, List.not_mem_nil,
    not_false_eq_true, List.nodup_nil, and_true] at hd
  intro functionIds
  induction functionIds with
  | nil => intro _; rfl
  | cons a t ih =>
    intro h
    have ht := ih (fun f hf => h f (List.mem_cons_of_mem a hf))
    have ha := h a (List.mem_cons_self a t)
    unfold needSupplementaryScan
    split
    · exact ht
    · rw [if_neg]
      · exact ht
      · have hasc : QUERY_IS_ASC_QUERY TSQL_SO_DESC = false := by decide
        rw [hasc]
        rintro (⟨_, h2⟩ | ⟨h1, _⟩)
        · cases h2
        · rcases h1 with h1 | h1 <;> rcases ha with ha | ha | ha | ha | ha | ha <;>
            (rw [h1] at ha; tauto)

/-- C23. For a non-interval query (`nAggTimeInterval = 0`) that is neither a
last_row nor a point-interpolation query and whose select list contains at
least one last or last_dst and otherwise only ts, ts_dummy, tag and tag_dummy
columns (the function ids being pairwise different), `changeExecuteScanOrder`
sets the order to descending, exchanges `skey` and `ekey` if and only if the
order was ascending, changes nothing else, and afterwards
`needSupplementaryScan` returns false. -/
theorem changeExecuteScanOrder_last_only (ids : FunctionIds)
    (TSDB_FUNC_INTERP TSDB_FUNC_LAST_ROW : Int) (q : OrderQuery) (metricQuery : Bool)
    (hd : distinctFunctionIds ids)
    (hint : q.nAggTimeInterval = 0)
    (hrow : isFirstLastRowQuery TSDB_FUNC_LAST_ROW q.functionIds = false)
    (hinterp : isPointInterpoQuery TSDB_FUNC_INTERP TSDB_FUNC_LAST_ROW q.functionIds = false)
    (hlast : ∃ f ∈ q.functionIds, f = ids.TSDB_FUNC_LAST ∨ f = ids.TSDB_FUNC_LAST_DST)
    (honly : ∀ f ∈ q.functionIds, f = ids.TSDB_FUNC_LAST ∨ f = ids.TSDB_FUNC_LAST_DST ∨
      f = ids.TSDB_FUNC_TS ∨ f = ids.TSDB_FUNC_TS_DUMMY ∨ f = ids.TSDB_FUNC_TAG ∨
      f = ids.TSDB_FUNC_TAG_DUMMY) :
    changeExecuteScanOrder ids TSDB_FUNC_INTERP TSDB_FUNC_LAST_ROW q metricQuery =
      (if q.order = TSQL_SO_ASC then
        { q with order := TSQL_SO_DESC, skey := q.ekey, ekey := q.skey }
      else q) ∧
    (changeExecuteScanOrder ids TSDB_FUNC_INTERP TSDB_FUNC_LAST_ROW q metricQuery).order =
      TSQL_SO_DESC ∧
    needSupplementaryScan ids
      (changeExecuteScanOrder ids TSDB_FUNC_INTERP TSDB_FUNC_LAST_ROW q metricQuery).order
      (changeExecuteScanOrder ids TSDB_FUNC_INTERP TSDB_FUNC_LAST_ROW q metricQuery).functionIds =
      false := by
  have hfirst := onlyFirstQuery_of_last_column ids hd q.functionIds hlast
  have hlastq := onlyLastQuery_of_last_columns ids q.functionIds honly
  have hsupp := needSupplementaryScan_of_last_columns ids hd q.functionIds honly
  have hres : changeExecuteScanOrder ids TSDB_FUNC_INTERP TSDB_FUNC_LAST_ROW q metricQuery =
      switchScanOrder q TSQL_SO_DESC := by
    unfold changeExecuteScanOrder
    rw [hrow, hinterp, hfirst, hlastq]
    simp only [Bool.false_eq_true, if_false, false_and, hint, if_true]
  rw [hres]
  unfold switchScanOrder
  cases ho : q.order with
  | TSQL_SO_ASC =>
    rw [if_neg (by decide), if_pos rfl]
    exact ⟨rfl, rfl, hsupp⟩
  | TSQL_SO_DESC =>
    rw [if_pos rfl, if_neg (by decide)]
    refine ⟨?_, rfl, hsupp⟩
    cases q
    simp only at ho
    subst ho
    rfl

/-- The ascending query `select last(c), ts` over `[100, 900]`: the order
becomes descending and the range `[900, 100]`. -/
theorem changeExecuteScanOrder_last_only_witness :
    changeExecuteScanOrder exampleFunctionIds 28 10 lastOnlyQuery false =
      (if lastOnlyQuery.order = TSQL_SO_ASC then
        { lastOnlyQuery with order := TSQL_SO_DESC, skey := lastOnlyQuery.ekey,
                             ekey := lastOnlyQuery.skey }
      else lastOnlyQuery) ∧
    (changeExecuteScanOrder exampleFunctionIds 28 10 lastOnlyQuery false).order =
      TSQL_SO_DESC ∧
    needSupplementaryScan exampleFunctionIds
      (changeExecuteScanOrder exampleFunctionIds 28 10 lastOnlyQuery false).order
      (changeExecuteScanOrder exampleFunctionIds 28 10 lastOnlyQuery false).functionIds =
      false :=
  changeExecuteScanOrder_last_only exampleFunctionIds 28 10 lastOnlyQuery false
    (by unfold distinctFunctionIds; decide) rfl (by decide) (by decide)
    ⟨9, by decide, Or.inl rfl⟩
    (by
      intro f hf
      have h : f = 9 ∨ f = 16 := by simpa [lastOnlyQuery] using hf
      rcases h with h | h
      · exact Or.inl h
      · exact Or.inr (Or.inr (Or.inl h)))

/-! ### Block locator in the cache ring -/

/-- Remainder of a number that lies `k` rings above a value of the ring. -/
theorem emod_of_shift (x m r k : Int) (h : x = r + k * m) (h0 : 0 ≤ r) (h1 : r < m) :
    x % m = r := by
  subst h
  rw [Int.add_mul_emod_self]
  exact Int.emod_eq_of_lt h0 h1

/-- A slot of the ring is the linear position or the position less one ring. -/
theorem ringSlot_cases (m F i : Int) (hF0 : 0 ≤ F) (hFm : F < m) (hi0 : 0 ≤ i) (him : i < m) :
    (F + i) % m = F + i ∨ (F + i) % m = F + i - m := by
  by_cases h : F + i < m
  · exact Or.inl (Int.emod_eq_of_lt (by omega) h)
  · exact Or.inr (emod_of_shift (F + i) m (F + i - m) 1 (by ring) (by omega) (by omega))

/-- The truncating remainder of the source agrees with the ring position after
a move by `c` slots. -/
theorem ringSlot_tmod (m F i c : Int) (hm : 0 < m) (hc : 0 ≤ (F + i) % m + c) :
    ((F + i) % m + c).tmod m = (F + (i + c)) % m := by
  rw [Int.tmod_eq_emod hc (le_of_lt hm), Int.emod_add_emod]
  congr 1
  ring

/-- The same with the `+ maxBlocks` that the source adds before `%`. -/
theorem ringSlot_tmod_wrap (m F i c : Int) (hm : 0 < m) (hc : 0 ≤ (F + i) % m + c + m) :
    ((F + i) % m + c + m).tmod m = (F + (i + c)) % m := by
  rw [Int.tmod_eq_emod hc (le_of_lt hm), Int.add_emod_self, Int.emod_add_emod]
  congr 1
  ring

/-- The number of blocks that `binarySearchInCacheBlk` computes for the ring
range of the linear range `[f, l]` is `l - f + 1`. -/
theorem ring_numOfBlocks (m F f l : Int) (hF0 : 0 ≤ F) (hFm : F < m)
    (hf : 0 ≤ f) (hfl : f ≤ l) (hl : l < m) :
    (if ((F + l) % m - (F + f) % m + 1 + m).tmod m = 0 then m
      else ((F + l) % m - (F + f) % m + 1 + m).tmod m) = l - f + 1 := by
  have hm : 0 < m := by omega
  have ha0 := Int.emod_nonneg (F + f) (ne_of_gt hm)
  have ha1 := Int.emod_lt_of_pos (F + f) hm
  have hb0 := Int.emod_nonneg (F + l) (ne_of_gt hm)
  have hb1 := Int.emod_lt_of_pos (F + l) hm
  rw [Int.tmod_eq_emod (by omega) (le_of_lt hm)]
  have ha := ringSlot_cases m F f hF0 hFm hf (by omega)
  have hb := ringSlot_cases m F l hF0 hFm (by omega) hl
  by_cases hfull : l - f + 1 = m
  · have h0 : ((F + l) % m - (F + f) % m + 1 + m) % m = 0 := by
      rcases ha with ha | ha <;> rcases hb with hb | hb
      · exact emod_of_shift _ m 0 2 (by omega) (le_refl _) hm
      · exact emod_of_shift _ m 0 1 (by omega) (le_refl _) hm
      · exact emod_of_shift _ m 0 3 (by omega) (le_refl _) hm
      · exact emod_of_shift _ m 0 2 (by omega) (le_refl _) hm
    rw [if_pos h0]
    omega
  · have h1 : ((F + l) % m - (F + f) % m + 1 + m) % m = l - f + 1 := by
      rcases ha with ha | ha <;> rcases hb with hb | hb
      · exact emod_of_shift _ m _ 1 (by omega) (by omega) (by omega)
      · exact emod_of_shift _ m _ 0 (by omega) (by omega) (by omega)
      · exact emod_of_shift _ m _ 2 (by omega) (by omega) (by omega)
      · exact emod_of_shift _ m _ 1 (by omega) (by omega) (by omega)
    rw [h1, if_neg (by omega)]

/-- Both loops in step: from the linear range `[f, l]` and its ring range, the
ring loop returns the ring slot of the index that the linear loop returns. -/
theorem binarySearchCacheLoop_refines (cacheBlocks : List (Option SCompBlock))
    (linear : List SCompBlock) (m F skey : Int) (order : ScanOrder)
    (hF0 : 0 ≤ F) (hFm : F < m) (hlen : (linear.length : Int) ≤ m)
    (hlin : ∀ (i : Int) (b : SCompBlock), blockAt linear i = some b →
      cacheBlockKeysAt cacheBlocks ((F + i) % m) = some b) :
    ∀ (k fuel1 fuel2 : Nat) (f l : Int), 0 ≤ f → f ≤ l → l < linear.length →
      l - f + 1 ≤ k → k ≤ fuel1 → k ≤ fuel2 →
      ∃ idx, binarySearchLoop linear skey order fuel1 f l = some idx ∧
        binarySearchCacheLoop cacheBlocks m skey order fuel2 ((F + f) % m) ((F + l) % m) =
          some ((F + idx) % m) ∧ f ≤ idx ∧ idx ≤ l := by
  have hm : 0 < m := by omega
  intro k
  induction k with
  | zero =>
    intro fuel1 fuel2 f l _ hfl _ hk _ _
    exfalso; push_cast at hk; omega
  | succ k ih =>
    intro fuel1 fuel2 f l hf hfl hl hk h1 h2
    obtain ⟨fuel1, rfl⟩ : ∃ n, fuel1 = n + 1 := ⟨fuel1 - 1, by omega⟩
    obtain ⟨fuel2, rfl⟩ : ∃ n, fuel2 = n + 1 := ⟨fuel2 - 1, by omega⟩
    have hdiv := shiftRight_one (l - f + 1)
    have hnb := ring_numOfBlocks m F f l hF0 hFm hf hfl (by omega)
    obtain ⟨mid, hmid⟩ := blockAt_isSome linear (f + (l - f + 1) / 2) (by omega) (by omega)
    have hslot0 : ∀ i : Int, 0 ≤ (F + i) % m := fun i => Int.emod_nonneg _ (ne_of_gt hm)
    have hmidslot : ((F + f) % m + (l - f + 1) / 2).tmod m = (F + (f + (l - f + 1) / 2)) % m :=
      ringSlot_tmod m F f _ hm (by have := hslot0 f; omega)
    have hnext : ((F + (f + (l - f + 1) / 2)) % m + 1 + m).tmod m =
        (F + (f + (l - f + 1) / 2 + 1)) % m :=
      ringSlot_tmod_wrap m F _ 1 hm (by have := hslot0 (f + (l - f + 1) / 2); omega)
    have hfirst : ((F + (f + (l - f + 1) / 2)) % m + 1).tmod m =
        (F + (f + (l - f + 1) / 2 + 1)) % m :=
      ringSlot_tmod m F _ 1 hm (by have := hslot0 (f + (l - f + 1) / 2); omega)
    have hprev : ((F + (f + (l - f + 1) / 2)) % m - 1 + m).tmod m =
        (F + (f + (l - f + 1) / 2 - 1)) % m := by
      have := ringSlot_tmod_wrap m F (f + (l - f + 1) / 2) (-1) hm
        (by have := hslot0 (f + (l - f + 1) / 2); omega)
      rw [show (F + (f + (l - f + 1) / 2)) % m - 1 = (F + (f + (l - f + 1) / 2)) % m + -1 by ring,
        this]
      congr 1
    unfold binarySearchLoop binarySearchCacheLoop
    simp only [hnb, hdiv, hmidslot, hmid, hlin _ _ hmid, hnext, hfirst, hprev]
    by_cases hone : l - f + 1 = 1
    · rw [if_pos hone, if_pos hone]
      exact ⟨_, rfl, rfl, by omega, by omega⟩
    · rw [if_neg hone, if_neg hone]
      by_cases hgt : skey > mid.keyLast
      · rw [if_pos hgt, if_pos hgt]
        by_cases htwo : l - f + 1 = 2
        · rw [if_pos htwo, if_pos htwo]
          exact ⟨_, rfl, rfl, by omega, by omega⟩
        · rw [if_neg htwo, if_neg htwo]
          obtain ⟨idx, hr1, hr2, hr3, hr4⟩ := ih fuel1 fuel2 (f + (l - f + 1) / 2 + 1) l
            (by omega) (by omega) hl (by push_cast at hk ⊢; omega) (by omega) (by omega)
          obtain ⟨nx, hnx⟩ := blockAt_isSome linear (f + (l - f + 1) / 2 + 1)
            (by omega) (by omega)
          cases order with
          | TSQL_SO_ASC =>
            rw [if_neg (by decide), if_neg (by decide)]
            exact ⟨idx, hr1, hr2, by omega, hr4⟩
          | TSQL_SO_DESC =>
            rw [if_pos (by decide), if_pos (by decide)]
            simp only [hnx, hlin _ _ hnx]
            by_cases hk2 : skey < nx.keyFirst
            · rw [if_pos hk2, if_pos hk2]
              exact ⟨_, rfl, rfl, by omega, by omega⟩
            · rw [if_neg hk2, if_neg hk2]
              exact ⟨idx, hr1, hr2, by omega, hr4⟩
      · rw [if_neg hgt, if_neg hgt]
        by_cases hlt : skey < mid.keyFirst
        · rw [if_pos hlt, if_pos hlt]
          obtain ⟨idx, hr1, hr2, hr3, hr4⟩ := ih fuel1 fuel2 f (f + (l - f + 1) / 2 - 1)
            hf (by omega) (by omega) (by push_cast at hk ⊢; omega) (by omega) (by omega)
          obtain ⟨pv, hpv⟩ := blockAt_isSome linear (f + (l - f + 1) / 2 - 1)
            (by omega) (by omega)
          cases order with
          | TSQL_SO_ASC =>
            rw [if_pos (by decide), if_pos (by decide)]
            simp only [hpv, hlin _ _ hpv]
            by_cases hk2 : skey > pv.keyLast
            · rw [if_pos hk2, if_pos hk2]
              exact ⟨_, rfl, rfl, by omega, by omega⟩
            · rw [if_neg hk2, if_neg hk2]
              exact ⟨idx, hr1, hr2, hr3, by omega⟩
          | TSQL_SO_DESC =>
            rw [if_neg (by decide), if_neg (by decide)]
            exact ⟨idx, hr1, hr2, hr3, by omega⟩
        · rw [if_neg hlt, if_neg hlt]
          exact ⟨_, rfl, rfl, by omega, by omega⟩

/-- Where every element of `l` has a value under `f`, `filterMap` keeps the
positions of `l`. -/
theorem filterMap_map_some {α : Type} (f : Nat → Option α) :
    ∀ l : List Nat, (∀ i ∈ l, (f i).isSome = true) → (l.filterMap f).map some = l.map f := by
  intro l
  induction l with
  | nil => intro _; rfl
  | cons a t ih =>
    intro h
    obtain ⟨v, hv⟩ := Option.isSome_iff_exists.mp (h a (List.mem_cons_self a t))
    rw [List.filterMap_cons_some hv, List.map_cons, List.map_cons, hv,
      ih (fun i hi => h i (List.mem_cons_of_mem a hi))]

/-- When the `n` slots of the ring range hold blocks, `ringAsArray` has `n`
entries and entry `i` is the block of slot `(firstSlot + i) mod maxBlocks`. -/
theorem ringAsArray_spec (cacheBlocks : List (Option SCompBlock)) (m F : Int) (n : Nat)
    (hfull : ∀ i : Nat, i < n →
      (cacheBlockKeysAt cacheBlocks ((F + (i : Int)) % m)).isSome = true) :
    (ringAsArray cacheBlocks m F n).length = n ∧
    ∀ (i : Int) (b : SCompBlock), blockAt (ringAsArray cacheBlocks m F n) i = some b →
      cacheBlockKeysAt cacheBlocks ((F + i) % m) = some b := by
  have hmap := filterMap_map_some
    (fun i : Nat => cacheBlockKeysAt cacheBlocks ((F + (i : Int)) % m)) (List.range n)
    (fun i hi => hfull i (List.mem_range.mp hi))
  have hlen : (ringAsArray cacheBlocks m F n).length = n := by
    have := congrArg List.length hmap
    simpa [ringAsArray] using this
  refine ⟨hlen, ?_⟩
  intro i b hb
  obtain ⟨h0, h1⟩ := blockAt_bounds _ _ _ hb
  obtain ⟨k, rfl⟩ := Int.eq_ofNat_of_zero_le h0
  rw [blockAt_of_nat] at hb
  have hk : k < n := by rw [hlen] at h1; exact_mod_cast h1
  have h2 := congrArg (fun l => l[k]?) hmap
  simp only [List.getElem?_map] at h2
  unfold ringAsArray at hb
  rw [hb, List.getElem?_range hk] at h2
  simp only [Option.map_some'] at h2
  exact (Option.some.inj h2).symm

/-- C24. For a cache ring of `maxBlocks` slots whose `n ≥ 1` slots
`firstSlot, firstSlot + 1, ...` (taken modulo `maxBlocks`) hold non-empty
blocks, `binarySearchInCacheBlk` called with `firstSlot` and the last of these
slots returns a slot `r` of that ring range, and `(r - firstSlot) mod maxBlocks`
is the index that `binarySearchForBlockImpl` returns for the same blocks laid
out as a linear array of length `n`, with the same key and scan order. -/
theorem binarySearchInCacheBlk_refines (cacheBlocks : List (Option SCompBlock))
    (maxBlocks firstSlot skey : Int) (order : ScanOrder) (n : Nat)
    (hfirst : 0 ≤ firstSlot ∧ firstSlot < maxBlocks)
    (hn : 1 ≤ n ∧ (n : Int) ≤ maxBlocks)
    (hfull : ∀ i : Nat, i < n →
      (cacheBlockKeysAt cacheBlocks ((firstSlot + (i : Int)) % maxBlocks)).isSome = true) :
    ∃ r idx : Int,
      binarySearchInCacheBlk cacheBlocks maxBlocks skey order firstSlot
        ((firstSlot + ((n : Int) - 1)) % maxBlocks) = some r ∧
      binarySearchForBlockImpl (ringAsArray cacheBlocks maxBlocks firstSlot n) n skey order =
        some idx ∧
      0 ≤ idx ∧ idx < n ∧ r = (firstSlot + idx) % maxBlocks ∧
      (r - firstSlot) % maxBlocks = idx := by
  obtain ⟨hlen, hlin⟩ := ringAsArray_spec cacheBlocks maxBlocks firstSlot n hfull
  obtain ⟨idx, h1, h2, h3, h4⟩ := binarySearchCacheLoop_refines cacheBlocks
    (ringAsArray cacheBlocks maxBlocks firstSlot n) maxBlocks firstSlot skey order
    hfirst.1 hfirst.2 (by rw [hlen]; exact hn.2) hlin n (n : Int).toNat maxBlocks.toNat
    0 ((n : Int) - 1) (le_refl _) (by omega) (by rw [hlen]; omega) (by omega) (by omega)
    (by omega)
  have hzero : (firstSlot + 0) % maxBlocks = firstSlot := by
    rw [Int.add_zero]
    exact Int.emod_eq_of_lt hfirst.1 hfirst.2
  rw [hzero] at h2
  refine ⟨(firstSlot + idx) % maxBlocks, idx, h2, h1, h3, by omega, rfl, ?_⟩
  rcases ringSlot_cases maxBlocks firstSlot idx hfirst.1 hfirst.2 h3 (by omega) with h | h
  · rw [h]
    exact emod_of_shift _ maxBlocks idx 0 (by ring) h3 (by omega)
  · rw [h]
    exact emod_of_shift _ maxBlocks idx (-1) (by ring) h3 (by omega)

/-- The ring of five slots with blocks in the slots 4, 0 and 1, key 35,
ascending: the ring search returns slot 1, the linear search index 2. -/
theorem binarySearchInCacheBlk_refines_witness :
    ∃ r idx : Int,
      binarySearchInCacheBlk wrappedRing 5 35 TSQL_SO_ASC 4 ((4 + (((3 : Nat) : Int) - 1)) % 5) =
        some r ∧
      binarySearchForBlockImpl (ringAsArray wrappedRing 5 4 3) ((3 : Nat) : Int) 35 TSQL_SO_ASC =
        some idx ∧
      0 ≤ idx ∧ idx < ((3 : Nat) : Int) ∧ r = (4 + idx) % 5 ∧ (r - 4) % 5 = idx :=
  binarySearchInCacheBlk_refines wrappedRing 5 4 35 TSQL_SO_ASC 3 (by decide) (by decide)
    (by decide)

/-! ### Counting the closed windows -/

/-- While some window in use is not closed, the loop of
`numOfClosedSlidingWindow` returns the index of the first such window. -/
theorem numOfClosedLoop_of_open :
    ∀ (pStatus : List SWindowStatus) (i : Int), (∃ s ∈ pStatus, s.closed = false) →
      numOfClosedLoop pStatus i = i + ((pStatus.takeWhile fun s => s.closed).length : Int) := by
  intro pStatus
  induction pStatus with
  | nil => rintro i ⟨s, hs, _⟩; cases hs
  | cons a t ih =>
    intro i h
    unfold numOfClosedLoop
    by_cases ha : a.closed = false
    · rw [if_pos ha, List.takeWhile_cons_of_neg (by simp [ha])]
      simp
    · rw [if_neg ha]
      have ha' : a.closed = true := by simpa using ha
      rw [List.takeWhile_cons_of_pos ha']
      have hrest : ∃ s ∈ t, s.closed = false := by
        obtain ⟨s, hs, hc⟩ := h
        rcases List.mem_cons.mp hs with e | e
        · subst e; exact absurd hc ha
        · exact ⟨s, e, hc⟩
      rw [ih (i + 1) hrest]
      simp only [List.length_cons, Nat.cast_add, Nat.cast_one]
      ring

/-- While some window in use is not closed, `numOfClosedSlidingWindow` returns
the number of leading closed windows. -/
theorem numOfClosedSlidingWindow_of_open (info : SSlidingWindowInfo)
    (h : ∃ s ∈ info.pStatus.take info.size, s.closed = false) :
    numOfClosedSlidingWindow info = leadingClosedWindows info := by
  unfold numOfClosedSlidingWindow leadingClosedWindows
  rw [numOfClosedLoop_of_open _ 0 h]
  simp

/-- A window set of two open windows `[0, 9]` and `[10, 19]`, for example. -/
theorem numOfClosedSlidingWindow_of_open_witness :
    numOfClosedSlidingWindow
        ⟨[(0, 0), (10, 1)], 1, 3, 2, 3, 0, 0,
          [⟨⟨0, 9⟩, true⟩, ⟨⟨10, 19⟩, false⟩, zeroWindowStatus]⟩ =
      leadingClosedWindows
        ⟨[(0, 0), (10, 1)], 1, 3, 2, 3, 0, 0,
          [⟨⟨0, 9⟩, true⟩, ⟨⟨10, 19⟩, false⟩, zeroWindowStatus]⟩ :=
  numOfClosedSlidingWindow_of_open _ ⟨⟨⟨10, 19⟩, false⟩, by decide, rfl⟩

/-- C25 (evaluation at the failing input). The window set of the two windows
`[0, 9]` and `[10, 19]` after the rows 5 and 15 of a query over `[0, 15]`: the
last row reaches the end of the query range, so the code after the row loop
closes every window. Both windows are then closed, the number of leading
closed windows is 2 (the `size`), and `numOfClosedSlidingWindow` returns 0:
its loop finds no open window and falls to the `return 0` behind it. -/
theorem numOfClosedSlidingWindow_all_closed :
    ((slidingWindowRows ⟨10, 10, 0, 15, TSQL_SO_ASC⟩ (initSlidingWindowInfo 3) [5, 15]).bind
        (closeWindowsAfterRows exampleFlags ⟨10, 10, 0, 15, TSQL_SO_ASC⟩ 15)).map
      (fun r => (r.1.size, r.1.pStatus.take r.1.size, leadingClosedWindows r.1,
        numOfClosedSlidingWindow r.1)) =
      some (2, [⟨⟨0, 9⟩, true⟩, ⟨⟨10, 19⟩, true⟩], 2, 0) := by
  decide

/-! ### Load-info record after a failed load -/

/-- C26 (evaluation at the failing input). In `lastColumnFailureEnv` the last
column read fails its checksum: `loadDataBlockIntoMem` returns `-1`, yet the
load-info record, `(-1, -1, -1, -1, false)` before the call, is
`(fileId, slot, sid, fileListIndex, tsLoaded) = (0, 0, 1, 0, true)` afterwards.
With that record `vnodeIsDatablockLoaded` answers `NO_NEED_TO_LOAD` for the
block, and the next `loadDataBlockIntoMem` returns success without a read. -/
theorem loadDataBlockIntoMem_failure_recorded :
    lastColumnFailureEnv.loadBlockInfo = ⟨-1, -1, -1, -1, false⟩ ∧
    loadDataBlockIntoMem lastColumnFailureEnv 0 true true =
      some ⟨-1, [(0, 0), (1, 0), (2, -1)], ⟨0, 0, 1, 0, true⟩⟩ ∧
    vnodeIsDatablockLoaded ⟨0, 0, 1, 0, true⟩ lastColumnFailureEnv.fileId
      lastColumnFailureEnv.slot lastColumnFailureEnv.sid 0 true = DISK_BLOCK_NO_NEED_TO_LOAD ∧
    loadDataBlockIntoMem { lastColumnFailureEnv with loadBlockInfo := ⟨0, 0, 1, 0, true⟩ }
      0 true true = some ⟨TSDB_CODE_SUCCESS, [], ⟨0, 0, 1, 0, true⟩⟩ := by
  decide

/-! ### Release of a replaced node -/

/-- C27 (evaluation at the failing input). The key `"k"` is put with payload
1 (node 1, held by the caller) and put again with payload 2: node 1 is still
referenced, so it goes to the trash and node 2 is inserted under the key; a
lookup by name returns payload 2. The holder of node 1 then releases it with
`_remove = true`: `taosCacheMoveToTrash` removes the entry of the key of
node 1 from the hash table, which by now is the entry of node 2. The hash
table is empty afterwards and `taosCacheAcquireByName` returns `NULL` for the
key, although node 2 is alive and was never released. -/
theorem taosCacheRelease_unmaps_new_node :
    replacedKeyCache.map (fun r => (r.1.pHashTable, r.1.pTrash, r.2.1, r.2.2)) =
      some ([("k", 2)], [1], 1, 2) ∧
    replacedKeyCache.map (fun r => cacheDataAt r.1 (taosCacheAcquireByName r.1 "k").2) =
      some (some 2) ∧
    (replacedKeyCache.bind fun r => taosCacheRelease r.1 r.2.1 true).map
        (fun pObj => (pObj.pHashTable, pObj.pTrash, cacheNodeAt pObj 2)) =
      some ([], [1], some ⟨"k", 2, 1, false⟩) ∧
    (replacedKeyCache.bind fun r => taosCacheRelease r.1 r.2.1 true).map
        (fun pObj => (taosCacheAcquireByName pObj "k").2) = some none := by
  decide

/-! ### `getActiveSlidingWindow` without a current window -/

/-- C28 (evaluation at the failing input). An ascending query over `[0, 1000]`
with interval 10 and sliding 10 on a window set of threshold 3. The rows 5,
15, 25, 35 and 45 open the windows `[0, 9]` to `[40, 49]`; the code after the
row loop closes the first four, stores `prevSKey = 40` and asks for a flush
(four closed windows exceed the threshold); `clearCompletedSlidingWindows`
removes the four and leaves `curIndex = -1`. For the next row, 65,
`getActiveSlidingWindow` takes the window `[40, 49]` from `prevSKey` without
sliding it, and the closing assertion fails. The same happens in the state
`curIndex = -1`, `prevSKey = 0` for every row from 10 on. -/
theorem getActiveSlidingWindow_assert_fails :
    (((slidingWindowRows tumblingQuery (initSlidingWindowInfo 3) [5, 15, 25, 35, 45]).bind
        (closeWindowsAfterRows exampleFlags tumblingQuery 45)).bind
        (fun r => (clearCompletedSlidingWindows r.1).map (fun info => (info, r.2)))).map
      (fun r => (r.1.curIndex, r.1.prevSKey, r.1.pStatus.take r.1.size, r.2)) =
      some (-1, 40, [⟨⟨40, 49⟩, false⟩], some exampleFlags.QUERY_RESBUF_FULL) ∧
    (((slidingWindowRows tumblingQuery (initSlidingWindowInfo 3) [5, 15, 25, 35, 45]).bind
        (closeWindowsAfterRows exampleFlags tumblingQuery 45)).bind
        (fun r => clearCompletedSlidingWindows r.1)).map
      (fun info => (getActiveSlidingWindow info 65 10 10, getActiveSlidingWindow info 45 10 10)) =
      some (none, some ⟨40, 49⟩) ∧
    getActiveSlidingWindow (initSlidingWindowInfo 3) 10 10 10 = none ∧
    getActiveSlidingWindow (initSlidingWindowInfo 3) 9 10 10 = some ⟨0, 9⟩ := by
  decide

/-! ### Block locator on arbitrary arrays -/

/-- From every state `0 ≤ firstSlot ≤ lastSlot < length`, sorted array or not,
the loop of `binarySearchForBlockImpl` ends within `lastSlot - firstSlot + 1`
rounds, every read it makes lies inside the array, and the slot it returns
lies in `[firstSlot, lastSlot]`. -/
theorem binarySearchLoop_total (pBlock : List SCompBlock) (skey : Int) (order : ScanOrder) :
    ∀ (fuel : Nat) (first last : Int), 0 ≤ first → first ≤ last → last < pBlock.length →
      last - first + 1 ≤ fuel →
      ∃ r, binarySearchLoop pBlock skey order fuel first last = some r ∧
        first ≤ r ∧ r ≤ last := by
  intro fuel
  induction fuel with
  | zero =>
    intro first last _ hfl _ hf
    exfalso; push_cast at hf; omega
  | succ fuel ih =>
    intro first last h0 hfl hn hf
    have hdiv := shiftRight_one (last - first + 1)
    obtain ⟨mid, hmid⟩ := blockAt_isSome pBlock (first + (last - first + 1) / 2)
      (by omega) (by omega)
    unfold binarySearchLoop
    simp only [hdiv, hmid]
    by_cases h1 : last - first + 1 = 1
    · rw [if_pos h1]
      exact ⟨_, rfl, by omega, by omega⟩
    · rw [if_neg h1]
      by_cases hgt : skey > mid.keyLast
      · rw [if_pos hgt]
        by_cases h2 : last - first + 1 = 2
        · rw [if_pos h2]
          exact ⟨_, rfl, by omega, by omega⟩
        · rw [if_neg h2]
          obtain ⟨r, hr, hr1, hr2⟩ := ih (first + (last - first + 1) / 2 + 1) last
            (by omega) (by omega) hn (by push_cast at hf ⊢; omega)
          by_cases ho : order = TSQL_SO_DESC
          · rw [if_pos ho]
            obtain ⟨nx, hnx⟩ := blockAt_isSome pBlock (first + (last - first + 1) / 2 + 1)
              (by omega) (by omega)
            simp only [hnx]
            by_cases hk : skey < nx.keyFirst
            · rw [if_pos hk]
              exact ⟨_, rfl, by omega, by omega⟩
            · rw [if_neg hk]
              exact ⟨r, hr, by omega, hr2⟩
          · rw [if_neg ho]
            exact ⟨r, hr, by omega, hr2⟩
      · rw [if_neg hgt]
        by_cases hlt : skey < mid.keyFirst
        · rw [if_pos hlt]
          obtain ⟨r, hr, hr1, hr2⟩ := ih first (first + (last - first + 1) / 2 - 1)
            h0 (by omega) (by omega) (by push_cast at hf ⊢; omega)
          by_cases ho : order = TSQL_SO_ASC
          · rw [if_pos ho]
            obtain ⟨pv, hpv⟩ := blockAt_isSome pBlock (first + (last - first + 1) / 2 - 1)
              (by omega) (by omega)
            simp only [hpv]
            by_cases hk : skey > pv.keyLast
            · rw [if_pos hk]
              exact ⟨_, rfl, by omega, by omega⟩
            · rw [if_neg hk]
              exact ⟨r, hr, hr1, by omega⟩
          · rw [if_neg ho]
            exact ⟨r, hr, hr1, by omega⟩
        · rw [if_neg hlt]
          exact ⟨_, rfl, by omega, by omega⟩

/-- C29. For every array of `n ≥ 1` block descriptors (sorted or not), every
key and both scan orders, `binarySearchForBlockImpl` returns: the loop ends,
no descriptor is read outside the `n` entries of the array (such a read would
yield no result), and the index returned lies in `[0, n)`. -/
theorem binarySearchForBlockImpl_total (pBlock : List SCompBlock) (skey : Int)
    (order : ScanOrder) (hn : 1 ≤ pBlock.length) :
    ∃ r, binarySearchForBlockImpl pBlock pBlock.length skey order = some r ∧
      0 ≤ r ∧ r < pBlock.length := by
  unfold binarySearchForBlockImpl
  obtain ⟨r, hr, h1, h2⟩ := binarySearchLoop_total pBlock skey order
    (pBlock.length : Int).toNat 0 ((pBlock.length : Int) - 1) (le_refl _) (by omega) (by omega)
    (by omega)
  exact ⟨r, hr, h1, by omega⟩

/-- Three unsorted descriptors, key 5, descending order: the loop stops at index 1. -/
theorem binarySearchForBlockImpl_total_witness :
    ∃ r, binarySearchForBlockImpl [⟨9, 3⟩, ⟨7, 1⟩, ⟨8, 8⟩]
        ([⟨9, 3⟩, ⟨7, 1⟩, ⟨8, 8⟩] : List SCompBlock).length 5 TSQL_SO_DESC = some r ∧
      0 ≤ r ∧ r < ([⟨9, 3⟩, ⟨7, 1⟩, ⟨8, 8⟩] : List SCompBlock).length :=
  binarySearchForBlockImpl_total [⟨9, 3⟩, ⟨7, 1⟩, ⟨8, 8⟩] 5 TSQL_SO_DESC (by decide)

/-! ### Indexes assigned by `doSetSlidingWindowFromKey` -/

/-- A key that the hash table does not hold gets the index `size`; the window
set grows by one window and, the status array being doubled when it is full,
keeps `size ≤ capacity`. -/
theorem doSetSlidingWindowFromKey_fresh (info : SSlidingWindowInfo) (key : Int)
    (hnone : taosGetDataFromHash info.hashList key = none)
    (h1 : 1 ≤ info.capacity) (h2 : info.size ≤ info.capacity) :
    (doSetSlidingWindowFromKey info key).2 = (info.size : Int) ∧
    (doSetSlidingWindowFromKey info key).1.size = info.size + 1 ∧
    (doSetSlidingWindowFromKey info key).1.size ≤ (doSetSlidingWindowFromKey info key).1.capacity ∧
    1 ≤ (doSetSlidingWindowFromKey info key).1.capacity ∧
    (doSetSlidingWindowFromKey info key).1.hashList =
      taosAddToHashTable info.hashList key info.size := by
  unfold doSetSlidingWindowFromKey
  rw [hnone]
  dsimp only
  by_cases hfull : info.size ≥ info.capacity
  · rw [if_pos hfull]
    dsimp only
    exact ⟨rfl, rfl, by omega, by omega, rfl⟩
  · rw [if_neg hfull]
    exact ⟨rfl, rfl, by omega, by omega, rfl⟩

/-- A run of `n` keys `size, size + 1, ...`, none of which the hash table
holds: the key `size + j` gets the index `size + j`, whatever `n`, and
`size ≤ capacity` holds afterwards. -/
theorem setKeysFrom_fresh :
    ∀ (n : Nat) (info : SSlidingWindowInfo), 1 ≤ info.capacity → info.size ≤ info.capacity →
      (∀ key : Int, (info.size : Int) ≤ key → taosGetDataFromHash info.hashList key = none) →
      (setKeysFrom info (consecutiveKeys info.size n)).2 =
        consecutiveKeys info.size n ∧
      (setKeysFrom info (consecutiveKeys info.size n)).1.size = info.size + n ∧
      (setKeysFrom info (consecutiveKeys info.size n)).1.size ≤
        (setKeysFrom info (consecutiveKeys info.size n)).1.capacity := by
  intro n
  induction n with
  | zero =>
    intro info _ h2 _
    exact ⟨rfl, rfl, h2⟩
  | succ n ih =>
    intro info h1 h2 hfresh
    obtain ⟨e1, e2, e3, e4, e5⟩ := doSetSlidingWindowFromKey_fresh info (info.size : Int)
      (hfresh _ (le_refl _)) h1 h2
    have hnext := ih (doSetSlidingWindowFromKey info (info.size : Int)).1 e4 e3
      (fun key hk => by
        rw [e5, taosGetDataFromHash_add _ _ _ _ (hfresh _ (le_refl _)),
          if_neg (by rw [e2] at hk; push_cast at hk; omega)]
        exact hfresh key (by rw [e2] at hk; push_cast at hk; omega))
    rw [e2] at hnext
    obtain ⟨g1, g2, g3⟩ := hnext
    have hkeys : consecutiveKeys info.size (n + 1) =
        (info.size : Int) :: consecutiveKeys (info.size + 1) n := by
      unfold consecutiveKeys
      rw [List.range'_succ]
      rfl
    rw [hkeys]
    unfold setKeysFrom
    dsimp only
    refine ⟨?_, ?_, ?_⟩
    · rw [g1, e1]
    · rw [g2]; omega
    · exact g3

/-- C30 (evaluation at the failing input). A window set initialised with the
threshold 3 and fed the 10001 different keys 0, 1, ..., 10000: every key gets
its own number as index, so the last key is given the index 10000, which is
not smaller than the 10000 result buffers of `allocateOutputBufForGroup`;
`size ≤ capacity` does hold afterwards. -/
theorem doSetSlidingWindowFromKey_index_beyond_buffers :
    (setKeysFrom (initSlidingWindowInfo 3) (consecutiveKeys 0 10001)).2 =
      consecutiveKeys 0 10001 ∧
    (consecutiveKeys 0 10001)[10000]? = some 10000 ∧
    ¬ ((10000 : Int) < numOfGroupResultBufs) ∧
    (setKeysFrom (initSlidingWindowInfo 3) (consecutiveKeys 0 10001)).1.size ≤
      (setKeysFrom (initSlidingWindowInfo 3) (consecutiveKeys 0 10001)).1.capacity := by
  have h := setKeysFrom_fresh 10001 (initSlidingWindowInfo 3) (by decide) (by decide)
    (fun key _ => rfl)
  rw [show (initSlidingWindowInfo 3).size = 0 from rfl] at h
  obtain ⟨h1, _, h3⟩ := h
  refine ⟨h1, ?_, by norm_num [numOfGroupResultBufs], h3⟩
  unfold consecutiveKeys
  have hlt : (10000 : Nat) < 10001 := by norm_num
  rw [List.getElem?_map, List.getElem?_range' 0 1 hlt]
  rfl
end VnodeQuery
